import Mathlib

/-!
# Cgroup prober bootstrap: a shallow embedding

Source files embedded here:

* `collector/kernel/cgroup_prober.cc`: the `CgroupProber` constructor,
  `trigger_cgroup_clone_children_read`, `file_exists`, `is_cgroup_mountpoint`,
  `find_cgroup_mountpoint`;
* `collector/kernel/probe_handler.h`: `ProbeAlternatives`, the members of `ProbeHandler`.

The operating system (directory streams, `stat`, `ifstream`) and the kernel attach primitive are
oracles: the code is a function of what they answer.  Every call the code makes is recorded, in
program order, in a list of `Event`s, so that statements such as "is closed before the next pop"
are statements about that list.

Modelling conventions.
* The liveness callback `periodic_cb` is `() -> void` and its result is never consulted.  In the
  constructor and in the first model of the traversal it is a call that returns, and only the
  checkpoint callback `check_cb` throws.  The definitions under `MayThrow` give the traversal
  with a liveness callback that throws: they decide what happens to the directory handle.
* `std::stack<std::string>` is a `List String` whose head is the top.
* A `while` loop whose termination depends on the file system runs on fuel.
* The file system may change while the traversal runs: its answers depend on a clock that is
  different for every pass of the traversal loop.
* The member `close_dir_error_count_` is a natural number: it counts directories, and no
  hierarchy held by a kernel has enough of them to wrap a machine integer.
-/

/-! ## Data model -/

/-- The two fields of `struct dirent` that the traversal inspects. -/
structure dirent where
  d_type : Nat
  d_name : String
deriving DecidableEq, Repr

/-- The value of `DT_DIR` in `<dirent.h>`. -/
def DT_DIR : Nat := 4

/-- The value of `DT_REG` in `<dirent.h>`. -/
def DT_REG : Nat := 8

/-- The mask `S_IFMT` of `<sys/stat.h>`. -/
def S_IFMT : Nat := 0o170000

/-- The file type `S_IFREG` of `<sys/stat.h>`. -/
def S_IFREG : Nat := 0o100000

/-- The macro `S_ISREG(m)` of `<sys/stat.h>`: `((m) & S_IFMT) == S_IFREG`. -/
def S_ISREG (st_mode : Nat) : Bool := (st_mode &&& S_IFMT) == S_IFREG

/-- The answers of the operating system.  The file system may change while the traversal runs
(cgroups are created and removed concurrently), so the answers to the calls of the traversal
depend on a clock as well as on the path: the clock of a call is the number of calls recorded
before the pass of the outer loop that makes it began, which is different for every pass.
* `opendir clock p` is `none` when `opendir(p)` returns `NULL`, and otherwise the entries that
  the successive `readdir` calls on the handle return, in enumeration order;
* `ifstream_fail clock p` is `file.fail()` right after `std::ifstream file(p)`;
* `closedir clock p` is the status `closedir` returns for the handle opened on `p`;
* `stat p` is `none` when `stat(p, &sb)` returns `-1`, and otherwise `sb.st_mode`; each candidate
  mount point is looked up at most once, so no clock is needed. -/
structure FileSystem where
  opendir : Nat → String → Option (List dirent)
  ifstream_fail : Nat → String → Bool
  closedir : Nat → String → Int
  stat : String → Option Nat

/-- One pair of `ProbeAlternatives::func_names` (`probe_handler.h`, `FuncAndKfunc`). -/
structure FuncAndKfunc where
  func_name : String
  k_func_name : String
deriving DecidableEq, Repr

/-- The struct `ProbeAlternatives` of `probe_handler.h`. -/
structure ProbeAlternatives where
  desc : String
  func_names : List FuncAndKfunc
deriving DecidableEq, Repr

/-- Every observable call, in program order. -/
inductive Event where
  /-- The call `periodic_cb()` -/
  | periodic_cb
  /-- The call `check_cb(label)` -/
  | check_cb (label : String)
  /-- The call `probe_handler.start_probe(bpf_module, alternatives)` is entered -/
  | call_start_probe_alternatives (alternatives : ProbeAlternatives)
  /-- The call `probe_handler.start_probe(bpf_module, func_name, k_func_name)` is entered -/
  | call_start_probe (func_name k_func_name : String)
  /-- The call `probe_handler.cleanup_probe(k_func_name)` is entered -/
  | call_cleanup_probe (k_func_name : String)
  /-- The kernel is asked to attach a probe; `ok` is its answer -/
  | kernel_attach (is_kretprobe : Bool) (func_name k_func_name : String) (ok : Bool)
  /-- The kernel is asked to detach the attachment `probe_name` -/
  | kernel_detach (probe_name : String)
  /-- The call `stat(path, &sb)` -/
  | stat (path : String)
  /-- The call `dirs_stack.emplace(path)` -/
  | push (path : String)
  /-- The call `dirs_stack.top()` followed by `dirs_stack.pop()` -/
  | pop (dir_name : String)
  /-- The call `opendir(dir_name)`; `ok` is `dir != NULL` -/
  | opendir (dir_name : String) (ok : Bool)
  /-- The call `std::ifstream file(path)`; `ok` is `!file.fail()` -/
  | ifstream (path : String) (ok : Bool)
  /-- The call `std::getline(file, line)` on the stream opened on `path` -/
  | getline (path : String)
  /-- One `readdir(dir)` call on the handle of `dir_name`; `none` is the final `NULL` -/
  | readdir (dir_name : String) (ent : Option dirent)
  /-- The call `closedir(dir)` on the handle of `dir_name`, with the status it returned -/
  | closedir (dir_name : String) (status : Int)
deriving DecidableEq, Repr

/-! ## `CgroupProber::trigger_cgroup_clone_children_read` -/

/-- The variables the traversal loop mutates: the local `dirs_stack` (top first), the member
`close_dir_error_count_`, and the calls made so far. -/
structure TraversalState where
  dirs_stack : List String
  close_dir_error_count_ : Nat
  trace : List Event
deriving DecidableEq, Repr

/-- Record one call. -/
def TraversalState.emit (st : TraversalState) (e : Event) : TraversalState :=
  { st with trace := st.trace ++ [e] }

/-- The statement `dirs_stack.emplace(path)`. -/
def TraversalState.emplace (st : TraversalState) (path : String) : TraversalState :=
  { st with dirs_stack := path :: st.dirs_stack, trace := st.trace ++ [Event.push path] }

/-- The statements `int status = closedir(dir); if (status != 0) close_dir_error_count_++;`. -/
def close_and_count (fs : FileSystem) (clock : Nat) (dir_name : String)
    (st : TraversalState) : TraversalState :=
  let status := fs.closedir clock dir_name
  let st := st.emit (Event.closedir dir_name status)
  if status ≠ 0 then
    { st with close_dir_error_count_ := st.close_dir_error_count_ + 1 }
  else
    st

/-- The inner loop `while ((ent = readdir(dir)) != NULL) { ... }` over the entries the handle
still has to return. -/
def readdir_loop (dir_name : String) : List dirent → TraversalState → TraversalState
  | [], st => st.emit (Event.readdir dir_name none)
  | ent :: rest, st =>
    let st := st.emit (Event.readdir dir_name (some ent))
    if ent.d_type = DT_DIR then
      if ent.d_name = "." ∨ ent.d_name = ".." then
        -- `continue`: the callback at the end of the body is not reached
        readdir_loop dir_name rest st
      else
        let st := st.emplace (dir_name ++ "/" ++ ent.d_name)
        readdir_loop dir_name rest (st.emit Event.periodic_cb)
    else
      readdir_loop dir_name rest (st.emit Event.periodic_cb)

/-- One pass through the body of `while (!dirs_stack.empty()) { ... }`.  On an empty stack the
body is not entered. -/
def loop_body (fs : FileSystem) (st : TraversalState) : TraversalState :=
  match st.dirs_stack with
  | [] => st
  | dir_name :: below =>
    let clock := st.trace.length
    let st := st.emit Event.periodic_cb
    let st := { st with dirs_stack := below }.emit (Event.pop dir_name)
    match fs.opendir clock dir_name with
    | none =>
      -- `if (!dir) continue;`
      st.emit (Event.opendir dir_name false)
    | some ents =>
      let st := st.emit (Event.opendir dir_name true)
      let clone_children_path := dir_name ++ "/cgroup.clone_children"
      if fs.ifstream_fail clock clone_children_path then
        let st := st.emit (Event.ifstream clone_children_path false)
        -- `closedir`, count, `continue`
        close_and_count fs clock dir_name st
      else
        let st := st.emit (Event.ifstream clone_children_path true)
        let st := st.emit (Event.getline clone_children_path)
        let st := readdir_loop dir_name ents st
        close_and_count fs clock dir_name st

/-- At most `fuel` passes through the loop body; stops as soon as the stack is empty. -/
def while_loop (fs : FileSystem) : Nat → TraversalState → TraversalState
  | 0, st => st
  | fuel + 1, st =>
    match st.dirs_stack with
    | [] => st
    | _ :: _ => while_loop fs fuel (loop_body fs st)

/-- The member `close_dir_error_count_` is the only state of a `CgroupProber`. -/
structure CgroupProber where
  close_dir_error_count_ : Nat
deriving DecidableEq, Repr

/-- The loop variables of `trigger_cgroup_clone_children_read(dir_name, periodic_cb)` after
`dirs_stack.emplace(dir_name)` and at most `fuel` passes through the loop body. -/
def CgroupProber.traversal_after (fs : FileSystem) (fuel : Nat) (this : CgroupProber)
    (dir_name : String) : TraversalState :=
  while_loop fs fuel ((TraversalState.mk [] this.close_dir_error_count_ []).emplace dir_name)

/-- The method `CgroupProber::trigger_cgroup_clone_children_read(dir_name, periodic_cb)`.
It returns the state in which the loop exits, or `none` when `fuel` passes were not enough. -/
def CgroupProber.trigger_cgroup_clone_children_read (fs : FileSystem) (fuel : Nat)
    (this : CgroupProber) (dir_name : String) : Option TraversalState :=
  let st := CgroupProber.traversal_after fs fuel this dir_name
  if st.dirs_stack = [] then some st else none

/-! ## `find_cgroup_mountpoint` -/

/-- The static function `file_exists(file_path)`: the answer, and the `stat` call it makes. -/
def file_exists (fs : FileSystem) (file_path : String) : Bool × List Event :=
  match fs.stat file_path with
  | none => (false, [Event.stat file_path])
  | some st_mode => (S_ISREG st_mode, [Event.stat file_path])

/-- The static function `is_cgroup_mountpoint(dir_path)`. -/
def is_cgroup_mountpoint (fs : FileSystem) (dir_path : String) : Bool × List Event :=
  file_exists fs (dir_path ++ "/cgroup.clone_children")

/-- The method `CgroupProber::find_cgroup_mountpoint()`: the returned string, and the `stat`
calls made on the way. -/
def CgroupProber.find_cgroup_mountpoint (fs : FileSystem) : String × List Event :=
  let r1 := is_cgroup_mountpoint fs "/hostfs/sys/fs/cgroup/memory"
  if r1.1 then ("/hostfs/sys/fs/cgroup/memory", r1.2) else
  let r2 := is_cgroup_mountpoint fs "/hostfs/cgroup/memory"
  if r2.1 then ("/hostfs/cgroup/memory", r1.2 ++ r2.2) else
  let r3 := is_cgroup_mountpoint fs "/sys/fs/cgroup/memory"
  if r3.1 then ("/sys/fs/cgroup/memory", r1.2 ++ r2.2 ++ r3.2) else
  let r4 := is_cgroup_mountpoint fs "/cgroup/memory"
  if r4.1 then ("/cgroup/memory", r1.2 ++ r2.2 ++ r3.2 ++ r4.2) else
  ("", r1.2 ++ r2.2 ++ r3.2 ++ r4.2)

/-! ## `ProbeHandler` -/

/-- The members of `ProbeHandler` (`probe_handler.h`) that attachment and detachment touch:
the names of the live attachments, the failure counter, and the optional symbol snapshot
(`KernelSymbols`, declared in the absent `kernel_symbols.h`, is a set of names). -/
structure ProbeHandler where
  probe_names_ : List String
  num_failed_probes_ : Nat
  kernel_symbols_ : Option (List String)
deriving DecidableEq, Repr

namespace ProbeHandler

/-- The constant `probe_prefix_` of `probe_handler.h`. -/
def probe_prefix_ : String := "ebpf_net_p_"

/-- The constant `kretprobe_prefix_` of `probe_handler.h`. -/
def kretprobe_prefix_ : String := "ebpf_net_r_"

/-- Modelled from the spec: the name under which an attachment is tracked (the body of the
attach code is in the absent `probe_handler.cc`); the header gives the two prefixes. -/
def probe_name (is_kretprobe : Bool) (k_func_name event_id_suffix : String) : String :=
  (if is_kretprobe then kretprobe_prefix_ else probe_prefix_) ++ k_func_name ++ event_id_suffix

/-- Modelled from the spec: the body of `ProbeHandler::start_probe_common` (single target) is in
`probe_handler.cc`, which is not among the sources.  Spec 4.1: "on success, records the attachment
and returns a success code"; on failure "returns a failure code".  The header says of this member
only "@returns 0 on success, negative value on failure"; the counter is the business of the public
entry points.  `attach` is the kernel's answer. -/
def start_probe_common (attach : Bool → String → String → Bool) (h : ProbeHandler)
    (is_kretprobe : Bool) (func_name k_func_name event_id_suffix : String) :
    Int × ProbeHandler × List Event :=
  if attach is_kretprobe func_name k_func_name then
    (0,
     { h with probe_names_ :=
         h.probe_names_ ++ [probe_name is_kretprobe k_func_name event_id_suffix] },
     [Event.kernel_attach is_kretprobe func_name k_func_name true])
  else
    (-1, h, [Event.kernel_attach is_kretprobe func_name k_func_name false])

/-- Modelled from the spec: the body of the public single-target `ProbeHandler::start_probe` /
`start_kretprobe` is in the absent `probe_handler.cc`.  Header: "on failure logs error and
increments num_failed_probes_; @returns 0 on success, negative value on failure". -/
def start_single (attach : Bool → String → String → Bool) (h : ProbeHandler)
    (is_kretprobe : Bool) (func_name k_func_name event_id_suffix : String) :
    Int × ProbeHandler × List Event :=
  let r := start_probe_common attach h is_kretprobe func_name k_func_name event_id_suffix
  if r.1 ≠ 0 then
    (r.1, { r.2.1 with num_failed_probes_ := r.2.1.num_failed_probes_ + 1 }, r.2.2)
  else
    r

/-- Modelled from the spec: the loop of `ProbeHandler::start_probe_common` (alternatives form,
body in the absent `probe_handler.cc`) over the candidates still to try.  Spec 4.1: "For each
candidate, if a kernel symbol snapshot is loaded and the candidate's kernel target name is absent
from it, the candidate is skipped without attempting attachment.  Otherwise attachment is
attempted via the single-target path.  The first successful attachment short-circuits the loop;
its resolved kernel target name is returned." -/
def try_alternatives (attach : Bool → String → String → Bool) (is_kretprobe : Bool)
    (event_id_suffix : String) :
    List FuncAndKfunc → ProbeHandler → List Event → Option String × ProbeHandler × List Event
  | [], h, evs => (none, h, evs)
  | alt :: rest, h, evs =>
    if (match h.kernel_symbols_ with
        | some symbols => !(symbols.contains alt.k_func_name)
        | none => false) then
      try_alternatives attach is_kretprobe event_id_suffix rest h evs
    else
      let r := start_probe_common attach h is_kretprobe alt.func_name alt.k_func_name
        event_id_suffix
      if r.1 = 0 then
        (some alt.k_func_name, r.2.1, evs ++ r.2.2)
      else
        try_alternatives attach is_kretprobe event_id_suffix rest r.2.1 (evs ++ r.2.2)

/-- Modelled from the spec: `ProbeHandler::start_probe_common` (alternatives form).  Spec 4.1:
"If every alternative fails (or is filtered), the failure counter is incremented exactly once for
the whole group and an empty result is returned." -/
def start_alternatives (attach : Bool → String → String → Bool) (h : ProbeHandler)
    (is_kretprobe : Bool) (probe_alternatives : ProbeAlternatives) (event_id_suffix : String) :
    String × ProbeHandler × List Event :=
  match try_alternatives attach is_kretprobe event_id_suffix probe_alternatives.func_names h [] with
  | (some k_func_name, h, evs) => (k_func_name, h, evs)
  | (none, h, evs) => ("", { h with num_failed_probes_ := h.num_failed_probes_ + 1 }, evs)

/-- Modelled from the spec: the overload `start_probe(bpf_module, func_name, k_func_name,
event_id_suffix)`, declared in `probe_handler.h`, body in the absent `probe_handler.cc`. -/
def start_probe (attach : Bool → String → String → Bool) (h : ProbeHandler)
    (func_name k_func_name : String) (event_id_suffix : String) :
    Int × ProbeHandler × List Event :=
  start_single attach h false func_name k_func_name event_id_suffix

/-- Modelled from the spec: the overload `start_kretprobe(bpf_module, func_name, k_func_name,
event_id_suffix)`, declared in `probe_handler.h`, body in the absent `probe_handler.cc`. -/
def start_kretprobe (attach : Bool → String → String → Bool) (h : ProbeHandler)
    (func_name k_func_name : String) (event_id_suffix : String) :
    Int × ProbeHandler × List Event :=
  start_single attach h true func_name k_func_name event_id_suffix

/-- Modelled from the spec: the overload `start_probe(bpf_module, probe_alternatives,
event_id_suffix)`, declared in `probe_handler.h`, body in the absent `probe_handler.cc`. -/
def start_probe_alternatives (attach : Bool → String → String → Bool) (h : ProbeHandler)
    (probe_alternatives : ProbeAlternatives) (event_id_suffix : String) :
    String × ProbeHandler × List Event :=
  start_alternatives attach h false probe_alternatives event_id_suffix

/-- Modelled from the spec: the overload `start_kretprobe(bpf_module, probe_alternatives,
event_id_suffix)`, declared in `probe_handler.h`, body in the absent `probe_handler.cc`. -/
def start_kretprobe_alternatives (attach : Bool → String → String → Bool) (h : ProbeHandler)
    (probe_alternatives : ProbeAlternatives) (event_id_suffix : String) :
    String × ProbeHandler × List Event :=
  start_alternatives attach h true probe_alternatives event_id_suffix

/-- Modelled from the spec: `ProbeHandler::cleanup_probe_common` (body in the absent
`probe_handler.cc`).  Spec 4.1: "detaches a single named attachment; safe to call even if the
name was never attached (no-op, not an error)"; spec 3: the attachment record is destroyed "on
explicit cleanup-by-name". -/
def cleanup_probe_common (h : ProbeHandler) (probe_name : String) :
    ProbeHandler × List Event :=
  if probe_name ∈ h.probe_names_ then
    ({ h with probe_names_ := h.probe_names_.filter (fun n => n ≠ probe_name) },
     [Event.kernel_detach probe_name])
  else
    (h, [])

/-- Modelled from the spec: the member `cleanup_probe(k_func_name)`, declared in
`probe_handler.h`, body in the absent `probe_handler.cc`. -/
def cleanup_probe (h : ProbeHandler) (k_func_name : String) : ProbeHandler × List Event :=
  cleanup_probe_common h (probe_prefix_ ++ k_func_name)

/-- Modelled from the spec: the member `cleanup_kretprobe(k_func_name)`, declared in
`probe_handler.h`, body in the absent `probe_handler.cc`. -/
def cleanup_kretprobe (h : ProbeHandler) (k_func_name : String) : ProbeHandler × List Event :=
  cleanup_probe_common h (kretprobe_prefix_ ++ k_func_name)

/-- Modelled from the spec: `load_kernel_symbols()` takes the snapshot; `symbols` is the content
of `/proc/kallsyms` at that moment. -/
def load_kernel_symbols (h : ProbeHandler) (symbols : List String) : ProbeHandler :=
  { h with kernel_symbols_ := some symbols }

/-- Modelled from the spec: `clear_kernel_symbols()` releases the snapshot and "does not affect
already-attached probes". -/
def clear_kernel_symbols (h : ProbeHandler) : ProbeHandler :=
  { h with kernel_symbols_ := none }

end ProbeHandler

/-! ## The `CgroupProber` constructor -/

/-- Everything outside the program that the constructor consults: the file system, the kernel's
answer to an attach request, and whether `check_cb(label)` throws.  The constructor passes a
different label at each of its checkpoints, so a callback that throws at its n-th invocation is
one that throws at the n-th label. -/
structure Env where
  fs : FileSystem
  attach : Bool → String → String → Bool
  check_cb_throws : String → Bool

/-- How a run of the constructor ends. -/
inductive Status where
  /-- The constructor returned -/
  | returned
  /-- The call `check_cb(label)` threw, and the exception left the constructor -/
  | raised (label : String)
  /-- The traversal did not finish within the fuel -/
  | out_of_fuel
deriving DecidableEq, Repr

/-- What a run of the constructor leaves behind: the probe handler it was given by reference, its
own member, the calls made, and how it ended. -/
structure CtorResult where
  probe_handler : ProbeHandler
  close_dir_error_count_ : Nat
  trace : List Event
  status : Status
deriving DecidableEq, Repr

/-- The local `kill_kss_probe_alternatives` of the constructor. -/
def kill_kss_probe_alternatives : ProbeAlternatives :=
  { desc := "kill css",
    func_names := [
      ⟨"on_kill_css", "kill_css"⟩,
      ⟨"on_kill_css", "css_clear_dir"⟩,
      ⟨"on_cgroup_destroy_locked", "cgroup_destroy_locked"⟩] }

/-- The local `css_populate_dir_probe_alternatives` of the constructor. -/
def css_populate_dir_probe_alternatives : ProbeAlternatives :=
  { desc := "css populate dir",
    func_names := [
      ⟨"on_css_populate_dir", "css_populate_dir"⟩,
      ⟨"on_cgroup_populate_dir", "cgroup_populate_dir"⟩] }

/-- The statements of the constructor from `/* can remove existing now */` to its end. -/
def CgroupProber.ctor_cleanup (env : Env) (ph : ProbeHandler) (count : Nat)
    (trace : List Event) : CtorResult :=
  let c := ph.cleanup_probe "cgroup_clone_children_read"
  let trace := trace ++ [Event.call_cleanup_probe "cgroup_clone_children_read"] ++ c.2
  let trace := trace ++ [Event.periodic_cb]
  let trace := trace ++ [Event.check_cb "cgroup prober cleanup()"]
  if env.check_cb_throws "cgroup prober cleanup()" then
    ⟨c.1, count, trace, Status.raised "cgroup prober cleanup()"⟩
  else
    ⟨c.1, count, trace, Status.returned⟩

/-- The statements of the constructor from `// locate the cgroup mount directory` to its end. -/
def CgroupProber.ctor_locate_and_traverse (env : Env) (ph : ProbeHandler) (fuel : Nat)
    (trace : List Event) : CtorResult :=
  let m := CgroupProber.find_cgroup_mountpoint env.fs
  let cgroup_mountpoint := m.1
  let trace := trace ++ m.2
  if cgroup_mountpoint ≠ "" then
    match CgroupProber.trigger_cgroup_clone_children_read env.fs fuel ⟨0⟩ cgroup_mountpoint with
    | none => ⟨ph, 0, trace, Status.out_of_fuel⟩
    | some st =>
      let trace := trace ++ st.trace
      let trace := trace ++ [Event.check_cb "trigger_cgroup_clone_children_read()"]
      if env.check_cb_throws "trigger_cgroup_clone_children_read()" then
        ⟨ph, st.close_dir_error_count_, trace,
          Status.raised "trigger_cgroup_clone_children_read()"⟩
      else
        CgroupProber.ctor_cleanup env ph st.close_dir_error_count_ trace
  else
    CgroupProber.ctor_cleanup env ph 0 trace

/-- The statements of the constructor from its beginning to the `periodic_cb()` that precedes
the first checkpoint: the four `start_probe` calls, whose results are discarded as in the source,
and the liveness callbacks between them.  Returns the probe handler and the calls made. -/
def CgroupProber.ctor_attach (env : Env) (probe_handler : ProbeHandler) :
    ProbeHandler × List Event :=
  -- END
  let r1 := probe_handler.start_probe_alternatives env.attach kill_kss_probe_alternatives ""
  let trace := [Event.call_start_probe_alternatives kill_kss_probe_alternatives] ++ r1.2.2
  let trace := trace ++ [Event.periodic_cb]
  -- START
  let r2 := r1.2.1.start_probe_alternatives env.attach css_populate_dir_probe_alternatives ""
  let trace := trace ++ [Event.call_start_probe_alternatives css_populate_dir_probe_alternatives]
    ++ r2.2.2
  let trace := trace ++ [Event.periodic_cb]
  -- EXISTING
  let r3 := r2.2.1.start_probe env.attach "on_cgroup_clone_children_read"
    "cgroup_clone_children_read" ""
  let trace := trace ++
    [Event.call_start_probe "on_cgroup_clone_children_read" "cgroup_clone_children_read"] ++ r3.2.2
  let r4 := r3.2.1.start_probe env.attach "on_cgroup_attach_task" "cgroup_attach_task" ""
  let trace := trace ++ [Event.call_start_probe "on_cgroup_attach_task" "cgroup_attach_task"]
    ++ r4.2.2
  let trace := trace ++ [Event.periodic_cb]
  (r4.2.1, trace)

/-- The constructor `CgroupProber::CgroupProber(probe_handler, bpf_module, periodic_cb,
check_cb)`, with `close_dir_error_count_(0)`. -/
def CgroupProber.ctor (env : Env) (probe_handler : ProbeHandler) (fuel : Nat) : CtorResult :=
  let a := CgroupProber.ctor_attach env probe_handler
  let trace := a.2 ++ [Event.check_cb "cgroup prober startup"]
  if env.check_cb_throws "cgroup prober startup" then
    ⟨a.1, 0, trace, Status.raised "cgroup prober startup"⟩
  else
    CgroupProber.ctor_locate_and_traverse env a.1 fuel trace

/-! ## What one pass of the loop does, in closed form -/

/-- The test under which the inner loop pushes an entry: `d_type == DT_DIR` and the name is
neither `.` nor `..`. -/
def is_pushed (ent : dirent) : Bool :=
  decide (ent.d_type = DT_DIR) && !(decide (ent.d_name = ".") || decide (ent.d_name = ".."))

/-- The paths the inner loop pushes for the entries `ents` of `dir_name`, in enumeration order. -/
def pushed_paths (dir_name : String) (ents : List dirent) : List String :=
  (ents.filter is_pushed).map (fun ent => dir_name ++ "/" ++ ent.d_name)

/-- The calls the inner loop makes for the entries `ents` of `dir_name`. -/
def readdir_events (dir_name : String) : List dirent → List Event
  | [] => [Event.readdir dir_name none]
  | ent :: rest =>
    Event.readdir dir_name (some ent) ::
      ((if ent.d_type = DT_DIR then
          if ent.d_name = "." ∨ ent.d_name = ".." then []
          else [Event.push (dir_name ++ "/" ++ ent.d_name), Event.periodic_cb]
        else [Event.periodic_cb]) ++ readdir_events dir_name rest)

/-- The calls of the pass of the outer loop that starts at `clock` and pops `dir_name`. -/
def body_events (fs : FileSystem) (clock : Nat) (dir_name : String) : List Event :=
  match fs.opendir clock dir_name with
  | none => [Event.periodic_cb, Event.pop dir_name, Event.opendir dir_name false]
  | some ents =>
    if fs.ifstream_fail clock (dir_name ++ "/cgroup.clone_children") then
      [Event.periodic_cb, Event.pop dir_name, Event.opendir dir_name true,
        Event.ifstream (dir_name ++ "/cgroup.clone_children") false,
        Event.closedir dir_name (fs.closedir clock dir_name)]
    else
      [Event.periodic_cb, Event.pop dir_name, Event.opendir dir_name true,
        Event.ifstream (dir_name ++ "/cgroup.clone_children") true,
        Event.getline (dir_name ++ "/cgroup.clone_children")]
        ++ readdir_events dir_name ents
        ++ [Event.closedir dir_name (fs.closedir clock dir_name)]

/-- The paths the pass of the outer loop that starts at `clock` and pops `dir_name` pushes, in
the order pushed. -/
def body_pushes (fs : FileSystem) (clock : Nat) (dir_name : String) : List String :=
  match fs.opendir clock dir_name with
  | none => []
  | some ents =>
    if fs.ifstream_fail clock (dir_name ++ "/cgroup.clone_children") then []
    else pushed_paths dir_name ents

/-- By how much the pass of the outer loop that starts at `clock` and pops `dir_name` raises the
counter. -/
def body_close_errors (fs : FileSystem) (clock : Nat) (dir_name : String) : Nat :=
  match fs.opendir clock dir_name with
  | none => 0
  | some _ => if fs.closedir clock dir_name ≠ 0 then 1 else 0

/-! ## Directory hierarchies -/

/-- The content of one directory of a finite hierarchy, in the order `readdir` enumerates it:
either the end of the stream, or an entry that is not a subdirectory of the hierarchy (a file, a
link, the self and parent entries) followed by the rest, or a subdirectory, reported with
`d_type == DT_DIR`, with its own content, followed by the rest. -/
inductive Hierarchy where
  | nil : Hierarchy
  | other (ent : dirent) (rest : Hierarchy) : Hierarchy
  | subdir (d_name : String) (content : Hierarchy) (rest : Hierarchy) : Hierarchy
deriving DecidableEq, Repr

namespace Hierarchy

/-- The entries `readdir` returns for a directory with this content. -/
def entries : Hierarchy → List dirent
  | nil => []
  | other ent rest => ent :: rest.entries
  | subdir d_name _ rest => ⟨DT_DIR, d_name⟩ :: rest.entries

/-- Well-formedness: no subdirectory is named `.` or `..`, and an entry that is not a
subdirectory of the hierarchy has type `DT_DIR` only if it is the self or the parent entry. -/
def wf : Hierarchy → Bool
  | nil => true
  | other ent rest =>
    (decide (ent.d_type ≠ DT_DIR) || decide (ent.d_name = ".") || decide (ent.d_name = ".."))
      && rest.wf
  | subdir d_name content rest =>
    decide (d_name ≠ ".") && decide (d_name ≠ "..") && content.wf && rest.wf

/-- The number of directories strictly below the one with this content. -/
def size : Hierarchy → Nat
  | nil => 0
  | other _ rest => rest.size
  | subdir _ content rest => content.size + 1 + rest.size

/-- The immediate subdirectories of the directory `path` with this content: their paths and
contents, in enumeration order. -/
def children (path : String) : Hierarchy → List (String × Hierarchy)
  | nil => []
  | other _ rest => children path rest
  | subdir d_name content rest => (path ++ "/" ++ d_name, content) :: children path rest

/-- Every directory strictly below `path`, with its path and its entries: each subdirectory is
followed by what is below it, subdirectories in enumeration order. -/
def dirs : Hierarchy → String → List (String × List dirent)
  | nil, _ => []
  | other _ rest, path => dirs rest path
  | subdir d_name content rest, path =>
    (path ++ "/" ++ d_name, content.entries) :: dirs content (path ++ "/" ++ d_name)
      ++ dirs rest path

/-- Every directory of the hierarchy rooted at `root`, the root included. -/
def all_dirs (h : Hierarchy) (root : String) : List (String × List dirent) :=
  (root, h.entries) :: h.dirs root

/-- The paths of the directories of the hierarchy rooted at `root`. -/
def all_paths (h : Hierarchy) (root : String) : List String :=
  (h.all_dirs root).map Prod.fst

/-- The directories strictly below `path`, each with its entries, in the order a stack hands
them out: the subtree of a later-enumerated subdirectory comes before any earlier-enumerated
one. -/
def visit_dirs : Hierarchy → String → List (String × List dirent)
  | nil, _ => []
  | other _ rest, path => visit_dirs rest path
  | subdir d_name content rest, path =>
    visit_dirs rest path
      ++ (path ++ "/" ++ d_name, content.entries) :: visit_dirs content (path ++ "/" ++ d_name)

/-- The paths of the directories strictly below `path`, in the order a stack hands them out. -/
def visit_order (h : Hierarchy) (path : String) : List String :=
  (h.visit_dirs path).map Prod.fst

end Hierarchy

/-- The file system has the hierarchy `h` at `root`: at every moment each of its directories
opens and enumerates the entries of the hierarchy. -/
def FileSystem.has_hierarchy (fs : FileSystem) (root : String) (h : Hierarchy) : Prop :=
  ∀ clock, ∀ d ∈ h.all_dirs root, fs.opendir clock d.1 = some d.2

/-- At every moment each directory of the hierarchy `h` at `root` contains an openable
`cgroup.clone_children`. -/
def FileSystem.triggers_open (fs : FileSystem) (root : String) (h : Hierarchy) : Prop :=
  ∀ clock, ∀ d ∈ h.all_dirs root,
    fs.ifstream_fail clock (d.1 ++ "/cgroup.clone_children") = false

/-- Paths waiting on the stack together with the content of the directory each names: the fuel
they need, one pass per directory. -/
def pending_fuel (pend : List (String × Hierarchy)) : Nat :=
  (pend.map (fun x => x.2.size + 1)).sum

/-- Paths waiting on the stack together with the content of the directory each names: the
directories in and below them, each with its entries, in the order the loop pops them. -/
def pending_order (pend : List (String × Hierarchy)) : List (String × List dirent) :=
  pend.flatMap (fun x => (x.1, x.2.entries) :: x.2.visit_dirs x.1)

/-! ## Observations on a list of calls -/

/-- The paths popped, in order. -/
def popped (trace : List Event) : List String :=
  trace.filterMap (fun e => match e with | Event.pop p => some p | _ => none)

/-- The paths pushed, in order. -/
def pushed (trace : List Event) : List String :=
  trace.filterMap (fun e => match e with | Event.push p => some p | _ => none)

/-- The directories on which `opendir` succeeded, in order. -/
def dirs_opened (trace : List Event) : List String :=
  trace.filterMap (fun e => match e with | Event.opendir p true => some p | _ => none)

/-- The trigger files opened successfully, in order. -/
def triggers_opened (trace : List Event) : List String :=
  trace.filterMap (fun e => match e with | Event.ifstream p true => some p | _ => none)

/-- The trigger files from which a line was read, in order. -/
def lines_read (trace : List Event) : List String :=
  trace.filterMap (fun e => match e with | Event.getline p => some p | _ => none)

/-- The directories whose stream was read to its end, in order. -/
def enumerated (trace : List Event) : List String :=
  trace.filterMap (fun e => match e with | Event.readdir p none => some p | _ => none)

/-- The directories whose handle was closed, in order. -/
def dirs_closed (trace : List Event) : List String :=
  trace.filterMap (fun e => match e with | Event.closedir p _ => some p | _ => none)

/-- The entries handed out by `readdir`, each with the directory it was read from, in order. -/
def entries_read (trace : List Event) : List (String × dirent) :=
  trace.filterMap (fun e => match e with | Event.readdir p (some ent) => some (p, ent) | _ => none)

/-- Between the calls `before` and the calls `after`, the directories `ds`, given with their
entries, were each processed once, in the order of `ds`: popped, opened, their trigger file
opened and a line read from it, their entries read to the end, and closed. -/
def Processed (before after : List Event) (ds : List (String × List dirent)) : Prop :=
  popped after = popped before ++ ds.map Prod.fst ∧
  dirs_opened after = dirs_opened before ++ ds.map Prod.fst ∧
  triggers_opened after =
    triggers_opened before ++ ds.map (fun d => d.1 ++ "/cgroup.clone_children") ∧
  lines_read after = lines_read before ++ ds.map (fun d => d.1 ++ "/cgroup.clone_children") ∧
  enumerated after = enumerated before ++ ds.map Prod.fst ∧
  entries_read after =
    entries_read before ++ ds.flatMap (fun d => d.2.map (fun e => (d.1, e))) ∧
  dirs_closed after = dirs_closed before ++ ds.map Prod.fst

/-! ## Concrete file systems used as witnesses -/

/-- A chain of three nested cgroup directories under `/m`, each with its trigger file. -/
def chain3 : Hierarchy :=
  Hierarchy.other ⟨DT_DIR, "."⟩ (Hierarchy.other ⟨DT_DIR, ".."⟩
    (Hierarchy.other ⟨DT_REG, "cgroup.clone_children"⟩
      (Hierarchy.subdir "a"
        (Hierarchy.other ⟨DT_DIR, "."⟩ (Hierarchy.other ⟨DT_DIR, ".."⟩
          (Hierarchy.other ⟨DT_REG, "cgroup.clone_children"⟩
            (Hierarchy.subdir "b"
              (Hierarchy.other ⟨DT_DIR, "."⟩ (Hierarchy.other ⟨DT_DIR, ".."⟩
                (Hierarchy.other ⟨DT_REG, "cgroup.clone_children"⟩ Hierarchy.nil)))
              Hierarchy.nil))))
        Hierarchy.nil)))

/-- The file system that holds exactly the hierarchy `h` at `root` and does not change; every
trigger file opens, every `closedir` succeeds, and `stat` finds nothing. -/
def fs_of (root : String) (h : Hierarchy) : FileSystem where
  opendir _ p := (h.all_dirs root).lookup p
  ifstream_fail _ _ := false
  closedir _ _ := 0
  stat _ := none

/-- A mount point `/m` with one subdirectory `a`; the trigger file of `/m` does not open. -/
def fs_trigger_fails : FileSystem where
  opendir _ p :=
    if p = "/m" then some [⟨DT_DIR, "."⟩, ⟨DT_DIR, ".."⟩, ⟨DT_DIR, "a"⟩]
    else if p = "/m/a" then some [⟨DT_DIR, "."⟩, ⟨DT_DIR, ".."⟩]
    else none
  ifstream_fail _ p := decide (p = "/m/cgroup.clone_children")
  closedir _ _ := 0
  stat _ := none

/-- The number of invocations of the liveness callback. -/
def periodic_cb_calls (trace : List Event) : Nat :=
  (trace.filter (fun e => match e with | Event.periodic_cb => true | _ => false)).length

/-- The entry is named `.` or `..`: it is the directory itself or its parent, not a child. -/
def is_self_or_parent (ent : dirent) : Bool :=
  decide (ent.d_name = ".") || decide (ent.d_name = "..")

/-- The entries for which the inner loop takes its `continue`: type `DT_DIR`, named `.` or `..`. -/
def takes_continue (ent : dirent) : Bool :=
  decide (ent.d_type = DT_DIR) && (decide (ent.d_name = ".") || decide (ent.d_name = ".."))

/-- The child entries handed out by `readdir`: all entries but the self and parent entries. -/
def child_entries_read (trace : List Event) : List (String × dirent) :=
  (entries_read trace).filter (fun x => !is_self_or_parent x.2)

/-- The number of `closedir` calls that returned a non-zero status. -/
def close_failures (trace : List Event) : Nat :=
  (trace.filter (fun e => match e with
    | Event.closedir _ status => decide (status ≠ 0)
    | _ => false)).length

/-- The call with the status of a `closedir` blanked out. -/
def forget_status (e : Event) : Event :=
  match e with
  | Event.closedir dir_name _ => Event.closedir dir_name 0
  | e => e

/-- The same file system in which `closedir` answers `closedir2` instead. -/
def FileSystem.with_closedir (fs : FileSystem) (closedir2 : Nat → String → Int) :
    FileSystem :=
  { fs with closedir := closedir2 }

/-- Follows the directory handle through one call.  The state is `none` once the discipline is
broken, `some none` while no handle is open, and `some (some p)` while the handle of `p` is open.
The discipline: `opendir` succeeds only while no handle is open, `closedir` closes the handle
that is open, and a path is popped only while no handle is open. -/
def handle_step (state : Option (Option String)) (e : Event) : Option (Option String) :=
  state.bind (fun cur =>
    match e with
    | Event.opendir p true => if cur = none then some (some p) else none
    | Event.closedir p _ => if cur = some p then some none else none
    | Event.pop _ => if cur = none then some none else none
    | _ => some cur)

/-- The state of the directory handle after the calls of `trace`, none being open before. -/
def handle_after (trace : List Event) : Option (Option String) :=
  trace.foldl handle_step (some none)

/-! ## Mount point candidates -/

/-- The candidate mount points, in the order the spec lists them. -/
def mountpoint_candidates : List String :=
  ["/hostfs/sys/fs/cgroup/memory", "/hostfs/cgroup/memory", "/sys/fs/cgroup/memory",
    "/cgroup/memory"]

/-- The spec's words: a path qualifies if it contains a regular file named
`cgroup.clone_children`, that is, the file exists and is a regular file. -/
def qualifies (fs : FileSystem) (path : String) : Bool :=
  match fs.stat (path ++ "/cgroup.clone_children") with
  | some st_mode => (st_mode &&& 0o170000) == 0o100000
  | none => false

/-! ## Observations on the calls of the constructor -/

/-- The labels passed to the checkpoint callback, in order. -/
def check_cb_labels (trace : List Event) : List String :=
  trace.filterMap (fun e => match e with | Event.check_cb label => some label | _ => none)

/-- The targets passed to `cleanup_probe`, in order. -/
def cleanup_probe_calls (trace : List Event) : List String :=
  trace.filterMap (fun e => match e with | Event.call_cleanup_probe k => some k | _ => none)

/-- The attachments the kernel was asked to detach, in order. -/
def detached (trace : List Event) : List String :=
  trace.filterMap (fun e => match e with | Event.kernel_detach n => some n | _ => none)

/-- The paths passed to `stat`, in order. -/
def stat_calls (trace : List Event) : List String :=
  trace.filterMap (fun e => match e with | Event.stat p => some p | _ => none)

/-- The calls the traversal makes on the file system and on its stack. -/
def is_traversal_call (e : Event) : Bool :=
  match e with
  | Event.push _ => true
  | Event.pop _ => true
  | Event.opendir _ _ => true
  | Event.ifstream _ _ => true
  | Event.getline _ => true
  | Event.readdir _ _ => true
  | Event.closedir _ _ => true
  | _ => false

/-- The calls the attach phase of the constructor can make. -/
def is_attach_phase_call (e : Event) : Bool :=
  match e with
  | Event.periodic_cb => true
  | Event.call_start_probe_alternatives _ => true
  | Event.call_start_probe _ _ => true
  | Event.kernel_attach _ _ _ _ => true
  | _ => false

/-- The calls the traversal can make. -/
def is_traversal_phase_call (e : Event) : Bool :=
  match e with
  | Event.periodic_cb => true
  | e => is_traversal_call e

/-- An environment in which nothing attaches, no candidate mount point exists, and the
checkpoint callback returns normally. -/
def env_bare : Env where
  fs := { opendir := fun _ _ => none, ifstream_fail := fun _ _ => true,
          closedir := fun _ _ => 0, stat := fun _ => none }
  attach _ _ _ := false
  check_cb_throws _ := false

/-- An environment in which every probe attaches, `/sys/fs/cgroup/memory` is the mount point and
holds one cgroup `a`, and the checkpoint callback returns normally. -/
def env_mounted : Env where
  fs := {
    opendir := fun _ p =>
      if p = "/sys/fs/cgroup/memory" then
        some [⟨DT_DIR, "."⟩, ⟨DT_DIR, ".."⟩, ⟨DT_REG, "cgroup.clone_children"⟩, ⟨DT_DIR, "a"⟩]
      else if p = "/sys/fs/cgroup/memory/a" then
        some [⟨DT_DIR, "."⟩, ⟨DT_DIR, ".."⟩, ⟨DT_REG, "cgroup.clone_children"⟩]
      else none,
    ifstream_fail := fun _ _ => false,
    closedir := fun _ _ => 0,
    stat := fun p =>
      if p = "/sys/fs/cgroup/memory/cgroup.clone_children" then some 0o100644 else none }
  attach _ _ _ := true
  check_cb_throws _ := false

/-- The handler before any probe is started. -/
def ProbeHandler.fresh : ProbeHandler :=
  { probe_names_ := [], num_failed_probes_ := 0, kernel_symbols_ := none }

/-- An environment in which every probe attaches and the checkpoint callback throws at the
`cgroup prober startup` checkpoint. -/
def env_startup_throws : Env where
  fs := env_mounted.fs
  attach _ _ _ := true
  check_cb_throws l := decide (l = "cgroup prober startup")

/-! ## Hierarchies with failures -/

/-- The file system holds at most the hierarchy `h` at `root`: at every moment each directory of
the hierarchy either does not open (it was removed, or the call fails for another reason) or
opens and enumerates the entries of the hierarchy.  Nothing is asked of the trigger files or of
`closedir`: they may fail in any pattern. -/
def FileSystem.within_hierarchy (fs : FileSystem) (root : String) (h : Hierarchy) : Prop :=
  ∀ clock, ∀ d ∈ h.all_dirs root,
    fs.opendir clock d.1 = none ∨ fs.opendir clock d.1 = some d.2

/-- The chain of three directories under `/m` in which `/m/a` was removed before the traversal
reaches it, the trigger files never open after the first pass, and every `closedir` fails. -/
def fs_chain3_failing : FileSystem where
  opendir _ p := if p = "/m/a" then none else (chain3.all_dirs "/m").lookup p
  ifstream_fail clock _ := decide (1 < clock)
  closedir _ _ := -1
  stat _ := none

/-! ## Observations on attachment -/

/-- The pre-filter of the alternatives form (spec 4.1): a candidate is skipped when a kernel
symbol snapshot is loaded and the candidate's kernel target name is absent from it. -/
def ProbeHandler.is_filtered (h : ProbeHandler) (alt : FuncAndKfunc) : Bool :=
  match h.kernel_symbols_ with
  | some symbols => !(symbols.contains alt.k_func_name)
  | none => false

/-- The attach request for the candidate `alt`, with the kernel's answer. -/
def attach_event (attach : Bool → String → String → Bool) (is_kretprobe : Bool)
    (alt : FuncAndKfunc) : Event :=
  Event.kernel_attach is_kretprobe alt.func_name alt.k_func_name
    (attach is_kretprobe alt.func_name alt.k_func_name)

/-- The kernel target names for which attachment was attempted, in order. -/
def attach_attempts (trace : List Event) : List String :=
  trace.filterMap (fun e => match e with | Event.kernel_attach _ _ k _ => some k | _ => none)

/-- Three candidates for one hook point. -/
def three_candidates : ProbeAlternatives :=
  { desc := "three candidates",
    func_names := [⟨"on_one", "target_one"⟩, ⟨"on_two", "target_two"⟩,
      ⟨"on_three", "target_three"⟩] }

/-- The kernel in which only `target_three` can be instrumented. -/
def attach_only_third (_ : Bool) (_ : String) (k_func_name : String) : Bool :=
  decide (k_func_name = "target_three")

/-- The kernel in which nothing can be instrumented. -/
def attach_nothing (_ : Bool) (_ : String) (_ : String) : Bool := false

/-- A handler holding a snapshot in which only `target_two` appears. -/
def handler_with_snapshot : ProbeHandler :=
  ProbeHandler.fresh.load_kernel_symbols ["target_two"]

/-- A mount point `/m` with two cgroups, `a` enumerated before `b`; `a` has a child `c`. -/
def two_siblings : Hierarchy :=
  Hierarchy.other ⟨DT_DIR, "."⟩ (Hierarchy.other ⟨DT_DIR, ".."⟩
    (Hierarchy.subdir "a"
      (Hierarchy.other ⟨DT_REG, "cgroup.clone_children"⟩
        (Hierarchy.subdir "c" Hierarchy.nil Hierarchy.nil))
      (Hierarchy.subdir "b" (Hierarchy.other ⟨DT_REG, "tasks"⟩ Hierarchy.nil)
        Hierarchy.nil)))

/-- A mount point `/m` that lists the cgroups `a` and `b`; `b` has been removed and does not
open. -/
def fs_removed_dir : FileSystem where
  opendir _ p :=
    if p = "/m" then some [⟨DT_DIR, "."⟩, ⟨DT_DIR, ".."⟩, ⟨DT_DIR, "a"⟩, ⟨DT_DIR, "b"⟩]
    else if p = "/m/a" then some [⟨DT_DIR, "."⟩, ⟨DT_DIR, ".."⟩]
    else none
  ifstream_fail _ _ := false
  closedir _ _ := 0
  stat _ := none

/-! ## Observations that do not depend on the kernel -/

/-- The requests made to the kernel by the probe handler: they, and only they, depend on whether
attachments succeed. -/
def is_kernel_call (e : Event) : Bool :=
  match e with
  | Event.kernel_attach _ _ _ _ => true
  | Event.kernel_detach _ => true
  | _ => false

/-- The calls the constructor itself makes, in order: the calls of `trace` without the requests
the probe handler makes to the kernel. -/
def program_calls (trace : List Event) : List Event :=
  trace.filter (fun e => !is_kernel_call e)

/-- The same environment with another kernel: attachments succeed according to `attach2`. -/
def Env.with_attach (env : Env) (attach2 : Bool → String → String → Bool) : Env :=
  { env with attach := attach2 }

/-! ## Paths below the starting path -/

/-- The starting path followed by the entry names `names`, each prefixed with `/`. -/
def descend (root : String) (names : List String) : String :=
  names.foldl (fun path d_name => path ++ "/" ++ d_name) root

/-! ## A liveness callback that throws -/

/-- The call `periodic_cb()` of a callback that may throw.  `periodic_cb` is a
`std::function<void(void)>` the caller supplies, and `periodic_cb_throws n` tells whether its
invocation number `n` within the traversal (counting from 0) throws.  The call is recorded either
way.  No `try` block encloses any statement of `trigger_cgroup_clone_children_read`, so the
exception leaves the method at once: `Except.error` carries the loop variables as the exception
finds them, `Except.ok` the variables with which execution goes on. -/
def call_periodic_cb (periodic_cb_throws : Nat → Bool) (st : TraversalState) :
    Except TraversalState TraversalState :=
  if periodic_cb_throws (periodic_cb_calls st.trace) then
    Except.error (st.emit Event.periodic_cb)
  else
    Except.ok (st.emit Event.periodic_cb)

/-- The inner loop `while ((ent = readdir(dir)) != NULL) { ... }` with a callback that may throw:
the exception of the `periodic_cb()` that ends the loop body leaves the loop. -/
def MayThrow.readdir_loop (periodic_cb_throws : Nat → Bool) (dir_name : String) :
    List dirent → TraversalState → Except TraversalState TraversalState
  | [], st => Except.ok (st.emit (Event.readdir dir_name none))
  | ent :: rest, st =>
    let st := st.emit (Event.readdir dir_name (some ent))
    if ent.d_type = DT_DIR then
      if ent.d_name = "." ∨ ent.d_name = ".." then
        -- `continue`: the callback at the end of the body is not reached
        MayThrow.readdir_loop periodic_cb_throws dir_name rest st
      else
        let st := st.emplace (dir_name ++ "/" ++ ent.d_name)
        match call_periodic_cb periodic_cb_throws st with
        | Except.error st => Except.error st
        | Except.ok st => MayThrow.readdir_loop periodic_cb_throws dir_name rest st
    else
      match call_periodic_cb periodic_cb_throws st with
      | Except.error st => Except.error st
      | Except.ok st => MayThrow.readdir_loop periodic_cb_throws dir_name rest st

/-- One pass through the body of `while (!dirs_stack.empty()) { ... }` with a callback that may
throw.  The handle `dir` is a raw `DIR *`: an exception that leaves the `readdir` loop skips the
`closedir(dir)` that follows the loop. -/
def MayThrow.loop_body (fs : FileSystem) (periodic_cb_throws : Nat → Bool)
    (st : TraversalState) : Except TraversalState TraversalState :=
  match st.dirs_stack with
  | [] => Except.ok st
  | dir_name :: below =>
    let clock := st.trace.length
    match call_periodic_cb periodic_cb_throws st with
    | Except.error st => Except.error st
    | Except.ok st =>
      let st := { st with dirs_stack := below }.emit (Event.pop dir_name)
      match fs.opendir clock dir_name with
      | none =>
        -- `if (!dir) continue;`
        Except.ok (st.emit (Event.opendir dir_name false))
      | some ents =>
        let st := st.emit (Event.opendir dir_name true)
        let clone_children_path := dir_name ++ "/cgroup.clone_children"
        if fs.ifstream_fail clock clone_children_path then
          let st := st.emit (Event.ifstream clone_children_path false)
          -- `closedir`, count, `continue`
          Except.ok (close_and_count fs clock dir_name st)
        else
          let st := st.emit (Event.ifstream clone_children_path true)
          let st := st.emit (Event.getline clone_children_path)
          match MayThrow.readdir_loop periodic_cb_throws dir_name ents st with
          | Except.error st => Except.error st
          | Except.ok st => Except.ok (close_and_count fs clock dir_name st)

/-- At most `fuel` passes through the loop body with a callback that may throw; stops as soon as
the stack is empty, and at the first exception. -/
def MayThrow.while_loop (fs : FileSystem) (periodic_cb_throws : Nat → Bool) :
    Nat → TraversalState → Except TraversalState TraversalState
  | 0, st => Except.ok st
  | fuel + 1, st =>
    match st.dirs_stack with
    | [] => Except.ok st
    | _ :: _ =>
      match MayThrow.loop_body fs periodic_cb_throws st with
      | Except.error st => Except.error st
      | Except.ok st => MayThrow.while_loop fs periodic_cb_throws fuel st

/-- The method `trigger_cgroup_clone_children_read(dir_name, periodic_cb)` with a callback that
may throw, after `dirs_stack.emplace(dir_name)` and at most `fuel` passes through the loop body:
`Except.error` when an exception of the callback left the method, and otherwise the loop
variables (the method has returned when `dirs_stack` is empty). -/
def MayThrow.traversal_after (fs : FileSystem) (periodic_cb_throws : Nat → Bool) (fuel : Nat)
    (this : CgroupProber) (dir_name : String) : Except TraversalState TraversalState :=
  MayThrow.while_loop fs periodic_cb_throws fuel
    ((TraversalState.mk [] this.close_dir_error_count_ []).emplace dir_name)

/-- A callback that throws at its second invocation and at no other. -/
def throws_at_second (n : Nat) : Bool := decide (n = 1)

/-- A callback that never throws. -/
def never_throws (_ : Nat) : Bool := false
/-! ## The loop in closed form -/

theorem readdir_loop_eq (dir_name : String) (ents : List dirent) (st : TraversalState) :
    readdir_loop dir_name ents st =
      ⟨(pushed_paths dir_name ents).reverse ++ st.dirs_stack, st.close_dir_error_count_,
        st.trace ++ readdir_events dir_name ents⟩ := by
  induction ents generalizing st with
  | nil => simp [readdir_loop, pushed_paths, readdir_events, TraversalState.emit]
  | cons ent rest ih =>
    unfold readdir_loop
    by_cases h1 : ent.d_type = DT_DIR
    · by_cases h2 : ent.d_name = "." ∨ ent.d_name = ".."
      · have hp : is_pushed ent = false := by
          rcases h2 with h2 | h2 <;> simp [is_pushed, h2]
        simp only [h1, h2, if_true, ih, TraversalState.emit]
        simp [pushed_paths, readdir_events, hp, h1, h2]
      · have hp : is_pushed ent = true := by
          simp only [not_or] at h2
          simp [is_pushed, h1, h2.1, h2.2]
        simp only [h1, h2, if_true, if_false, ih, TraversalState.emit, TraversalState.emplace]
        simp [pushed_paths, readdir_events, hp, h1, h2]
    · have hp : is_pushed ent = false := by simp [is_pushed, h1]
      simp only [h1, if_false, ih, TraversalState.emit]
      simp [pushed_paths, readdir_events, hp, h1]

theorem loop_body_eq (fs : FileSystem) (dir_name : String) (below : List String) (count : Nat)
    (trace : List Event) :
    loop_body fs ⟨dir_name :: below, count, trace⟩ =
      ⟨(body_pushes fs trace.length dir_name).reverse ++ below,
        count + body_close_errors fs trace.length dir_name,
        trace ++ body_events fs trace.length dir_name⟩ := by
  unfold loop_body body_pushes body_close_errors body_events
  cases hop : fs.opendir trace.length dir_name with
  | none => simp [hop, TraversalState.emit]
  | some ents =>
    by_cases hf : fs.ifstream_fail trace.length (dir_name ++ "/cgroup.clone_children") = true
    · by_cases hc : fs.closedir trace.length dir_name = 0
      · simp [hop, hf, hc, close_and_count, TraversalState.emit]
      · simp [hop, hf, hc, close_and_count, TraversalState.emit]
    · by_cases hc : fs.closedir trace.length dir_name = 0
      · simp [hop, hf, hc, close_and_count, TraversalState.emit, readdir_loop_eq]
      · simp [hop, hf, hc, close_and_count, TraversalState.emit, readdir_loop_eq]

/-- Induction over the passes of the outer loop: a property of the loop variables that holds
before the loop and survives every pass holds whenever the loop is stopped. -/
theorem while_loop_induct (fs : FileSystem) (P : TraversalState → Prop)
    (hstep : ∀ dir_name below count trace, P ⟨dir_name :: below, count, trace⟩ →
      P ⟨(body_pushes fs trace.length dir_name).reverse ++ below,
        count + body_close_errors fs trace.length dir_name,
        trace ++ body_events fs trace.length dir_name⟩)
    (fuel : Nat) (st : TraversalState) (h0 : P st) : P (while_loop fs fuel st) := by
  induction fuel generalizing st with
  | zero => simpa [while_loop] using h0
  | succ n ih =>
    obtain ⟨stack, count, trace⟩ := st
    cases stack with
    | nil => simpa [while_loop] using h0
    | cons d below =>
      simp only [while_loop]
      apply ih
      rw [loop_body_eq]
      exact hstep d below count trace h0

/-! ## Traversal of a hierarchy -/

theorem pushed_paths_entries (path : String) (h : Hierarchy) (hwf : h.wf = true) :
    pushed_paths path h.entries = (h.children path).map Prod.fst := by
  induction h with
  | nil => rfl
  | other ent rest ih =>
    simp only [Hierarchy.wf, Bool.and_eq_true, Bool.or_eq_true, decide_eq_true_eq] at hwf
    have hp : is_pushed ent = false := by
      rcases hwf.1 with (h1 | h1) | h1 <;> simp [is_pushed, h1]
    have := ih hwf.2
    simp only [pushed_paths] at this
    simp [pushed_paths, Hierarchy.entries, Hierarchy.children, hp, this]
  | subdir d_name content rest _ ih =>
    simp only [Hierarchy.wf, Bool.and_eq_true, decide_eq_true_eq] at hwf
    have hp : is_pushed ⟨DT_DIR, d_name⟩ = true := by
      simp [is_pushed, hwf.1.1.1, hwf.1.1.2]
    have := ih hwf.2
    simp only [pushed_paths] at this
    simp [pushed_paths, Hierarchy.entries, Hierarchy.children, hp, this]

theorem dirs_eq_children (h : Hierarchy) (path : String) :
    h.dirs path = (h.children path).flatMap (fun x => x.2.all_dirs x.1) := by
  induction h with
  | nil => rfl
  | other ent rest ih => simpa [Hierarchy.dirs, Hierarchy.children] using ih
  | subdir d_name content rest _ ih =>
    simp [Hierarchy.dirs, Hierarchy.children, Hierarchy.all_dirs, ih]

theorem size_eq_children (h : Hierarchy) (path : String) :
    pending_fuel (h.children path) = h.size := by
  induction h with
  | nil => rfl
  | other ent rest ih => simpa [Hierarchy.size, Hierarchy.children] using ih
  | subdir d_name content rest _ ih =>
    simp only [pending_fuel] at ih
    simp [pending_fuel, Hierarchy.size, Hierarchy.children, ih]

theorem visit_dirs_eq_children (h : Hierarchy) (path : String) :
    h.visit_dirs path = pending_order (h.children path).reverse := by
  induction h with
  | nil => rfl
  | other ent rest ih => simpa [Hierarchy.visit_dirs, Hierarchy.children] using ih
  | subdir d_name content rest _ ih =>
    simp only [pending_order] at ih
    simp [pending_order, Hierarchy.visit_dirs, Hierarchy.children, ih]

theorem wf_children (h : Hierarchy) (path : String) (hwf : h.wf = true) :
    ∀ x ∈ h.children path, x.2.wf = true := by
  induction h with
  | nil => simp [Hierarchy.children]
  | other ent rest ih =>
    simp only [Hierarchy.wf, Bool.and_eq_true] at hwf
    simpa [Hierarchy.children] using ih hwf.2
  | subdir d_name content rest _ ih =>
    simp only [Hierarchy.wf, Bool.and_eq_true] at hwf
    intro x hx
    simp only [Hierarchy.children, List.mem_cons] at hx
    rcases hx with rfl | hx
    · exact hwf.1.2
    · exact ih hwf.2 x hx

theorem pending_fuel_reverse (pend : List (String × Hierarchy)) :
    pending_fuel pend.reverse = pending_fuel pend := by
  simp [pending_fuel, List.sum_reverse]

theorem while_loop_empty (fs : FileSystem) (fuel count : Nat) (trace : List Event) :
    while_loop fs fuel ⟨[], count, trace⟩ = ⟨[], count, trace⟩ := by
  cases fuel <;> rfl

theorem visit_dirs_perm (h : Hierarchy) (path : String) :
    (h.visit_dirs path).Perm (h.dirs path) := by
  induction h generalizing path with
  | nil => exact List.Perm.refl _
  | other ent rest ih => exact ih path
  | subdir d_name content rest ihc ihr =>
    simp only [Hierarchy.visit_dirs, Hierarchy.dirs, List.cons_append]
    refine List.perm_append_comm.trans ?_
    simp only [List.cons_append]
    exact List.Perm.cons _ (List.Perm.append (ihc _) (ihr _))

theorem visit_all_perm (h : Hierarchy) (root : String) :
    ((root, h.entries) :: h.visit_dirs root).Perm (h.all_dirs root) := by
  simp only [Hierarchy.all_dirs]
  exact List.Perm.cons _ (visit_dirs_perm h root)

theorem popped_readdir_events (p : String) (ents : List dirent) :
    popped (readdir_events p ents) = [] := by
  induction ents with
  | nil => rfl
  | cons e rest ih =>
    simp only [popped] at ih
    simp only [readdir_events, popped]
    split_ifs <;> simp [ih]

theorem dirs_opened_readdir_events (p : String) (ents : List dirent) :
    dirs_opened (readdir_events p ents) = [] := by
  induction ents with
  | nil => rfl
  | cons e rest ih =>
    simp only [dirs_opened] at ih
    simp only [readdir_events, dirs_opened]
    split_ifs <;> simp [ih]

theorem triggers_opened_readdir_events (p : String) (ents : List dirent) :
    triggers_opened (readdir_events p ents) = [] := by
  induction ents with
  | nil => rfl
  | cons e rest ih =>
    simp only [triggers_opened] at ih
    simp only [readdir_events, triggers_opened]
    split_ifs <;> simp [ih]

theorem lines_read_readdir_events (p : String) (ents : List dirent) :
    lines_read (readdir_events p ents) = [] := by
  induction ents with
  | nil => rfl
  | cons e rest ih =>
    simp only [lines_read] at ih
    simp only [readdir_events, lines_read]
    split_ifs <;> simp [ih]

theorem enumerated_readdir_events (p : String) (ents : List dirent) :
    enumerated (readdir_events p ents) = [p] := by
  induction ents with
  | nil => rfl
  | cons e rest ih =>
    simp only [enumerated] at ih
    simp only [readdir_events, enumerated]
    split_ifs <;> simp [ih]

theorem entries_read_readdir_events (p : String) (ents : List dirent) :
    entries_read (readdir_events p ents) = ents.map (fun e => (p, e)) := by
  induction ents with
  | nil => rfl
  | cons e rest ih =>
    simp only [entries_read] at ih
    simp only [readdir_events, entries_read]
    split_ifs <;> simp [ih]

theorem popped_body_events (fs : FileSystem) (clock : Nat) (p : String) :
    popped (body_events fs clock p) = [p] := by
  have h := popped_readdir_events p
  simp only [popped] at h
  unfold body_events popped
  cases fs.opendir clock p with
  | none => simp
  | some ents => split_ifs <;> simp [h]

theorem dirs_closed_readdir_events (p : String) (ents : List dirent) :
    dirs_closed (readdir_events p ents) = [] := by
  induction ents with
  | nil => rfl
  | cons e rest ih =>
    simp only [dirs_closed] at ih
    simp only [readdir_events, dirs_closed]
    split_ifs <;> simp [ih]

theorem observe_body_events_ok (fs : FileSystem) (clock : Nat) (p : String)
    (ents : List dirent) (hopen : fs.opendir clock p = some ents)
    (htrig : fs.ifstream_fail clock (p ++ "/cgroup.clone_children") = false) :
    dirs_opened (body_events fs clock p) = [p] ∧
    triggers_opened (body_events fs clock p) = [p ++ "/cgroup.clone_children"] ∧
    lines_read (body_events fs clock p) = [p ++ "/cgroup.clone_children"] ∧
    enumerated (body_events fs clock p) = [p] ∧
    entries_read (body_events fs clock p) = ents.map (fun e => (p, e)) ∧
    dirs_closed (body_events fs clock p) = [p] := by
  have h1 := dirs_opened_readdir_events p ents
  have h2 := triggers_opened_readdir_events p ents
  have h3 := lines_read_readdir_events p ents
  have h4 := enumerated_readdir_events p ents
  have h5 := entries_read_readdir_events p ents
  have h6 := dirs_closed_readdir_events p ents
  simp only [dirs_opened, triggers_opened, lines_read, enumerated, entries_read, dirs_closed]
    at h1 h2 h3 h4 h5 h6 ⊢
  simp [body_events, hopen, htrig, h1, h2, h3, h4, h5, h6]

theorem processed_refl (trace : List Event) : Processed trace trace [] := by
  simp [Processed]

theorem processed_trans (t1 t2 t3 : List Event) (ds1 ds2 : List (String × List dirent))
    (h1 : Processed t1 t2 ds1) (h2 : Processed t2 t3 ds2) : Processed t1 t3 (ds1 ++ ds2) := by
  obtain ⟨a1, a2, a3, a4, a5, a6, a7⟩ := h1
  obtain ⟨b1, b2, b3, b4, b5, b6, b7⟩ := h2
  refine ⟨?_, ?_, ?_, ?_, ?_, ?_, ?_⟩
  · rw [b1, a1, List.map_append, List.append_assoc]
  · rw [b2, a2, List.map_append, List.append_assoc]
  · rw [b3, a3, List.map_append, List.append_assoc]
  · rw [b4, a4, List.map_append, List.append_assoc]
  · rw [b5, a5, List.map_append, List.append_assoc]
  · rw [b6, a6, List.flatMap_append, List.append_assoc]
  · rw [b7, a7, List.map_append, List.append_assoc]

theorem processed_pass (fs : FileSystem) (trace : List Event) (p : String) (ents : List dirent)
    (hopen : fs.opendir trace.length p = some ents)
    (htrig : fs.ifstream_fail trace.length (p ++ "/cgroup.clone_children") = false) :
    Processed trace (trace ++ body_events fs trace.length p) [(p, ents)] := by
  obtain ⟨o1, o2, o3, o4, o5, o6⟩ := observe_body_events_ok fs trace.length p ents hopen htrig
  have o0 := popped_body_events fs trace.length p
  simp only [popped, dirs_opened, triggers_opened, lines_read, enumerated, entries_read,
    dirs_closed] at o0 o1 o2 o3 o4 o5 o6
  simp only [Processed, popped, dirs_opened, triggers_opened, lines_read, enumerated,
    entries_read, dirs_closed, List.filterMap_append, o0, o1, o2, o3, o4, o5, o6]
  simp

/-- The loop on a stack whose upper part names directories of known content: after one pass per
directory in and below that part, it has processed each of them once, in stack order, and stands
on the lower part. -/
theorem while_loop_pending (fs : FileSystem) (k : Nat) :
    ∀ (pend : List (String × Hierarchy)), pending_fuel pend = k →
      (∀ x ∈ pend, x.2.wf = true) →
      (∀ x ∈ pend, fs.has_hierarchy x.1 x.2 ∧ fs.triggers_open x.1 x.2) →
      ∀ (m : Nat) (below : List String) (count : Nat) (trace : List Event),
        ∃ count2 trace2,
          while_loop fs (k + m) ⟨pend.map Prod.fst ++ below, count, trace⟩ =
            while_loop fs m ⟨below, count2, trace2⟩ ∧
          Processed trace trace2 (pending_order pend) := by
  induction k with
  | zero =>
    intro pend hk _ _ m below count trace
    cases pend with
    | nil => exact ⟨count, trace, by simp, by simpa [pending_order] using processed_refl trace⟩
    | cons x rest => simp [pending_fuel] at hk
  | succ k ih =>
    intro pend hk hwf hfs m below count trace
    cases pend with
    | nil => simp [pending_fuel] at hk
    | cons x rest =>
      obtain ⟨p, c⟩ := x
      have hx := hfs (p, c) (List.mem_cons_self _ _)
      have hopen : fs.opendir trace.length p = some c.entries :=
        hx.1 trace.length (p, c.entries) (by simp [Hierarchy.all_dirs])
      have htrig : fs.ifstream_fail trace.length (p ++ "/cgroup.clone_children") = false :=
        hx.2 trace.length (p, c.entries) (by simp [Hierarchy.all_dirs])
      have hcwf : c.wf = true := hwf (p, c) (List.mem_cons_self _ _)
      have hpush : body_pushes fs trace.length p = (c.children p).map Prod.fst := by
        simp [body_pushes, hopen, htrig, pushed_paths_entries p c hcwf]
      have hfuel : pending_fuel ((c.children p).reverse ++ rest) = k := by
        have h1 := size_eq_children c p
        have h2 := pending_fuel_reverse (c.children p)
        simp only [pending_fuel, List.map_cons, List.sum_cons, List.map_append,
          List.sum_append] at hk h1 h2 ⊢
        omega
      have hwf2 : ∀ x ∈ (c.children p).reverse ++ rest, x.2.wf = true := by
        intro x hx
        rcases List.mem_append.1 hx with hx | hx
        · exact wf_children c p hcwf x (List.mem_reverse.1 hx)
        · exact hwf x (List.mem_cons_of_mem _ hx)
      have hfs2 : ∀ x ∈ (c.children p).reverse ++ rest,
          fs.has_hierarchy x.1 x.2 ∧ fs.triggers_open x.1 x.2 := by
        intro y hy
        rcases List.mem_append.1 hy with hy | hy
        · have hy := List.mem_reverse.1 hy
          have hsub : ∀ d ∈ y.2.all_dirs y.1, d ∈ c.all_dirs p := by
            intro d hd
            simp only [Hierarchy.all_dirs, dirs_eq_children c p]
            exact List.mem_cons_of_mem _ (List.mem_flatMap.2 ⟨y, hy, hd⟩)
          exact ⟨fun t d hd => hx.1 t d (hsub d hd), fun t d hd => hx.2 t d (hsub d hd)⟩
        · exact hfs y (List.mem_cons_of_mem _ hy)
      obtain ⟨count2, trace2, step, hproc⟩ := ih ((c.children p).reverse ++ rest) hfuel hwf2
        hfs2 m below (count + body_close_errors fs trace.length p)
        (trace ++ body_events fs trace.length p)
      have hstack : (body_pushes fs trace.length p).reverse ++ (rest.map Prod.fst ++ below) =
          ((c.children p).reverse ++ rest).map Prod.fst ++ below := by
        simp [hpush, List.map_reverse]
      have hord : pending_order ((p, c) :: rest) =
          [(p, c.entries)] ++ pending_order ((c.children p).reverse ++ rest) := by
        simp [pending_order, visit_dirs_eq_children c p]
      have hgo : while_loop fs (k + 1 + m) ⟨((p, c) :: rest).map Prod.fst ++ below, count, trace⟩ =
          while_loop fs (k + m)
            ⟨((c.children p).reverse ++ rest).map Prod.fst ++ below,
              count + body_close_errors fs trace.length p,
              trace ++ body_events fs trace.length p⟩ := by
        have : k + 1 + m = (k + m) + 1 := by omega
        rw [this]
        simp only [List.map_cons, List.cons_append, while_loop]
        rw [loop_body_eq, hstack]
      refine ⟨count2, trace2, by rw [hgo, step], ?_⟩
      rw [hord]
      exact processed_trans _ _ _ _ _ (processed_pass fs trace p c.entries hopen htrig) hproc

/-- The run of the traversal on a hierarchy that opens everywhere: it returns, having processed
each directory once, the root first and then the directories below it in stack order. -/
theorem trigger_on_hierarchy (fs : FileSystem) (root : String) (h : Hierarchy) (this : CgroupProber)
    (fuel : Nat) (hwf : h.wf = true) (hfs : fs.has_hierarchy root h)
    (htrig : fs.triggers_open root h) (hfuel : h.size + 1 ≤ fuel) :
    ∃ st, CgroupProber.trigger_cgroup_clone_children_read fs fuel this root = some st ∧
      Processed [Event.push root] st.trace ((root, h.entries) :: h.visit_dirs root) := by
  obtain ⟨m, rfl⟩ : ∃ m, fuel = (h.size + 1) + m := ⟨fuel - (h.size + 1), by omega⟩
  obtain ⟨count2, trace2, key, hproc⟩ := while_loop_pending fs (h.size + 1) [(root, h)]
    (by simp [pending_fuel]) (by simpa using hwf) (by simpa using ⟨hfs, htrig⟩) m []
    this.close_dir_error_count_ [Event.push root]
  simp only [List.map_cons, List.map_nil, List.append_nil, List.cons_append, List.nil_append,
    while_loop_empty] at key
  refine ⟨⟨[], count2, trace2⟩, ?_, ?_⟩
  · simp only [CgroupProber.trigger_cgroup_clone_children_read, CgroupProber.traversal_after,
      TraversalState.emplace, List.nil_append, key]
    simp
  · simpa [pending_order] using hproc

/-! ## Properties of the traversal -/

/-- C1: on a finite hierarchy at the mount point in which every directory opens and holds an
openable `cgroup.clone_children`, also while the file system changes elsewhere,
`trigger_cgroup_clone_children_read` returns (given one unit of fuel per directory) and has
processed every directory exactly once: the popped paths, the directories opened, the trigger
files opened, the trigger files a line was read from, the directories enumerated to the end and
the directories closed are each, as multisets, the directories of the hierarchy, and the entries
read are exactly the entries of these directories. -/
theorem trigger_processes_every_directory_once (fs : FileSystem) (root : String) (h : Hierarchy)
    (this : CgroupProber) (fuel : Nat) (hwf : h.wf = true) (hfs : fs.has_hierarchy root h)
    (htrig : fs.triggers_open root h) (hfuel : h.size + 1 ≤ fuel) :
    ∃ st, CgroupProber.trigger_cgroup_clone_children_read fs fuel this root = some st ∧
      (popped st.trace).Perm (h.all_paths root) ∧
      (dirs_opened st.trace).Perm (h.all_paths root) ∧
      (triggers_opened st.trace).Perm
        ((h.all_paths root).map (fun p => p ++ "/cgroup.clone_children")) ∧
      (lines_read st.trace).Perm
        ((h.all_paths root).map (fun p => p ++ "/cgroup.clone_children")) ∧
      (enumerated st.trace).Perm (h.all_paths root) ∧
      (entries_read st.trace).Perm
        ((h.all_dirs root).flatMap (fun d => d.2.map (fun e => (d.1, e)))) ∧
      (dirs_closed st.trace).Perm (h.all_paths root) := by
  obtain ⟨st, hrun, p1, p2, p3, p4, p5, p6, p7⟩ :=
    trigger_on_hierarchy fs root h this fuel hwf hfs htrig hfuel
  have hperm := visit_all_perm h root
  have hpaths : (((root, h.entries) :: h.visit_dirs root).map Prod.fst).Perm
      (h.all_paths root) := hperm.map _
  have htrigs : (((root, h.entries) :: h.visit_dirs root).map
      (fun d => d.1 ++ "/cgroup.clone_children")).Perm
      ((h.all_paths root).map (fun p => p ++ "/cgroup.clone_children")) := by
    have := hperm.map (fun d : String × List dirent => d.1 ++ "/cgroup.clone_children")
    simpa [Hierarchy.all_paths, List.map_map, Function.comp_def] using this
  refine ⟨st, hrun, ?_, ?_, ?_, ?_, ?_, ?_, ?_⟩
  · rw [p1]; simpa [popped] using hpaths
  · rw [p2]; simpa [dirs_opened] using hpaths
  · rw [p3]; simpa [triggers_opened] using htrigs
  · rw [p4]; simpa [lines_read] using htrigs
  · rw [p5]; simpa [enumerated] using hpaths
  · rw [p6]
    have := hperm.flatMap_right (fun d : String × List dirent => d.2.map (fun e => (d.1, e)))
    simpa [entries_read] using this
  · rw [p7]; simpa [dirs_closed] using hpaths

/-- Witness for C1: a chain of three nested directories gives exactly three trigger-file reads
and three enumerations. -/
theorem trigger_processes_every_directory_once_witness :
    chain3.all_paths "/m" = ["/m", "/m/a", "/m/a/b"] ∧
    (CgroupProber.trigger_cgroup_clone_children_read (fs_of "/m" chain3) 3 ⟨0⟩ "/m").map
      (fun st => (lines_read st.trace, enumerated st.trace)) =
      some (["/m/cgroup.clone_children", "/m/a/cgroup.clone_children",
              "/m/a/b/cgroup.clone_children"], ["/m", "/m/a", "/m/a/b"]) ∧
    ∃ st, CgroupProber.trigger_cgroup_clone_children_read (fs_of "/m" chain3) 3 ⟨0⟩ "/m"
        = some st ∧
      (popped st.trace).Perm (chain3.all_paths "/m") ∧
      (dirs_opened st.trace).Perm (chain3.all_paths "/m") ∧
      (triggers_opened st.trace).Perm
        ((chain3.all_paths "/m").map (fun p => p ++ "/cgroup.clone_children")) ∧
      (lines_read st.trace).Perm
        ((chain3.all_paths "/m").map (fun p => p ++ "/cgroup.clone_children")) ∧
      (enumerated st.trace).Perm (chain3.all_paths "/m") ∧
      (entries_read st.trace).Perm
        ((chain3.all_dirs "/m").flatMap (fun d => d.2.map (fun e => (d.1, e)))) ∧
      (dirs_closed st.trace).Perm (chain3.all_paths "/m") :=
  ⟨by decide, by decide,
    trigger_processes_every_directory_once (fs_of "/m" chain3) "/m" chain3 ⟨0⟩ 3 (by decide)
      (fun _ => (by decide :
        ∀ d ∈ chain3.all_dirs "/m", (chain3.all_dirs "/m").lookup d.1 = some d.2))
      (fun _ _ _ => rfl) (by decide)⟩

theorem observe_body_events_skipped (fs : FileSystem) (clock : Nat) (p : String)
    (h : fs.opendir clock p = none ∨
      fs.ifstream_fail clock (p ++ "/cgroup.clone_children") = true) :
    enumerated (body_events fs clock p) = [] ∧ lines_read (body_events fs clock p) = [] ∧
    entries_read (body_events fs clock p) = [] ∧ pushed (body_events fs clock p) = [] := by
  unfold body_events
  cases hop : fs.opendir clock p with
  | none => simp [enumerated, lines_read, entries_read, pushed]
  | some ents =>
    have hf : fs.ifstream_fail clock (p ++ "/cgroup.clone_children") = true := by
      rcases h with h | h
      · rw [hop] at h; cases h
      · exact h
    simp [hf, enumerated, lines_read, entries_read, pushed]

/-- Whatever the file system, the run reads a line only from a trigger file that opened, and
enumerates only directories whose trigger file opened. -/
theorem no_scan_without_trigger (fs : FileSystem) (fuel : Nat) (st : TraversalState)
    (h0 : enumerated st.trace = [] ∧ lines_read st.trace = [] ∧ entries_read st.trace = []) :
    ∀ p, (∀ clock, fs.ifstream_fail clock (p ++ "/cgroup.clone_children") = true) →
      p ∉ enumerated (while_loop fs fuel st).trace ∧
      (p ++ "/cgroup.clone_children") ∉ lines_read (while_loop fs fuel st).trace ∧
      ∀ e, (p, e) ∉ entries_read (while_loop fs fuel st).trace := by
  apply while_loop_induct fs
    (fun s => ∀ p, (∀ clock, fs.ifstream_fail clock (p ++ "/cgroup.clone_children") = true) →
      p ∉ enumerated s.trace ∧ (p ++ "/cgroup.clone_children") ∉ lines_read s.trace ∧
      ∀ e, (p, e) ∉ entries_read s.trace)
  · intro q below count trace ih p hp
    obtain ⟨i1, i2, i3⟩ := ih p hp
    have happ : enumerated (trace ++ body_events fs trace.length q) =
          enumerated trace ++ enumerated (body_events fs trace.length q) ∧
        lines_read (trace ++ body_events fs trace.length q) =
          lines_read trace ++ lines_read (body_events fs trace.length q) ∧
        entries_read (trace ++ body_events fs trace.length q) =
          entries_read trace ++ entries_read (body_events fs trace.length q) := by
      simp [enumerated, lines_read, entries_read]
    simp only [happ.1, happ.2.1, happ.2.2, List.mem_append, not_or]
    by_cases hq : fs.opendir trace.length q = none ∨
        fs.ifstream_fail trace.length (q ++ "/cgroup.clone_children") = true
    · obtain ⟨s1, s2, s3, _⟩ := observe_body_events_skipped fs trace.length q hq
      simp only [s1, s2, s3, List.not_mem_nil, not_false_eq_true, and_true]
      exact ⟨i1, i2, fun e => i3 e⟩
    · simp only [not_or, Bool.not_eq_true] at hq
      obtain ⟨ents, hents⟩ := Option.ne_none_iff_exists'.1 hq.1
      obtain ⟨_, _, o3, o4, o5, _⟩ := observe_body_events_ok fs trace.length q ents hents hq.2
      have hne : p ≠ q := by
        rintro rfl
        rw [hp trace.length] at hq
        exact Bool.noConfusion hq.2
      have hne2 : p ++ "/cgroup.clone_children" ≠ q ++ "/cgroup.clone_children" := by
        intro heq
        have := hp trace.length
        rw [heq, hq.2] at this
        exact Bool.noConfusion this
      refine ⟨⟨i1, ?_⟩, ⟨i2, ?_⟩, fun e => ⟨i3 e, ?_⟩⟩
      · simpa [o4] using hne
      · simpa [o3] using hne2
      · simp only [o5, List.mem_map, Prod.mk.injEq, not_exists, not_and]
        intro x _ hqp
        exact absurd hqp.symm hne
  · intro p _
    simp [h0.1, h0.2.1, h0.2.2]

/-- C2, counterexample: the mount point `/m` opens and lists the subdirectory `a`, its trigger
file does not open; the run returns after closing `/m`, and `/m/a` was neither pushed nor
popped. -/
theorem trigger_failure_children_not_visited :
    (∀ clock, fs_trigger_fails.opendir clock "/m" =
      some [⟨DT_DIR, "."⟩, ⟨DT_DIR, ".."⟩, ⟨DT_DIR, "a"⟩]) ∧
    (∀ clock, fs_trigger_fails.ifstream_fail clock "/m/cgroup.clone_children" = true) ∧
    ∃ st, CgroupProber.trigger_cgroup_clone_children_read fs_trigger_fails 4 ⟨0⟩ "/m" = some st ∧
      st.trace = [Event.push "/m", Event.periodic_cb, Event.pop "/m", Event.opendir "/m" true,
        Event.ifstream "/m/cgroup.clone_children" false, Event.closedir "/m" 0] ∧
      Event.push "/m/a" ∉ st.trace ∧ Event.pop "/m/a" ∉ st.trace :=
  ⟨fun _ => rfl, fun _ => rfl,
    ⟨[], 0, [Event.push "/m", Event.periodic_cb, Event.pop "/m", Event.opendir "/m" true,
      Event.ifstream "/m/cgroup.clone_children" false, Event.closedir "/m" 0]⟩,
    by decide, by decide, by decide, by decide⟩

/-- C2, amended: a pass that pops a directory which opens but whose `cgroup.clone_children` does
not open is not an error, and the directory is not scanned: the pass closes the handle (counting
a close failure), reads no entry and pushes nothing, and leaves the loop on the paths that were
below; and in no run is a directory whose trigger file never opens enumerated, an entry of it
read, or a line read from its trigger file. -/
theorem trigger_failure_closes_and_skips (fs : FileSystem) (dir_name : String)
    (ents : List dirent) (below : List String) (count : Nat) (trace : List Event)
    (hopen : fs.opendir trace.length dir_name = some ents)
    (hfail : fs.ifstream_fail trace.length (dir_name ++ "/cgroup.clone_children") = true) :
    loop_body fs ⟨dir_name :: below, count, trace⟩ =
      ⟨below, count + (if fs.closedir trace.length dir_name ≠ 0 then 1 else 0),
        trace ++ [Event.periodic_cb, Event.pop dir_name, Event.opendir dir_name true,
          Event.ifstream (dir_name ++ "/cgroup.clone_children") false,
          Event.closedir dir_name (fs.closedir trace.length dir_name)]⟩ ∧
    ((∀ clock, fs.ifstream_fail clock (dir_name ++ "/cgroup.clone_children") = true) →
      ∀ (fuel : Nat) (this : CgroupProber) (root : String),
        dir_name ∉ enumerated (CgroupProber.traversal_after fs fuel this root).trace ∧
        (dir_name ++ "/cgroup.clone_children") ∉
          lines_read (CgroupProber.traversal_after fs fuel this root).trace ∧
        ∀ e, (dir_name, e) ∉
          entries_read (CgroupProber.traversal_after fs fuel this root).trace) := by
  constructor
  · rw [loop_body_eq]
    simp [body_pushes, body_close_errors, body_events, hopen, hfail]
  · intro hall fuel this root
    exact no_scan_without_trigger fs fuel _ (by
      simp [TraversalState.emplace, enumerated, lines_read, entries_read]) dir_name hall

/-- Witness for the amended C2, on the mount point `/m` whose trigger file does not open. -/
theorem trigger_failure_closes_and_skips_witness :
    loop_body fs_trigger_fails ⟨["/m"], 0, [Event.push "/m"]⟩ =
      ⟨[], 0, [Event.push "/m", Event.periodic_cb, Event.pop "/m", Event.opendir "/m" true,
          Event.ifstream "/m/cgroup.clone_children" false, Event.closedir "/m" 0]⟩ ∧
    ∀ (fuel : Nat) (this : CgroupProber) (root : String),
      "/m" ∉ enumerated (CgroupProber.traversal_after fs_trigger_fails fuel this root).trace ∧
      ("/m" ++ "/cgroup.clone_children") ∉
        lines_read (CgroupProber.traversal_after fs_trigger_fails fuel this root).trace ∧
      ∀ e, ("/m", e) ∉
        entries_read (CgroupProber.traversal_after fs_trigger_fails fuel this root).trace :=
  ⟨(trigger_failure_closes_and_skips fs_trigger_fails "/m"
      [⟨DT_DIR, "."⟩, ⟨DT_DIR, ".."⟩, ⟨DT_DIR, "a"⟩] [] 0 [Event.push "/m"] rfl rfl).1,
    (trigger_failure_closes_and_skips fs_trigger_fails "/m"
      [⟨DT_DIR, "."⟩, ⟨DT_DIR, ".."⟩, ⟨DT_DIR, "a"⟩] [] 0 [Event.push "/m"] rfl rfl).2
      (fun _ => rfl)⟩

theorem while_loop_trace_extends (fs : FileSystem) (fuel : Nat) (st : TraversalState) :
    ∃ ext, (while_loop fs fuel st).trace = st.trace ++ ext := by
  apply while_loop_induct fs (fun s => ∃ ext, s.trace = st.trace ++ ext)
  · rintro q below count trace ⟨ext, hext⟩
    exact ⟨ext ++ body_events fs trace.length q, by simp only [] at hext ⊢; rw [hext, List.append_assoc]⟩
  · exact ⟨[], by simp⟩

theorem periodic_cb_calls_append (t1 t2 : List Event) :
    periodic_cb_calls (t1 ++ t2) = periodic_cb_calls t1 + periodic_cb_calls t2 := by
  simp [periodic_cb_calls]

theorem periodic_cb_calls_readdir_events (p : String) (ents : List dirent) :
    periodic_cb_calls (readdir_events p ents) =
      (ents.filter (fun e => !takes_continue e)).length := by
  induction ents with
  | nil => rfl
  | cons e rest ih =>
    simp only [periodic_cb_calls] at ih
    simp only [readdir_events, periodic_cb_calls]
    by_cases h1 : e.d_type = DT_DIR
    · by_cases h2 : e.d_name = "." ∨ e.d_name = ".."
      · have ht : takes_continue e = true := by
          rcases h2 with h2 | h2 <;> simp [takes_continue, h1, h2]
        simp [h1, h2, ht, ih]
      · have ht : takes_continue e = false := by
          simp only [not_or] at h2
          simp [takes_continue, h2.1, h2.2]
        simp [h1, h2, ht, ih]
    · have ht : takes_continue e = false := by simp [takes_continue, h1]
      simp [h1, ht, ih]

theorem periodic_cb_calls_body_events (fs : FileSystem) (clock : Nat) (p : String) :
    periodic_cb_calls (body_events fs clock p) =
      1 + ((entries_read (body_events fs clock p)).filter (fun x => !takes_continue x.2)).length := by
  by_cases hq : fs.opendir clock p = none ∨ fs.ifstream_fail clock (p ++ "/cgroup.clone_children") = true
  · obtain ⟨_, _, s3, _⟩ := observe_body_events_skipped fs clock p hq
    rw [s3]
    unfold body_events
    cases hop : fs.opendir clock p with
    | none => simp [periodic_cb_calls]
    | some ents =>
      have hf : fs.ifstream_fail clock (p ++ "/cgroup.clone_children") = true := by
        rcases hq with h | h
        · rw [hop] at h; cases h
        · exact h
      simp [hf, periodic_cb_calls]
  · simp only [not_or, Bool.not_eq_true] at hq
    obtain ⟨ents, hents⟩ := Option.ne_none_iff_exists'.1 hq.1
    obtain ⟨_, _, _, _, o5, _⟩ := observe_body_events_ok fs clock p ents hents hq.2
    rw [o5]
    have hr := periodic_cb_calls_readdir_events p ents
    simp only [periodic_cb_calls] at hr
    simp [body_events, hents, hq.2, periodic_cb_calls, List.filter_map, hr, Function.comp_def]
    omega

theorem filter_not_self_le (l : List (String × dirent)) :
    (l.filter (fun x => !is_self_or_parent x.2)).length ≤
      (l.filter (fun x => !takes_continue x.2)).length := by
  induction l with
  | nil => simp
  | cons x l ih =>
    by_cases h : is_self_or_parent x.2 = true
    · by_cases h2 : takes_continue x.2 = true
      · simpa [h, h2] using ih
      · simp only [Bool.not_eq_true] at h2
        simp [h, h2]; omega
    · simp only [Bool.not_eq_true] at h
      have h2 : takes_continue x.2 = false := by
        simp only [is_self_or_parent, Bool.or_eq_false_iff] at h
        simp [takes_continue, h.1, h.2]
      simpa [h, h2] using ih

/-- C3: at every moment of every run the liveness callback has been invoked once for each path
popped plus once for each entry read other than a `DT_DIR` entry named `.` or `..`; hence at
least once per popped path and once per child entry; and a run that makes at least one pass has
invoked it at least once, whatever the mount point contains. -/
theorem periodic_cb_once_per_pop_and_child_entry (fs : FileSystem) (fuel : Nat)
    (this : CgroupProber) (root : String) :
    periodic_cb_calls (CgroupProber.traversal_after fs fuel this root).trace =
      (popped (CgroupProber.traversal_after fs fuel this root).trace).length +
      ((entries_read (CgroupProber.traversal_after fs fuel this root).trace).filter
        (fun x => !takes_continue x.2)).length ∧
    (popped (CgroupProber.traversal_after fs fuel this root).trace).length +
      (child_entries_read (CgroupProber.traversal_after fs fuel this root).trace).length ≤
      periodic_cb_calls (CgroupProber.traversal_after fs fuel this root).trace ∧
    1 ≤ periodic_cb_calls (CgroupProber.traversal_after fs (fuel + 1) this root).trace := by
  have key : ∀ n, periodic_cb_calls (CgroupProber.traversal_after fs n this root).trace =
      (popped (CgroupProber.traversal_after fs n this root).trace).length +
      ((entries_read (CgroupProber.traversal_after fs n this root).trace).filter
        (fun x => !takes_continue x.2)).length := by
    intro n
    apply while_loop_induct fs (fun s => periodic_cb_calls s.trace =
      (popped s.trace).length +
        ((entries_read s.trace).filter (fun x => !takes_continue x.2)).length)
    · intro q below count trace ih
      simp only [] at ih ⊢
      have h1 : popped (trace ++ body_events fs trace.length q) = popped trace ++ [q] := by
        rw [← popped_body_events fs trace.length q]; simp [popped]
      have h2 : entries_read (trace ++ body_events fs trace.length q) =
          entries_read trace ++ entries_read (body_events fs trace.length q) := by simp [entries_read]
      rw [periodic_cb_calls_append, h1, h2, periodic_cb_calls_body_events, ih]
      simp only [List.length_append, List.filter_append, List.length_singleton]
      omega
    · simp [TraversalState.emplace, periodic_cb_calls, popped, entries_read]
  refine ⟨key fuel, ?_, ?_⟩
  · rw [key fuel]
    exact Nat.add_le_add_left (filter_not_self_le _) _
  · obtain ⟨ext, hext⟩ := while_loop_trace_extends fs fuel
      (loop_body fs ((TraversalState.mk [] this.close_dir_error_count_ []).emplace root))
    have hrun : CgroupProber.traversal_after fs (fuel + 1) this root =
        while_loop fs fuel
          (loop_body fs ((TraversalState.mk [] this.close_dir_error_count_ []).emplace root)) := by
      simp [CgroupProber.traversal_after, TraversalState.emplace, while_loop]
    rw [hrun, hext]
    simp only [TraversalState.emplace, loop_body_eq, periodic_cb_calls_append,
      periodic_cb_calls_body_events]
    omega

theorem close_failures_append (t1 t2 : List Event) :
    close_failures (t1 ++ t2) = close_failures t1 + close_failures t2 := by
  simp [close_failures]

theorem close_failures_readdir_events (p : String) (ents : List dirent) :
    close_failures (readdir_events p ents) = 0 := by
  induction ents with
  | nil => rfl
  | cons e rest ih =>
    simp only [readdir_events]
    split_ifs <;> simp [close_failures] at ih ⊢ <;> exact ih

theorem close_failures_body_events (fs : FileSystem) (clock : Nat) (p : String) :
    close_failures (body_events fs clock p) = body_close_errors fs clock p := by
  unfold body_events body_close_errors
  cases fs.opendir clock p with
  | none => simp [close_failures]
  | some ents =>
    by_cases hf : fs.ifstream_fail clock (p ++ "/cgroup.clone_children") = true
    · by_cases hc : fs.closedir clock p = 0 <;> simp [hf, hc, close_failures]
    · simp only []
      rw [if_neg hf, close_failures_append, close_failures_append,
        close_failures_readdir_events]
      by_cases hc : fs.closedir clock p = 0 <;> simp [hc, close_failures]

theorem body_with_closedir (fs : FileSystem) (closedir2 : Nat → String → Int) (clock : Nat) (p : String) :
    body_pushes (fs.with_closedir closedir2) clock p = body_pushes fs clock p ∧
    (body_events (fs.with_closedir closedir2) clock p).map forget_status =
      (body_events fs clock p).map forget_status := by
  constructor
  · rfl
  · simp only [body_events, FileSystem.with_closedir]
    cases fs.opendir clock p with
    | none => rfl
    | some ents => split_ifs <;> simp [forget_status]

theorem while_loop_with_closedir (fs : FileSystem) (closedir2 : Nat → String → Int) (fuel : Nat) :
    ∀ (st st2 : TraversalState), st.dirs_stack = st2.dirs_stack →
      st.trace.map forget_status = st2.trace.map forget_status →
      (while_loop fs fuel st).dirs_stack =
        (while_loop (fs.with_closedir closedir2) fuel st2).dirs_stack ∧
      (while_loop fs fuel st).trace.map forget_status =
        (while_loop (fs.with_closedir closedir2) fuel st2).trace.map forget_status := by
  induction fuel with
  | zero => intro st st2 h1 h2; exact ⟨h1, h2⟩
  | succ n ih =>
    intro st st2 h1 h2
    obtain ⟨stack, count, trace⟩ := st
    obtain ⟨stack2, count2, trace2⟩ := st2
    simp only [] at h1 h2
    subst h1
    cases stack with
    | nil => exact ⟨rfl, h2⟩
    | cons q below =>
      have hlen : trace.length = trace2.length := by
        have := congrArg List.length h2
        simpa using this
      simp only [while_loop, loop_body_eq]
      apply ih
      · simp only [hlen, (body_with_closedir fs closedir2 trace2.length q).1]
      · simp only [List.map_append, h2, hlen,
          (body_with_closedir fs closedir2 trace2.length q).2]

/-- C4: at every moment of every run `close_dir_error_count_` has grown by exactly the number of
`closedir` calls that returned a non-zero status, and such a status never stops or diverts the
traversal: with any other answers of `closedir` the run has the same stack and makes the same
calls, up to the statuses returned, and it returns in the one case exactly when it does in the
other. -/
theorem close_dir_error_count_exact (fs : FileSystem) (fuel : Nat) (this : CgroupProber)
    (root : String) (closedir2 : Nat → String → Int) :
    (CgroupProber.traversal_after fs fuel this root).close_dir_error_count_ =
      this.close_dir_error_count_ +
        close_failures (CgroupProber.traversal_after fs fuel this root).trace ∧
    (CgroupProber.traversal_after fs fuel this root).dirs_stack =
      (CgroupProber.traversal_after (fs.with_closedir closedir2) fuel this root).dirs_stack ∧
    (CgroupProber.traversal_after fs fuel this root).trace.map forget_status =
      (CgroupProber.traversal_after (fs.with_closedir closedir2) fuel this root).trace.map
        forget_status ∧
    ((CgroupProber.trigger_cgroup_clone_children_read fs fuel this root).isSome =
      (CgroupProber.trigger_cgroup_clone_children_read (fs.with_closedir closedir2) fuel this
        root).isSome) := by
  have h23 := while_loop_with_closedir fs closedir2 fuel
    ((TraversalState.mk [] this.close_dir_error_count_ []).emplace root)
    ((TraversalState.mk [] this.close_dir_error_count_ []).emplace root) rfl rfl
  refine ⟨?_, h23.1, h23.2, ?_⟩
  · apply while_loop_induct fs (fun s => s.close_dir_error_count_ =
      this.close_dir_error_count_ + close_failures s.trace)
    · intro q below count trace ih
      simp only [] at ih ⊢
      rw [close_failures_append, close_failures_body_events, ih, Nat.add_assoc]
    · simp [TraversalState.emplace, close_failures]
  · simp only [CgroupProber.trigger_cgroup_clone_children_read]
    have := h23.1
    simp only [CgroupProber.traversal_after] at this ⊢
    rw [this]
    split_ifs <;> rfl

theorem handle_readdir_events (p : String) (ents : List dirent) :
    (readdir_events p ents).foldl handle_step (some (some p)) = some (some p) := by
  induction ents with
  | nil => rfl
  | cons e rest ih =>
    simp only [readdir_events]
    split_ifs <;> simpa [handle_step] using ih

theorem handle_body_events (fs : FileSystem) (clock : Nat) (p : String) :
    (body_events fs clock p).foldl handle_step (some none) = some none := by
  unfold body_events
  cases fs.opendir clock p with
  | none => simp [handle_step]
  | some ents =>
    by_cases hf : fs.ifstream_fail clock (p ++ "/cgroup.clone_children") = true
    · simp [hf, handle_step]
    · simp only []
      rw [if_neg hf, List.foldl_append, List.foldl_append]
      have : List.foldl handle_step (some none)
          [Event.periodic_cb, Event.pop p, Event.opendir p true,
            Event.ifstream (p ++ "/cgroup.clone_children") true,
            Event.getline (p ++ "/cgroup.clone_children")] = some (some p) := by
        simp [handle_step]
      rw [this, handle_readdir_events]
      simp [handle_step]

theorem opened_closed_body_events (fs : FileSystem) (clock : Nat) (p : String) :
    dirs_closed (body_events fs clock p) = dirs_opened (body_events fs clock p) := by
  by_cases hq : fs.opendir clock p = none ∨ fs.ifstream_fail clock (p ++ "/cgroup.clone_children") = true
  · unfold body_events
    cases hop : fs.opendir clock p with
    | none => simp [dirs_closed, dirs_opened]
    | some ents =>
      have hf : fs.ifstream_fail clock (p ++ "/cgroup.clone_children") = true := by
        rcases hq with h | h
        · rw [hop] at h; cases h
        · exact h
      simp [hf, dirs_closed, dirs_opened]
  · simp only [not_or, Bool.not_eq_true] at hq
    obtain ⟨ents, hents⟩ := Option.ne_none_iff_exists'.1 hq.1
    obtain ⟨o1, _, _, _, _, o6⟩ := observe_body_events_ok fs clock p ents hents hq.2
    rw [o1, o6]

/-- With a callback that returns, at every pass boundary no directory handle is open, and up to
there the calls respect the handle discipline: `opendir` succeeded only while no handle was
open, every `closedir` closed the handle then open, and every pop happened while no handle was
open; so each handle obtained is closed exactly once in the pass that obtained it.  The
directories closed are the directories opened, in the same order, and the two call counts
agree. -/
theorem handles_closed_within_pass (fs : FileSystem) (fuel : Nat) (this : CgroupProber)
    (root : String) :
    handle_after (CgroupProber.traversal_after fs fuel this root).trace = some none ∧
    dirs_closed (CgroupProber.traversal_after fs fuel this root).trace =
      dirs_opened (CgroupProber.traversal_after fs fuel this root).trace ∧
    (dirs_closed (CgroupProber.traversal_after fs fuel this root).trace).length =
      (dirs_opened (CgroupProber.traversal_after fs fuel this root).trace).length := by
  have key : handle_after (CgroupProber.traversal_after fs fuel this root).trace = some none ∧
      dirs_closed (CgroupProber.traversal_after fs fuel this root).trace =
        dirs_opened (CgroupProber.traversal_after fs fuel this root).trace := by
    apply while_loop_induct fs (fun s => handle_after s.trace = some none ∧
      dirs_closed s.trace = dirs_opened s.trace)
    · rintro q below count trace ⟨ih1, ih2⟩
      simp only [] at ih1 ih2 ⊢
      constructor
      · simp only [handle_after] at ih1 ⊢
        rw [List.foldl_append, ih1, handle_body_events]
      · have h1 : dirs_closed (trace ++ body_events fs trace.length q) =
            dirs_closed trace ++ dirs_closed (body_events fs trace.length q) := by simp [dirs_closed]
        have h2 : dirs_opened (trace ++ body_events fs trace.length q) =
            dirs_opened trace ++ dirs_opened (body_events fs trace.length q) := by simp [dirs_opened]
        rw [h1, h2, ih2, opened_closed_body_events]
    · simp [TraversalState.emplace, handle_after, handle_step, dirs_closed, dirs_opened]
  exact ⟨key.1, key.2, by rw [key.2]⟩

theorem is_cgroup_mountpoint_eq (fs : FileSystem) (path : String) :
    is_cgroup_mountpoint fs path =
      (qualifies fs path, [Event.stat (path ++ "/cgroup.clone_children")]) := by
  unfold is_cgroup_mountpoint file_exists qualifies
  cases fs.stat (path ++ "/cgroup.clone_children") <;> rfl

/-- C5: `find_cgroup_mountpoint` returns the first of the four candidates, in the fixed order,
under which `cgroup.clone_children` exists and is a regular file; it returns the empty string
exactly when no candidate qualifies; and it never returns a candidate listed after one that
qualifies. -/
theorem find_cgroup_mountpoint_first_qualifying (fs : FileSystem) :
    (CgroupProber.find_cgroup_mountpoint fs).1 =
      (mountpoint_candidates.find? (qualifies fs)).getD "" ∧
    ((CgroupProber.find_cgroup_mountpoint fs).1 = "" ↔
      ∀ c ∈ mountpoint_candidates, qualifies fs c = false) ∧
    (∀ i j : Fin mountpoint_candidates.length, i < j →
      qualifies fs (mountpoint_candidates.get i) = true →
      (CgroupProber.find_cgroup_mountpoint fs).1 ≠ mountpoint_candidates.get j) := by
  simp only [CgroupProber.find_cgroup_mountpoint, is_cgroup_mountpoint_eq,
    mountpoint_candidates]
  refine ⟨?_, ?_, ?_⟩
  · cases h1 : qualifies fs "/hostfs/sys/fs/cgroup/memory" <;>
    cases h2 : qualifies fs "/hostfs/cgroup/memory" <;>
    cases h3 : qualifies fs "/sys/fs/cgroup/memory" <;>
    cases h4 : qualifies fs "/cgroup/memory" <;>
    simp [List.find?, h1, h2, h3, h4]
  · cases h1 : qualifies fs "/hostfs/sys/fs/cgroup/memory" <;>
    cases h2 : qualifies fs "/hostfs/cgroup/memory" <;>
    cases h3 : qualifies fs "/sys/fs/cgroup/memory" <;>
    cases h4 : qualifies fs "/cgroup/memory" <;>
    simp [h1, h2, h3, h4]
  · intro i j hij hq
    cases h1 : qualifies fs "/hostfs/sys/fs/cgroup/memory" <;>
    cases h2 : qualifies fs "/hostfs/cgroup/memory" <;>
    cases h3 : qualifies fs "/sys/fs/cgroup/memory" <;>
    cases h4 : qualifies fs "/cgroup/memory" <;>
    fin_cases i <;> fin_cases j <;>
    first
      | exact absurd hij (by decide)
      | (simp [h1, h2, h3, h4] at hq; done)
      | (simp only [h1, h2, h3, h4]; decide)

/-! ## The calls of each phase of the constructor -/

theorem filterMap_nil_of_class {β : Type} (l : List Event) (cls : Event → Bool)
    (f : Event → Option β) (hl : ∀ e ∈ l, cls e = true) (hf : ∀ e, cls e = true → f e = none) :
    l.filterMap f = [] := by
  rw [List.filterMap_eq_nil_iff]
  exact fun e he => hf e (hl e he)

theorem start_probe_common_calls (attach : Bool → String → String → Bool) (h : ProbeHandler)
    (is_kretprobe : Bool) (func_name k_func_name suffix : String) :
    (h.start_probe_common attach is_kretprobe func_name k_func_name suffix).2.2 =
      [Event.kernel_attach is_kretprobe func_name k_func_name
        (attach is_kretprobe func_name k_func_name)] := by
  unfold ProbeHandler.start_probe_common
  cases attach is_kretprobe func_name k_func_name <;> simp

theorem try_alternatives_calls (attach : Bool → String → String → Bool) (is_kretprobe : Bool)
    (suffix : String) (alts : List FuncAndKfunc) :
    ∀ (h : ProbeHandler) (evs : List Event), (∀ e ∈ evs, is_attach_phase_call e = true) →
      ∀ e ∈ (ProbeHandler.try_alternatives attach is_kretprobe suffix alts h evs).2.2,
        is_attach_phase_call e = true := by
  induction alts with
  | nil => intro h evs hevs; simpa [ProbeHandler.try_alternatives] using hevs
  | cons alt rest ih =>
    intro h evs hevs
    have hnew : ∀ e ∈ evs ++ (h.start_probe_common attach is_kretprobe alt.func_name
        alt.k_func_name suffix).2.2, is_attach_phase_call e = true := by
      intro e he
      rw [start_probe_common_calls] at he
      simp only [List.mem_append, List.mem_singleton] at he
      rcases he with he | rfl
      · exact hevs e he
      · rfl
    unfold ProbeHandler.try_alternatives
    simp only []
    split_ifs
    · exact ih h evs hevs
    · exact hnew
    · exact ih _ _ hnew

theorem start_probe_alternatives_calls (attach : Bool → String → String → Bool)
    (h : ProbeHandler) (alts : ProbeAlternatives) (suffix : String) :
    ∀ e ∈ (h.start_probe_alternatives attach alts suffix).2.2, is_attach_phase_call e = true := by
  have key := try_alternatives_calls attach false suffix alts.func_names h [] (by simp)
  unfold ProbeHandler.start_probe_alternatives ProbeHandler.start_alternatives
  split
  · rename_i k h2 evs heq
    rw [heq] at key; exact key
  · rename_i h2 evs heq
    rw [heq] at key; exact key

theorem start_probe_calls (attach : Bool → String → String → Bool) (h : ProbeHandler)
    (func_name k_func_name suffix : String) :
    ∀ e ∈ (h.start_probe attach func_name k_func_name suffix).2.2,
      is_attach_phase_call e = true := by
  intro e he
  simp only [ProbeHandler.start_probe, ProbeHandler.start_single,
    ProbeHandler.start_probe_common] at he
  split_ifs at he <;> simp at he <;> subst he <;> rfl

theorem ctor_attach_calls (env : Env) (ph : ProbeHandler) :
    ∀ e ∈ (CgroupProber.ctor_attach env ph).2, is_attach_phase_call e = true := by
  intro e he
  simp only [CgroupProber.ctor_attach, List.mem_append, List.mem_singleton, List.mem_cons,
    List.mem_nil_iff, or_false] at he
  casesm* _ ∨ _
  all_goals first
    | (subst_vars; rfl)
    | exact start_probe_alternatives_calls _ _ _ _ e (by assumption)
    | exact start_probe_calls _ _ _ _ _ e (by assumption)

theorem readdir_events_calls (p : String) (ents : List dirent) :
    ∀ e ∈ readdir_events p ents, is_traversal_phase_call e = true := by
  induction ents with
  | nil => intro e he; simp only [readdir_events, List.mem_singleton] at he; subst he; rfl
  | cons x rest ih =>
    intro e he
    simp only [readdir_events, List.mem_cons, List.mem_append] at he
    rcases he with rfl | he | he
    · rfl
    · split_ifs at he <;> simp at he
      · rcases he with rfl | rfl <;> rfl
      · subst he; rfl
    · exact ih e he

theorem body_events_calls (fs : FileSystem) (clock : Nat) (p : String) :
    ∀ e ∈ body_events fs clock p, is_traversal_phase_call e = true := by
  intro e he
  unfold body_events at he
  cases hop : fs.opendir clock p with
  | none =>
    simp only [hop, List.mem_cons, List.mem_singleton, List.mem_nil_iff, or_false] at he
    casesm* _ ∨ _ <;> subst_vars <;> rfl
  | some ents =>
    simp only [hop] at he
    split_ifs at he
    · simp only [List.mem_cons, List.mem_singleton, List.mem_nil_iff, or_false] at he
      casesm* _ ∨ _ <;> subst_vars <;> rfl
    · simp only [List.mem_append, List.mem_cons, List.mem_singleton, List.mem_nil_iff,
        or_false] at he
      casesm* _ ∨ _
      all_goals first
        | (subst_vars; rfl)
        | exact readdir_events_calls p ents e (by assumption)

theorem traversal_calls (fs : FileSystem) (fuel : Nat) (this : CgroupProber) (root : String) :
    ∀ e ∈ (CgroupProber.traversal_after fs fuel this root).trace,
      is_traversal_phase_call e = true := by
  apply while_loop_induct fs (fun s => ∀ e ∈ s.trace, is_traversal_phase_call e = true)
  · intro q below count trace ih e he
    simp only [List.mem_append] at he
    rcases he with he | he
    · exact ih e he
    · exact body_events_calls fs trace.length q e he
  · intro e he
    simp only [TraversalState.emplace, List.nil_append, List.mem_singleton] at he
    subst he; rfl

theorem trigger_calls (fs : FileSystem) (fuel : Nat) (this : CgroupProber) (root : String)
    (st : TraversalState)
    (h : CgroupProber.trigger_cgroup_clone_children_read fs fuel this root = some st) :
    ∀ e ∈ st.trace, is_traversal_phase_call e = true := by
  simp only [CgroupProber.trigger_cgroup_clone_children_read] at h
  split_ifs at h
  cases h
  exact traversal_calls fs fuel this root

/-- The `stat` calls of the mount point lookup: the candidates are probed in the fixed order up
to and including the first that qualifies. -/
theorem find_cgroup_mountpoint_calls (fs : FileSystem) :
    ∀ e ∈ (CgroupProber.find_cgroup_mountpoint fs).2, ∃ p, e = Event.stat p := by
  intro e he
  simp only [CgroupProber.find_cgroup_mountpoint, is_cgroup_mountpoint_eq] at he
  split_ifs at he <;>
    simp only [List.mem_append, List.mem_singleton] at he <;>
    (try casesm* _ ∨ _) <;> exact ⟨_, by assumption⟩

theorem cleanup_probe_calls_detach (h : ProbeHandler) (k_func_name : String) :
    (h.cleanup_probe k_func_name).2 = [] ∨
    (h.cleanup_probe k_func_name).2 =
      [Event.kernel_detach (ProbeHandler.probe_prefix_ ++ k_func_name)] := by
  unfold ProbeHandler.cleanup_probe ProbeHandler.cleanup_probe_common
  split_ifs
  · exact Or.inr rfl
  · exact Or.inl rfl

theorem attach_phase_not_traversal (e : Event) (h : is_attach_phase_call e = true) :
    is_traversal_call e = false ∧ (∀ l, e ≠ Event.check_cb l) ∧
    (∀ k, e ≠ Event.call_cleanup_probe k) ∧ (∀ n, e ≠ Event.kernel_detach n) ∧
    (∀ p, e ≠ Event.stat p) := by
  cases e <;> simp_all [is_attach_phase_call, is_traversal_call]

theorem find_empty_of_none_qualifies (fs : FileSystem)
    (hno : ∀ c ∈ mountpoint_candidates, qualifies fs c = false) :
    (CgroupProber.find_cgroup_mountpoint fs).1 = "" := by
  simp only [mountpoint_candidates, List.mem_cons, List.mem_singleton, List.mem_nil_iff,
    or_false, forall_eq_or_imp, forall_eq] at hno
  simp [CgroupProber.find_cgroup_mountpoint, is_cgroup_mountpoint_eq, hno.1, hno.2.1,
    hno.2.2.1, hno.2.2.2]

/-- The run of the constructor when no candidate mount point qualifies. -/
theorem ctor_without_mountpoint (env : Env) (ph : ProbeHandler) (fuel : Nat)
    (hno : (CgroupProber.find_cgroup_mountpoint env.fs).1 = "") :
    CgroupProber.ctor env ph fuel =
      if env.check_cb_throws "cgroup prober startup" then
        ⟨(CgroupProber.ctor_attach env ph).1, 0,
          (CgroupProber.ctor_attach env ph).2 ++ [Event.check_cb "cgroup prober startup"],
          Status.raised "cgroup prober startup"⟩
      else
        CgroupProber.ctor_cleanup env (CgroupProber.ctor_attach env ph).1 0
          ((CgroupProber.ctor_attach env ph).2 ++ [Event.check_cb "cgroup prober startup"]
            ++ (CgroupProber.find_cgroup_mountpoint env.fs).2) := by
  simp [CgroupProber.ctor, CgroupProber.ctor_locate_and_traverse, hno]

theorem ctor_cleanup_trace (env : Env) (ph : ProbeHandler) (count : Nat) (trace : List Event) :
    (CgroupProber.ctor_cleanup env ph count trace).trace =
      trace ++ [Event.call_cleanup_probe "cgroup_clone_children_read"]
        ++ (ph.cleanup_probe "cgroup_clone_children_read").2
        ++ [Event.periodic_cb, Event.check_cb "cgroup prober cleanup()"] ∧
    (CgroupProber.ctor_cleanup env ph count trace).status =
      (if env.check_cb_throws "cgroup prober cleanup()" then
        Status.raised "cgroup prober cleanup()" else Status.returned) ∧
    (CgroupProber.ctor_cleanup env ph count trace).probe_handler =
      (ph.cleanup_probe "cgroup_clone_children_read").1 ∧
    (CgroupProber.ctor_cleanup env ph count trace).close_dir_error_count_ = count := by
  unfold CgroupProber.ctor_cleanup
  split_ifs <;> simp

/-- C6: when no candidate mount point qualifies, `find_cgroup_mountpoint` returns the empty
string and the constructor skips the traversal: it makes no call on a directory, a trigger file
or the stack, does not invoke the traversal checkpoint, and cannot run out of fuel; and, the
startup checkpoint having returned, the checkpoints invoked are exactly the startup one and the
cleanup one, the cleanup checkpoint being the last call of the constructor. -/
theorem no_mountpoint_skips_traversal (env : Env) (ph : ProbeHandler) (fuel : Nat)
    (hno : ∀ c ∈ mountpoint_candidates, qualifies env.fs c = false) :
    (CgroupProber.find_cgroup_mountpoint env.fs).1 = "" ∧
    (∀ e ∈ (CgroupProber.ctor env ph fuel).trace, is_traversal_call e = false) ∧
    Event.check_cb "trigger_cgroup_clone_children_read()" ∉ (CgroupProber.ctor env ph fuel).trace ∧
    (CgroupProber.ctor env ph fuel).close_dir_error_count_ = 0 ∧
    (CgroupProber.ctor env ph fuel).status ≠ Status.out_of_fuel ∧
    (env.check_cb_throws "cgroup prober startup" = false →
      check_cb_labels (CgroupProber.ctor env ph fuel).trace =
        ["cgroup prober startup", "cgroup prober cleanup()"] ∧
      (CgroupProber.ctor env ph fuel).trace.getLast? =
        some (Event.check_cb "cgroup prober cleanup()")) := by
  have hempty := find_empty_of_none_qualifies env.fs hno
  have hrun := ctor_without_mountpoint env ph fuel hempty
  have hA := ctor_attach_calls env ph
  have hM := find_cgroup_mountpoint_calls env.fs
  have hC := cleanup_probe_calls_detach (CgroupProber.ctor_attach env ph).1
    "cgroup_clone_children_read"
  obtain ⟨ct, cs, _, cc⟩ := ctor_cleanup_trace env (CgroupProber.ctor_attach env ph).1 0
    ((CgroupProber.ctor_attach env ph).2 ++ [Event.check_cb "cgroup prober startup"]
      ++ (CgroupProber.find_cgroup_mountpoint env.fs).2)
  have hall : ∀ e ∈ (CgroupProber.ctor env ph fuel).trace,
      is_attach_phase_call e = true ∨ (∃ p, e = Event.stat p) ∨
      (∃ n, e = Event.kernel_detach n) ∨ e = Event.check_cb "cgroup prober startup" ∨
      e = Event.check_cb "cgroup prober cleanup()" ∨
      e = Event.call_cleanup_probe "cgroup_clone_children_read" := by
    intro e he
    rw [hrun] at he
    split_ifs at he
    · simp only [List.mem_append, List.mem_singleton] at he
      rcases he with he | rfl
      · exact Or.inl (hA e he)
      · simp
    · rw [ct] at he
      simp only [List.mem_append, List.mem_singleton, List.mem_cons, List.mem_nil_iff,
        or_false] at he
      rcases he with ((((he | rfl) | he) | rfl) | he) | rfl | rfl
      · exact Or.inl (hA e he)
      · simp
      · exact Or.inr (Or.inl (hM e he))
      · simp
      · rcases hC with hC | hC <;> rw [hC] at he
        · cases he
        · simp only [List.mem_singleton] at he
          exact Or.inr (Or.inr (Or.inl ⟨_, he⟩))
      · exact Or.inl rfl
      · simp
  refine ⟨hempty, ?_, ?_, ?_, ?_, ?_⟩
  · intro e he
    rcases hall e he with h | ⟨p, rfl⟩ | ⟨n, rfl⟩ | rfl | rfl | rfl
    · exact (attach_phase_not_traversal e h).1
    all_goals rfl
  · intro he
    rcases hall _ he with h | ⟨p, h⟩ | ⟨n, h⟩ | h | h | h
    · exact (attach_phase_not_traversal _ h).2.1 _ rfl
    all_goals first
      | cases h
      | (revert h; decide)
  · rw [hrun]; split_ifs
    · rfl
    · exact cc
  · rw [hrun]; split_ifs
    · simp
    · rw [cs]; split_ifs <;> simp
  · intro hs
    rw [hrun]
    simp only [hs, Bool.false_eq_true, if_false, ct]
    constructor
    · have h1 := filterMap_nil_of_class (CgroupProber.ctor_attach env ph).2 is_attach_phase_call
        (fun e => match e with | Event.check_cb label => some label | _ => none) hA
        (fun e he => by cases e <;> simp_all [is_attach_phase_call])
      have h2 : (CgroupProber.find_cgroup_mountpoint env.fs).2.filterMap
          (fun e => match e with | Event.check_cb label => some label | _ => none) = [] := by
        rw [List.filterMap_eq_nil_iff]
        intro e he
        obtain ⟨p, rfl⟩ := hM e he
        rfl
      rcases hC with hC | hC <;> rw [hC] <;>
        simp [check_cb_labels, List.filterMap_append, h1, h2]
    · rw [List.getLast?_append]; rfl

/-- Witness for C6: no candidate exists on disk (in particular `/sys/fs/cgroup/memory` is
absent); the lookup returns the empty string, nothing is traversed, and the cleanup checkpoint is
the last call. -/
theorem no_mountpoint_skips_traversal_witness :
    (CgroupProber.find_cgroup_mountpoint env_bare.fs).1 = "" ∧
    (∀ e ∈ (CgroupProber.ctor env_bare ProbeHandler.fresh 0).trace, is_traversal_call e = false) ∧
    Event.check_cb "trigger_cgroup_clone_children_read()" ∉
      (CgroupProber.ctor env_bare ProbeHandler.fresh 0).trace ∧
    (CgroupProber.ctor env_bare ProbeHandler.fresh 0).close_dir_error_count_ = 0 ∧
    (CgroupProber.ctor env_bare ProbeHandler.fresh 0).status ≠ Status.out_of_fuel ∧
    (env_bare.check_cb_throws "cgroup prober startup" = false →
      check_cb_labels (CgroupProber.ctor env_bare ProbeHandler.fresh 0).trace =
        ["cgroup prober startup", "cgroup prober cleanup()"] ∧
      (CgroupProber.ctor env_bare ProbeHandler.fresh 0).trace.getLast? =
        some (Event.check_cb "cgroup prober cleanup()")) :=
  no_mountpoint_skips_traversal env_bare ProbeHandler.fresh 0 (by decide)

/-- The run of the constructor when a mount point is found and the traversal returns. -/
theorem ctor_with_mountpoint (env : Env) (ph : ProbeHandler) (fuel : Nat) (st : TraversalState)
    (hm : (CgroupProber.find_cgroup_mountpoint env.fs).1 ≠ "")
    (hst : CgroupProber.trigger_cgroup_clone_children_read env.fs fuel ⟨0⟩
      (CgroupProber.find_cgroup_mountpoint env.fs).1 = some st) :
    CgroupProber.ctor env ph fuel =
      if env.check_cb_throws "cgroup prober startup" then
        ⟨(CgroupProber.ctor_attach env ph).1, 0,
          (CgroupProber.ctor_attach env ph).2 ++ [Event.check_cb "cgroup prober startup"],
          Status.raised "cgroup prober startup"⟩
      else if env.check_cb_throws "trigger_cgroup_clone_children_read()" then
        ⟨(CgroupProber.ctor_attach env ph).1, st.close_dir_error_count_,
          (CgroupProber.ctor_attach env ph).2 ++ [Event.check_cb "cgroup prober startup"]
            ++ (CgroupProber.find_cgroup_mountpoint env.fs).2 ++ st.trace
            ++ [Event.check_cb "trigger_cgroup_clone_children_read()"],
          Status.raised "trigger_cgroup_clone_children_read()"⟩
      else
        CgroupProber.ctor_cleanup env (CgroupProber.ctor_attach env ph).1
          st.close_dir_error_count_
          ((CgroupProber.ctor_attach env ph).2 ++ [Event.check_cb "cgroup prober startup"]
            ++ (CgroupProber.find_cgroup_mountpoint env.fs).2 ++ st.trace
            ++ [Event.check_cb "trigger_cgroup_clone_children_read()"]) := by
  simp only [CgroupProber.ctor, CgroupProber.ctor_locate_and_traverse, hst]
  split_ifs <;> simp_all

/-- The run of the constructor when a mount point is found and the traversal does not return
within the fuel. -/
theorem ctor_out_of_fuel (env : Env) (ph : ProbeHandler) (fuel : Nat)
    (hm : (CgroupProber.find_cgroup_mountpoint env.fs).1 ≠ "")
    (hst : CgroupProber.trigger_cgroup_clone_children_read env.fs fuel ⟨0⟩
      (CgroupProber.find_cgroup_mountpoint env.fs).1 = none) :
    CgroupProber.ctor env ph fuel =
      if env.check_cb_throws "cgroup prober startup" then
        ⟨(CgroupProber.ctor_attach env ph).1, 0,
          (CgroupProber.ctor_attach env ph).2 ++ [Event.check_cb "cgroup prober startup"],
          Status.raised "cgroup prober startup"⟩
      else
        ⟨(CgroupProber.ctor_attach env ph).1, 0,
          (CgroupProber.ctor_attach env ph).2 ++ [Event.check_cb "cgroup prober startup"]
            ++ (CgroupProber.find_cgroup_mountpoint env.fs).2,
          Status.out_of_fuel⟩ := by
  simp only [CgroupProber.ctor, CgroupProber.ctor_locate_and_traverse, hst]
  split_ifs <;> simp_all

/-- The part of the constructor's calls that precedes its cleanup, when no checkpoint throws and
the traversal, if any, returns. -/
theorem ctor_before_cleanup (env : Env) (ph : ProbeHandler) (fuel : Nat)
    (hnothrow : ∀ l, env.check_cb_throws l = false)
    (hfuel : (CgroupProber.find_cgroup_mountpoint env.fs).1 = "" ∨
      (CgroupProber.trigger_cgroup_clone_children_read env.fs fuel ⟨0⟩
        (CgroupProber.find_cgroup_mountpoint env.fs).1).isSome = true) :
    ∃ (count : Nat) (traversal : List Event),
      CgroupProber.ctor env ph fuel =
        CgroupProber.ctor_cleanup env (CgroupProber.ctor_attach env ph).1 count
          ((CgroupProber.ctor_attach env ph).2 ++ [Event.check_cb "cgroup prober startup"]
            ++ (CgroupProber.find_cgroup_mountpoint env.fs).2 ++ traversal) ∧
      (∀ e ∈ traversal, is_traversal_phase_call e = true ∨
        e = Event.check_cb "trigger_cgroup_clone_children_read()") ∧
      check_cb_labels traversal =
        (if (CgroupProber.find_cgroup_mountpoint env.fs).1 = "" then []
          else ["trigger_cgroup_clone_children_read()"]) ∧
      (∀ st, (CgroupProber.find_cgroup_mountpoint env.fs).1 ≠ "" →
        CgroupProber.trigger_cgroup_clone_children_read env.fs fuel ⟨0⟩
          (CgroupProber.find_cgroup_mountpoint env.fs).1 = some st →
        traversal = st.trace ++ [Event.check_cb "trigger_cgroup_clone_children_read()"] ∧
        count = st.close_dir_error_count_) ∧
      ((CgroupProber.find_cgroup_mountpoint env.fs).1 = "" → traversal = [] ∧ count = 0) := by
  by_cases hm : (CgroupProber.find_cgroup_mountpoint env.fs).1 = ""
  · refine ⟨0, [], ?_, by simp, by simp [hm, check_cb_labels], fun st h => absurd hm h,
      fun _ => ⟨rfl, rfl⟩⟩
    rw [ctor_without_mountpoint env ph fuel hm]
    simp [hnothrow]
  · have hsome := hfuel.resolve_left hm
    obtain ⟨st, hst⟩ := Option.isSome_iff_exists.1 hsome
    have hT := trigger_calls env.fs fuel ⟨0⟩ _ st hst
    refine ⟨st.close_dir_error_count_,
      st.trace ++ [Event.check_cb "trigger_cgroup_clone_children_read()"], ?_, ?_, ?_, ?_, ?_⟩
    · rw [ctor_with_mountpoint env ph fuel st hm hst]
      simp [hnothrow]
    · intro e he
      simp only [List.mem_append, List.mem_singleton] at he
      rcases he with he | rfl
      · exact Or.inl (hT e he)
      · exact Or.inr rfl
    · have h1 := filterMap_nil_of_class st.trace is_traversal_phase_call
        (fun e => match e with | Event.check_cb label => some label | _ => none) hT
        (fun e he => by cases e <;> simp_all [is_traversal_phase_call, is_traversal_call])
      simp [check_cb_labels, List.filterMap_append, h1, hm]
    · intro st2 _ hst2
      rw [hst] at hst2
      cases hst2
      exact ⟨rfl, rfl⟩
    · intro h; exact absurd h hm

theorem cleanup_probe_names (h : ProbeHandler) (k_func_name : String) :
    (h.cleanup_probe k_func_name).1.probe_names_ =
      h.probe_names_.filter (fun n => n ≠ ProbeHandler.probe_prefix_ ++ k_func_name) ∧
    (h.cleanup_probe k_func_name).1.num_failed_probes_ = h.num_failed_probes_ ∧
    (h.cleanup_probe k_func_name).1.kernel_symbols_ = h.kernel_symbols_ := by
  unfold ProbeHandler.cleanup_probe ProbeHandler.cleanup_probe_common
  split_ifs with hmem
  · exact ⟨rfl, rfl, rfl⟩
  · refine ⟨?_, rfl, rfl⟩
    symm
    rw [List.filter_eq_self]
    intro n hn
    simp only [ne_eq, decide_eq_true_eq]
    rintro rfl
    exact hmem hn

theorem observers_append (t1 t2 : List Event) :
    check_cb_labels (t1 ++ t2) = check_cb_labels t1 ++ check_cb_labels t2 ∧
    cleanup_probe_calls (t1 ++ t2) = cleanup_probe_calls t1 ++ cleanup_probe_calls t2 ∧
    detached (t1 ++ t2) = detached t1 ++ detached t2 ∧
    stat_calls (t1 ++ t2) = stat_calls t1 ++ stat_calls t2 := by
  simp [check_cb_labels, cleanup_probe_calls, detached, stat_calls]

theorem observers_attach_phase (l : List Event)
    (hl : ∀ e ∈ l, is_attach_phase_call e = true) :
    check_cb_labels l = [] ∧ cleanup_probe_calls l = [] ∧ detached l = [] ∧
    stat_calls l = [] := by
  refine ⟨?_, ?_, ?_, ?_⟩ <;>
  · refine filterMap_nil_of_class l is_attach_phase_call _ hl (fun e he => ?_)
    cases e <;> first | rfl | cases he

theorem observers_traversal_phase (l : List Event)
    (hl : ∀ e ∈ l, is_traversal_phase_call e = true) :
    check_cb_labels l = [] ∧ cleanup_probe_calls l = [] ∧ detached l = [] ∧
    stat_calls l = [] := by
  refine ⟨?_, ?_, ?_, ?_⟩ <;>
  · refine filterMap_nil_of_class l is_traversal_phase_call _ hl (fun e he => ?_)
    cases e <;> first | rfl | cases he

theorem observers_stat (l : List Event) (hl : ∀ e ∈ l, ∃ p, e = Event.stat p) :
    check_cb_labels l = [] ∧ cleanup_probe_calls l = [] ∧ detached l = [] := by
  refine ⟨?_, ?_, ?_⟩ <;>
  · simp only [check_cb_labels, cleanup_probe_calls, detached]
    rw [List.filterMap_eq_nil_iff]
    intro e he
    obtain ⟨p, rfl⟩ := hl e he
    rfl

/-- C7: in every construction in which no checkpoint throws and the traversal, if any, returns,
whatever attached and whether or not a mount point was found, the constructor returns having
called `cleanup_probe` exactly once, with the target `cgroup_clone_children_read`; that call
comes after everything else, the traversal and its checkpoint included, and is followed (after
the detachment it causes, if the probe was attached) by one liveness callback and then the
cleanup checkpoint, which ends the constructor.  Nothing but the attachment of
`cgroup_clone_children_read` is detached: every other tracked attachment stays tracked and the
failure counter is untouched. -/
theorem cleanup_probe_called_once (env : Env) (ph : ProbeHandler) (fuel : Nat)
    (hnothrow : ∀ l, env.check_cb_throws l = false)
    (hfuel : (CgroupProber.find_cgroup_mountpoint env.fs).1 = "" ∨
      (CgroupProber.trigger_cgroup_clone_children_read env.fs fuel ⟨0⟩
        (CgroupProber.find_cgroup_mountpoint env.fs).1).isSome = true) :
    (CgroupProber.ctor env ph fuel).status = Status.returned ∧
    cleanup_probe_calls (CgroupProber.ctor env ph fuel).trace = ["cgroup_clone_children_read"] ∧
    (∃ before detach, (CgroupProber.ctor env ph fuel).trace =
        before ++ [Event.call_cleanup_probe "cgroup_clone_children_read"] ++ detach
          ++ [Event.periodic_cb, Event.check_cb "cgroup prober cleanup()"] ∧
      (detach = [] ∨
        detach = [Event.kernel_detach "ebpf_net_p_cgroup_clone_children_read"]) ∧
      (∀ st, (CgroupProber.find_cgroup_mountpoint env.fs).1 ≠ "" →
        CgroupProber.trigger_cgroup_clone_children_read env.fs fuel ⟨0⟩
          (CgroupProber.find_cgroup_mountpoint env.fs).1 = some st →
        ∃ a, before = a ++ st.trace ++ [Event.check_cb "trigger_cgroup_clone_children_read()"])) ∧
    (∀ n ∈ detached (CgroupProber.ctor env ph fuel).trace,
      n = "ebpf_net_p_cgroup_clone_children_read") ∧
    (CgroupProber.ctor env ph fuel).probe_handler.probe_names_ =
      (CgroupProber.ctor_attach env ph).1.probe_names_.filter
        (fun n => n ≠ "ebpf_net_p_cgroup_clone_children_read") ∧
    (∀ k ∈ ["kill_css", "css_clear_dir", "cgroup_destroy_locked", "css_populate_dir",
        "cgroup_populate_dir", "cgroup_attach_task"],
      ProbeHandler.probe_prefix_ ++ k ∈ (CgroupProber.ctor_attach env ph).1.probe_names_ →
      ProbeHandler.probe_prefix_ ++ k ∈
        (CgroupProber.ctor env ph fuel).probe_handler.probe_names_) ∧
    (CgroupProber.ctor env ph fuel).probe_handler.num_failed_probes_ =
      (CgroupProber.ctor_attach env ph).1.num_failed_probes_ := by
  obtain ⟨count, traversal, hrun, htrav, _, hmount, _⟩ :=
    ctor_before_cleanup env ph fuel hnothrow hfuel
  obtain ⟨ct, cs, cp, _⟩ := ctor_cleanup_trace env (CgroupProber.ctor_attach env ph).1 count
    ((CgroupProber.ctor_attach env ph).2 ++ [Event.check_cb "cgroup prober startup"]
      ++ (CgroupProber.find_cgroup_mountpoint env.fs).2 ++ traversal)
  rw [← hrun] at ct cs cp
  clear hrun
  obtain ⟨_, hA2, hA3, _⟩ := observers_attach_phase _ (ctor_attach_calls env ph)
  obtain ⟨_, hM2, hM3⟩ := observers_stat _ (find_cgroup_mountpoint_calls env.fs)
  have hT : cleanup_probe_calls traversal = [] ∧ detached traversal = [] := by
    constructor
    · unfold cleanup_probe_calls
      rw [List.filterMap_eq_nil_iff]
      intro e he
      rcases htrav e he with h | rfl
      · cases e <;> first | rfl | cases h
      · rfl
    · unfold detached
      rw [List.filterMap_eq_nil_iff]
      intro e he
      rcases htrav e he with h | rfl
      · cases e <;> first | rfl | cases h
      · rfl
  have hC := cleanup_probe_calls_detach (CgroupProber.ctor_attach env ph).1
    "cgroup_clone_children_read"
  obtain ⟨hn1, hn2, _⟩ := cleanup_probe_names (CgroupProber.ctor_attach env ph).1
    "cgroup_clone_children_read"
  have hname : ProbeHandler.probe_prefix_ ++ "cgroup_clone_children_read" =
      "ebpf_net_p_cgroup_clone_children_read" := by decide
  rw [hname] at hC hn1
  have hnames : (CgroupProber.ctor env ph fuel).probe_handler.probe_names_ =
      (CgroupProber.ctor_attach env ph).1.probe_names_.filter
        (fun n => n ≠ "ebpf_net_p_cgroup_clone_children_read") := by
    rw [cp, hn1]
  refine ⟨?_, ?_, ?_, ?_, hnames, ?_, ?_⟩
  · rw [cs, hnothrow]; rfl
  · rw [ct]
    simp only [(observers_append _ _).2.1, hA2, hM2, hT.1, List.nil_append]
    rcases hC with hC | hC <;> rw [hC] <;> rfl
  · refine ⟨_, _, ct, hC, ?_⟩
    intro st hm hst
    obtain ⟨ht, _⟩ := hmount st hm hst
    refine ⟨(CgroupProber.ctor_attach env ph).2 ++ [Event.check_cb "cgroup prober startup"]
      ++ (CgroupProber.find_cgroup_mountpoint env.fs).2, ?_⟩
    rw [ht]
    simp only [List.append_assoc]
  · rw [ct]
    simp only [(observers_append _ _).2.2.1, hA3, hM3, hT.2, List.nil_append]
    rcases hC with hC | hC <;> rw [hC] <;> intro n hn
    · cases hn
    · simpa [detached] using hn
  · intro k hk hmem
    rw [hnames]
    refine List.mem_filter.2 ⟨hmem, ?_⟩
    simp only [List.mem_cons, List.mem_singleton, List.mem_nil_iff, or_false] at hk
    rcases hk with rfl | rfl | rfl | rfl | rfl | rfl <;> decide
  · rw [cp, hn2]

/-- Witness for C7: every probe attaches, `/sys/fs/cgroup/memory` is found and traversed. -/
theorem cleanup_probe_called_once_witness :
    (CgroupProber.ctor env_mounted ProbeHandler.fresh 5).status = Status.returned ∧
    cleanup_probe_calls (CgroupProber.ctor env_mounted ProbeHandler.fresh 5).trace =
      ["cgroup_clone_children_read"] ∧
    (CgroupProber.ctor env_mounted ProbeHandler.fresh 5).probe_handler.probe_names_ =
      ["ebpf_net_p_kill_css", "ebpf_net_p_css_populate_dir", "ebpf_net_p_cgroup_attach_task"] ∧
    detached (CgroupProber.ctor env_mounted ProbeHandler.fresh 5).trace =
      ["ebpf_net_p_cgroup_clone_children_read"] :=
  ⟨(cleanup_probe_called_once env_mounted ProbeHandler.fresh 5 (fun _ => rfl)
      (Or.inr (by decide))).1,
    (cleanup_probe_called_once env_mounted ProbeHandler.fresh 5 (fun _ => rfl)
      (Or.inr (by decide))).2.1,
    by decide, by decide⟩

/-- C8, counterexample: in a construction in which no callback throws and no mount point is
found, the constructor returns and the last checkpoint label is `cgroup prober cleanup()`, with
the parentheses: the label `cgroup prober cleanup` is never passed. -/
theorem cleanup_label_has_parentheses :
    (∀ l, env_bare.check_cb_throws l = false) ∧
    (CgroupProber.ctor env_bare ProbeHandler.fresh 0).status = Status.returned ∧
    check_cb_labels (CgroupProber.ctor env_bare ProbeHandler.fresh 0).trace ≠
      ["cgroup prober startup", "cgroup prober cleanup"] ∧
    Event.check_cb "cgroup prober cleanup" ∉
      (CgroupProber.ctor env_bare ProbeHandler.fresh 0).trace :=
  ⟨fun _ => rfl, by decide, by decide, by decide⟩

/-- C8, amended: in every construction in which no checkpoint throws and the traversal, if any,
returns, the checkpoint callback is invoked with exactly these labels, in this order:
`cgroup prober startup`; then, exactly when a mount point was found, the label
`trigger_cgroup_clone_children_read()`, right after the last call of the traversal; then
`cgroup prober cleanup()`. -/
theorem checkpoint_labels_in_order (env : Env) (ph : ProbeHandler) (fuel : Nat)
    (hnothrow : ∀ l, env.check_cb_throws l = false)
    (hfuel : (CgroupProber.find_cgroup_mountpoint env.fs).1 = "" ∨
      (CgroupProber.trigger_cgroup_clone_children_read env.fs fuel ⟨0⟩
        (CgroupProber.find_cgroup_mountpoint env.fs).1).isSome = true) :
    (CgroupProber.ctor env ph fuel).status = Status.returned ∧
    check_cb_labels (CgroupProber.ctor env ph fuel).trace =
      ["cgroup prober startup"] ++
      (if (CgroupProber.find_cgroup_mountpoint env.fs).1 = "" then []
        else ["trigger_cgroup_clone_children_read()"]) ++
      ["cgroup prober cleanup()"] ∧
    (∀ st, (CgroupProber.find_cgroup_mountpoint env.fs).1 ≠ "" →
      CgroupProber.trigger_cgroup_clone_children_read env.fs fuel ⟨0⟩
        (CgroupProber.find_cgroup_mountpoint env.fs).1 = some st →
      ∃ a b, (CgroupProber.ctor env ph fuel).trace =
        a ++ st.trace ++ [Event.check_cb "trigger_cgroup_clone_children_read()"] ++ b ∧
        check_cb_labels a = ["cgroup prober startup"] ∧
        check_cb_labels b = ["cgroup prober cleanup()"]) := by
  obtain ⟨count, traversal, hrun, _, hlab, hmount, _⟩ :=
    ctor_before_cleanup env ph fuel hnothrow hfuel
  obtain ⟨ct, cs, _, _⟩ := ctor_cleanup_trace env (CgroupProber.ctor_attach env ph).1 count
    ((CgroupProber.ctor_attach env ph).2 ++ [Event.check_cb "cgroup prober startup"]
      ++ (CgroupProber.find_cgroup_mountpoint env.fs).2 ++ traversal)
  rw [← hrun] at ct cs
  clear hrun
  obtain ⟨hA1, _, _, _⟩ := observers_attach_phase _ (ctor_attach_calls env ph)
  obtain ⟨hM1, _, _⟩ := observers_stat _ (find_cgroup_mountpoint_calls env.fs)
  have hC1 : check_cb_labels
      ((CgroupProber.ctor_attach env ph).1.cleanup_probe "cgroup_clone_children_read").2 = [] := by
    rcases cleanup_probe_calls_detach (CgroupProber.ctor_attach env ph).1
      "cgroup_clone_children_read" with hC | hC <;> rw [hC] <;> rfl
  have hone : ∀ l, check_cb_labels [Event.check_cb l] = [l] := fun _ => rfl
  have hend : check_cb_labels [Event.periodic_cb, Event.check_cb "cgroup prober cleanup()"] =
      ["cgroup prober cleanup()"] := rfl
  have hcall : check_cb_labels [Event.call_cleanup_probe "cgroup_clone_children_read"] = [] :=
    rfl
  refine ⟨?_, ?_, ?_⟩
  · rw [cs, hnothrow]; rfl
  · rw [ct]
    simp only [(observers_append _ _).1, hA1, hM1, hC1, hlab, hone, hend, hcall,
      List.nil_append, List.append_nil]
  · intro st hm hst
    obtain ⟨ht, _⟩ := hmount st hm hst
    refine ⟨(CgroupProber.ctor_attach env ph).2 ++ [Event.check_cb "cgroup prober startup"]
      ++ (CgroupProber.find_cgroup_mountpoint env.fs).2,
      [Event.call_cleanup_probe "cgroup_clone_children_read"]
        ++ ((CgroupProber.ctor_attach env ph).1.cleanup_probe "cgroup_clone_children_read").2
        ++ [Event.periodic_cb, Event.check_cb "cgroup prober cleanup()"], ?_, ?_, ?_⟩
    · rw [ct, ht]
      simp only [List.append_assoc]
    · simp only [(observers_append _ _).1, hA1, hM1, hone, List.nil_append, List.append_nil]
    · simp only [(observers_append _ _).1, hC1, hend, hcall, List.nil_append]

/-- Witness for the amended C8: a mount point is found and traversed. -/
theorem checkpoint_labels_in_order_witness :
    (CgroupProber.find_cgroup_mountpoint env_mounted.fs).1 = "/sys/fs/cgroup/memory" ∧
    check_cb_labels (CgroupProber.ctor env_mounted ProbeHandler.fresh 5).trace =
      ["cgroup prober startup"] ++
      (if (CgroupProber.find_cgroup_mountpoint env_mounted.fs).1 = "" then []
        else ["trigger_cgroup_clone_children_read()"]) ++
      ["cgroup prober cleanup()"] :=
  ⟨by decide,
    (checkpoint_labels_in_order env_mounted ProbeHandler.fresh 5 (fun _ => rfl)
      (Or.inr (by decide))).2.1⟩

/-! ## Attachments stay tracked -/

theorem start_probe_common_tracks (attach : Bool → String → String → Bool) (h : ProbeHandler)
    (is_kretprobe : Bool) (func_name k_func_name suffix : String) :
    (∀ n ∈ h.probe_names_,
      n ∈ (h.start_probe_common attach is_kretprobe func_name k_func_name suffix).2.1.probe_names_) ∧
    (∀ f k, Event.kernel_attach is_kretprobe f k true ∈
        (h.start_probe_common attach is_kretprobe func_name k_func_name suffix).2.2 →
      ProbeHandler.probe_name is_kretprobe k suffix ∈
        (h.start_probe_common attach is_kretprobe func_name k_func_name suffix).2.1.probe_names_) := by
  unfold ProbeHandler.start_probe_common
  split_ifs
  · constructor
    · intro n hn; simp [hn]
    · intro f k hk
      simp only [List.mem_singleton, Event.kernel_attach.injEq] at hk
      simp [hk.2.2.1]
  · constructor
    · intro n hn; exact hn
    · intro f k hk
      simp at hk

theorem try_alternatives_tracks (attach : Bool → String → String → Bool) (is_kretprobe : Bool)
    (suffix : String) (alts : List FuncAndKfunc) :
    ∀ (h : ProbeHandler) (evs : List Event),
      (∀ n ∈ h.probe_names_,
        n ∈ (ProbeHandler.try_alternatives attach is_kretprobe suffix alts h evs).2.1.probe_names_) ∧
      (∀ f k, Event.kernel_attach is_kretprobe f k true ∈
          (ProbeHandler.try_alternatives attach is_kretprobe suffix alts h evs).2.2 →
        Event.kernel_attach is_kretprobe f k true ∈ evs ∨
        ProbeHandler.probe_name is_kretprobe k suffix ∈
          (ProbeHandler.try_alternatives attach is_kretprobe suffix alts h evs).2.1.probe_names_) := by
  induction alts with
  | nil =>
    intro h evs
    simp only [ProbeHandler.try_alternatives]
    exact ⟨fun n hn => hn, fun f k hk => Or.inl hk⟩
  | cons alt rest ih =>
    intro h evs
    obtain ⟨c1, c2⟩ := start_probe_common_tracks attach h is_kretprobe alt.func_name
      alt.k_func_name suffix
    unfold ProbeHandler.try_alternatives
    simp only []
    split_ifs
    · exact ih h evs
    · refine ⟨c1, fun f k hk => ?_⟩
      simp only [List.mem_append] at hk
      rcases hk with hk | hk
      · exact Or.inl hk
      · exact Or.inr (c2 f k hk)
    · obtain ⟨i1, i2⟩ := ih
        (h.start_probe_common attach is_kretprobe alt.func_name alt.k_func_name suffix).2.1
        (evs ++ (h.start_probe_common attach is_kretprobe alt.func_name alt.k_func_name
          suffix).2.2)
      refine ⟨fun n hn => i1 n (c1 n hn), fun f k hk => ?_⟩
      rcases i2 f k hk with hk2 | hk2
      · simp only [List.mem_append] at hk2
        rcases hk2 with hk2 | hk2
        · exact Or.inl hk2
        · exact Or.inr (i1 _ (c2 f k hk2))
      · exact Or.inr hk2

theorem start_probe_alternatives_tracks (attach : Bool → String → String → Bool)
    (h : ProbeHandler) (alts : ProbeAlternatives) (suffix : String) :
    (∀ n ∈ h.probe_names_, n ∈ (h.start_probe_alternatives attach alts suffix).2.1.probe_names_) ∧
    (∀ f k, Event.kernel_attach false f k true ∈
        (h.start_probe_alternatives attach alts suffix).2.2 →
      ProbeHandler.probe_name false k suffix ∈
        (h.start_probe_alternatives attach alts suffix).2.1.probe_names_) := by
  obtain ⟨t1, t2⟩ := try_alternatives_tracks attach false suffix alts.func_names h []
  unfold ProbeHandler.start_probe_alternatives ProbeHandler.start_alternatives
  split
  · rename_i k h2 evs heq
    rw [heq] at t1 t2
    exact ⟨t1, fun f k hk => (t2 f k hk).resolve_left (by simp)⟩
  · rename_i h2 evs heq
    rw [heq] at t1 t2
    exact ⟨t1, fun f k hk => (t2 f k hk).resolve_left (by simp)⟩

theorem start_probe_tracks (attach : Bool → String → String → Bool) (h : ProbeHandler)
    (func_name k_func_name suffix : String) :
    (∀ n ∈ h.probe_names_,
      n ∈ (h.start_probe attach func_name k_func_name suffix).2.1.probe_names_) ∧
    (∀ f k, Event.kernel_attach false f k true ∈
        (h.start_probe attach func_name k_func_name suffix).2.2 →
      ProbeHandler.probe_name false k suffix ∈
        (h.start_probe attach func_name k_func_name suffix).2.1.probe_names_) := by
  obtain ⟨c1, c2⟩ := start_probe_common_tracks attach h false func_name k_func_name suffix
  unfold ProbeHandler.start_probe ProbeHandler.start_single
  simp only []
  split_ifs
  · exact ⟨c1, c2⟩
  · exact ⟨c1, c2⟩

/-- Every attachment made in the attach phase of the constructor is tracked by the handler at
the end of that phase, and so is every attachment tracked before. -/
theorem ctor_attach_tracks (env : Env) (ph : ProbeHandler) :
    (∀ n ∈ ph.probe_names_, n ∈ (CgroupProber.ctor_attach env ph).1.probe_names_) ∧
    (∀ f k, Event.kernel_attach false f k true ∈ (CgroupProber.ctor_attach env ph).2 →
      ProbeHandler.probe_name false k "" ∈ (CgroupProber.ctor_attach env ph).1.probe_names_) := by
  obtain ⟨a1, a2⟩ := start_probe_alternatives_tracks env.attach ph kill_kss_probe_alternatives ""
  obtain ⟨b1, b2⟩ := start_probe_alternatives_tracks env.attach
    (ph.start_probe_alternatives env.attach kill_kss_probe_alternatives "").2.1
    css_populate_dir_probe_alternatives ""
  obtain ⟨c1, c2⟩ := start_probe_tracks env.attach
    ((ph.start_probe_alternatives env.attach kill_kss_probe_alternatives "").2.1.start_probe_alternatives
      env.attach css_populate_dir_probe_alternatives "").2.1
    "on_cgroup_clone_children_read" "cgroup_clone_children_read" ""
  obtain ⟨d1, d2⟩ := start_probe_tracks env.attach
    (((ph.start_probe_alternatives env.attach kill_kss_probe_alternatives "").2.1.start_probe_alternatives
      env.attach css_populate_dir_probe_alternatives "").2.1.start_probe env.attach
      "on_cgroup_clone_children_read" "cgroup_clone_children_read" "").2.1
    "on_cgroup_attach_task" "cgroup_attach_task" ""
  constructor
  · intro n hn
    exact d1 n (c1 n (b1 n (a1 n hn)))
  · intro f k hk
    simp only [CgroupProber.ctor_attach, List.mem_append, List.mem_singleton, List.mem_cons,
      List.mem_nil_iff, or_false] at hk
    rcases hk with (((((((((hk | hk) | hk) | hk) | hk) | hk) | hk) | hk) | hk) | hk) | hk
    · cases hk
    · exact d1 _ (c1 _ (b1 _ (a2 f k hk)))
    · cases hk
    · cases hk
    · exact d1 _ (c1 _ (b2 f k hk))
    · cases hk
    · cases hk
    · exact d1 _ (c2 f k hk)
    · cases hk
    · exact d2 f k hk
    · cases hk

theorem mem_check_cb_labels (trace : List Event) (l : String) :
    Event.check_cb l ∈ trace ↔ l ∈ check_cb_labels trace := by
  simp only [check_cb_labels, List.mem_filterMap]
  constructor
  · intro h; exact ⟨_, h, rfl⟩
  · rintro ⟨e, he, hl⟩
    cases e <;> simp at hl
    subst hl; exact he

theorem ctor_cleanup_labels (env : Env) (ph : ProbeHandler) (count : Nat) (trace : List Event) :
    check_cb_labels (CgroupProber.ctor_cleanup env ph count trace).trace =
      check_cb_labels trace ++ ["cgroup prober cleanup()"] ∧
    (CgroupProber.ctor_cleanup env ph count trace).trace.getLast? =
      some (Event.check_cb "cgroup prober cleanup()") := by
  obtain ⟨ct, _, _, _⟩ := ctor_cleanup_trace env ph count trace
  rw [ct]
  constructor
  · have hC1 : check_cb_labels (ph.cleanup_probe "cgroup_clone_children_read").2 = [] := by
      rcases cleanup_probe_calls_detach ph "cgroup_clone_children_read" with hC | hC <;>
        rw [hC] <;> rfl
    have hend : check_cb_labels [Event.periodic_cb, Event.check_cb "cgroup prober cleanup()"] =
        ["cgroup prober cleanup()"] := rfl
    have hcall : check_cb_labels [Event.call_cleanup_probe "cgroup_clone_children_read"] = [] :=
      rfl
    simp only [(observers_append _ _).1, hC1, hend, hcall, List.append_nil]
  · rw [List.getLast?_append]; rfl

/-- The ways a run of the constructor can end, with the checkpoints invoked in each. -/
theorem ctor_cases (env : Env) (ph : ProbeHandler) (fuel : Nat) :
    (env.check_cb_throws "cgroup prober startup" = true ∧
      (CgroupProber.ctor env ph fuel).status = Status.raised "cgroup prober startup" ∧
      check_cb_labels (CgroupProber.ctor env ph fuel).trace = ["cgroup prober startup"] ∧
      (CgroupProber.ctor env ph fuel).trace.getLast? =
        some (Event.check_cb "cgroup prober startup")) ∨
    (env.check_cb_throws "cgroup prober startup" = false ∧
      (CgroupProber.ctor env ph fuel).status = Status.out_of_fuel ∧
      check_cb_labels (CgroupProber.ctor env ph fuel).trace = ["cgroup prober startup"]) ∨
    (env.check_cb_throws "cgroup prober startup" = false ∧
      env.check_cb_throws "trigger_cgroup_clone_children_read()" = true ∧
      (CgroupProber.ctor env ph fuel).status =
        Status.raised "trigger_cgroup_clone_children_read()" ∧
      check_cb_labels (CgroupProber.ctor env ph fuel).trace =
        ["cgroup prober startup", "trigger_cgroup_clone_children_read()"] ∧
      (CgroupProber.ctor env ph fuel).trace.getLast? =
        some (Event.check_cb "trigger_cgroup_clone_children_read()")) ∨
    (env.check_cb_throws "cgroup prober startup" = false ∧
      (CgroupProber.ctor env ph fuel).status =
        (if env.check_cb_throws "cgroup prober cleanup()" then
          Status.raised "cgroup prober cleanup()" else Status.returned) ∧
      (CgroupProber.ctor env ph fuel).trace.getLast? =
        some (Event.check_cb "cgroup prober cleanup()") ∧
      (check_cb_labels (CgroupProber.ctor env ph fuel).trace =
          ["cgroup prober startup", "cgroup prober cleanup()"] ∨
        (env.check_cb_throws "trigger_cgroup_clone_children_read()" = false ∧
          check_cb_labels (CgroupProber.ctor env ph fuel).trace =
            ["cgroup prober startup", "trigger_cgroup_clone_children_read()",
              "cgroup prober cleanup()"]))) := by
  obtain ⟨hA1, _, _, _⟩ := observers_attach_phase _ (ctor_attach_calls env ph)
  obtain ⟨hM1, _, _⟩ := observers_stat _ (find_cgroup_mountpoint_calls env.fs)
  have hone : ∀ l, check_cb_labels [Event.check_cb l] = [l] := fun _ => rfl
  cases hs : env.check_cb_throws "cgroup prober startup" with
  | true =>
    refine Or.inl ⟨rfl, ?_⟩
    have hrun : CgroupProber.ctor env ph fuel =
        ⟨(CgroupProber.ctor_attach env ph).1, 0,
          (CgroupProber.ctor_attach env ph).2 ++ [Event.check_cb "cgroup prober startup"],
          Status.raised "cgroup prober startup"⟩ := by
      simp [CgroupProber.ctor, hs]
    rw [hrun]
    refine ⟨rfl, ?_, List.getLast?_concat _⟩
    simp only [(observers_append _ _).1, hA1, hone, List.nil_append]
  | false =>
    refine Or.inr ?_
    by_cases hm : (CgroupProber.find_cgroup_mountpoint env.fs).1 = ""
    · refine Or.inr (Or.inr ⟨rfl, ?_⟩)
      have hrun := ctor_without_mountpoint env ph fuel hm
      rw [hs] at hrun
      simp only [Bool.false_eq_true, if_false] at hrun
      rw [hrun]
      obtain ⟨_, cs, _, _⟩ := ctor_cleanup_trace env (CgroupProber.ctor_attach env ph).1 0
        ((CgroupProber.ctor_attach env ph).2 ++ [Event.check_cb "cgroup prober startup"]
          ++ (CgroupProber.find_cgroup_mountpoint env.fs).2)
      obtain ⟨cl, cg⟩ := ctor_cleanup_labels env (CgroupProber.ctor_attach env ph).1 0
        ((CgroupProber.ctor_attach env ph).2 ++ [Event.check_cb "cgroup prober startup"]
          ++ (CgroupProber.find_cgroup_mountpoint env.fs).2)
      refine ⟨cs, cg, Or.inl ?_⟩
      rw [cl]
      simp only [(observers_append _ _).1, hA1, hM1, hone, List.nil_append, List.append_nil,
        List.singleton_append]
    · cases hst : CgroupProber.trigger_cgroup_clone_children_read env.fs fuel ⟨0⟩
          (CgroupProber.find_cgroup_mountpoint env.fs).1 with
      | none =>
        refine Or.inl ⟨rfl, ?_⟩
        have hrun := ctor_out_of_fuel env ph fuel hm hst
        rw [hs] at hrun
        simp only [Bool.false_eq_true, if_false] at hrun
        rw [hrun]
        refine ⟨rfl, ?_⟩
        simp only [(observers_append _ _).1, hA1, hM1, hone, List.nil_append, List.append_nil]
      | some st =>
        obtain ⟨hT1, _, _, _⟩ := observers_traversal_phase _
          (trigger_calls env.fs fuel ⟨0⟩ _ st hst)
        have hrun := ctor_with_mountpoint env ph fuel st hm hst
        rw [hs] at hrun
        simp only [Bool.false_eq_true, if_false] at hrun
        cases ht : env.check_cb_throws "trigger_cgroup_clone_children_read()" with
        | true =>
          rw [ht] at hrun
          simp only [if_true] at hrun
          rw [hrun]
          refine Or.inr (Or.inl ⟨rfl, rfl, ?_⟩)
          refine ⟨rfl, ?_, List.getLast?_concat _⟩
          simp only [(observers_append _ _).1, hA1, hM1, hT1, hone, List.nil_append,
            List.append_nil, List.singleton_append]
        | false =>
          rw [ht] at hrun
          simp only [Bool.false_eq_true, if_false] at hrun
          rw [hrun]
          refine Or.inr (Or.inr ⟨rfl, ?_⟩)
          obtain ⟨_, cs, _, _⟩ := ctor_cleanup_trace env (CgroupProber.ctor_attach env ph).1
            st.close_dir_error_count_
            ((CgroupProber.ctor_attach env ph).2 ++ [Event.check_cb "cgroup prober startup"]
              ++ (CgroupProber.find_cgroup_mountpoint env.fs).2 ++ st.trace
              ++ [Event.check_cb "trigger_cgroup_clone_children_read()"])
          obtain ⟨cl, cg⟩ := ctor_cleanup_labels env (CgroupProber.ctor_attach env ph).1
            st.close_dir_error_count_
            ((CgroupProber.ctor_attach env ph).2 ++ [Event.check_cb "cgroup prober startup"]
              ++ (CgroupProber.find_cgroup_mountpoint env.fs).2 ++ st.trace
              ++ [Event.check_cb "trigger_cgroup_clone_children_read()"])
          refine ⟨cs, cg, Or.inr ⟨rfl, ?_⟩⟩
          rw [cl]
          simp only [(observers_append _ _).1, hA1, hM1, hT1, hone, List.nil_append,
            List.append_nil, List.singleton_append, List.cons_append]

/-- C9: a throw of the checkpoint callback leaves the constructor and ends it.  The constructor
ends with the status "raised at `l`" only if `check_cb(l)` threw, and then that invocation is its
last call; and if the checkpoint callback throws at any label it is invoked with, the constructor
ends raised at that label with that invocation as its last call.  In particular, when it throws
at `cgroup prober startup`, the calls made are those of the attach phase and that checkpoint: no
`stat` of the mount point lookup, no call of the traversal, no `cleanup_probe` and no
detachment; every attachment made, and every attachment tracked before, is still tracked by the
probe handler. -/
theorem checkpoint_throw_ends_constructor (env : Env) (ph : ProbeHandler) (fuel : Nat) :
    (∀ l, (CgroupProber.ctor env ph fuel).status = Status.raised l →
      env.check_cb_throws l = true ∧
      (CgroupProber.ctor env ph fuel).trace.getLast? = some (Event.check_cb l)) ∧
    (∀ l, Event.check_cb l ∈ (CgroupProber.ctor env ph fuel).trace →
      env.check_cb_throws l = true →
      (CgroupProber.ctor env ph fuel).status = Status.raised l ∧
      (CgroupProber.ctor env ph fuel).trace.getLast? = some (Event.check_cb l)) ∧
    (env.check_cb_throws "cgroup prober startup" = true →
      CgroupProber.ctor env ph fuel =
        ⟨(CgroupProber.ctor_attach env ph).1, 0,
          (CgroupProber.ctor_attach env ph).2 ++ [Event.check_cb "cgroup prober startup"],
          Status.raised "cgroup prober startup"⟩ ∧
      stat_calls (CgroupProber.ctor env ph fuel).trace = [] ∧
      (∀ e ∈ (CgroupProber.ctor env ph fuel).trace, is_traversal_call e = false) ∧
      cleanup_probe_calls (CgroupProber.ctor env ph fuel).trace = [] ∧
      detached (CgroupProber.ctor env ph fuel).trace = [] ∧
      (∀ n ∈ ph.probe_names_, n ∈ (CgroupProber.ctor env ph fuel).probe_handler.probe_names_) ∧
      (∀ f k, Event.kernel_attach false f k true ∈ (CgroupProber.ctor env ph fuel).trace →
        ProbeHandler.probe_name false k "" ∈
          (CgroupProber.ctor env ph fuel).probe_handler.probe_names_)) := by
  have hcases := ctor_cases env ph fuel
  refine ⟨?_, ?_, ?_⟩
  · intro l hl
    rcases hcases with ⟨hs, hst, _, hg⟩ | ⟨_, hst, _⟩ | ⟨_, ht, hst, _, hg⟩ | ⟨_, hst, hg, _⟩
    · rw [hst] at hl; cases hl; exact ⟨hs, hg⟩
    · rw [hst] at hl; cases hl
    · rw [hst] at hl; cases hl; exact ⟨ht, hg⟩
    · rw [hst] at hl
      cases hc : env.check_cb_throws "cgroup prober cleanup()" with
      | true =>
        rw [hc] at hl
        simp only [if_true] at hl
        cases hl
        exact ⟨hc, hg⟩
      | false =>
        rw [hc] at hl
        simp only [Bool.false_eq_true, if_false] at hl
        cases hl
  · intro l hl hthrow
    rw [mem_check_cb_labels] at hl
    rcases hcases with ⟨_, hst, hlab, hg⟩ | ⟨hs, _, hlab⟩ | ⟨hs, _, hst, hlab, hg⟩ |
      ⟨hs, hst, hg, hlab⟩
    · rw [hlab, List.mem_singleton] at hl
      subst hl; exact ⟨hst, hg⟩
    · rw [hlab, List.mem_singleton] at hl
      subst hl; rw [hs] at hthrow; cases hthrow
    · rw [hlab] at hl
      simp only [List.mem_cons, List.mem_singleton, List.mem_nil_iff, or_false] at hl
      rcases hl with rfl | rfl
      · rw [hs] at hthrow; cases hthrow
      · exact ⟨hst, hg⟩
    · have hfin : l = "cgroup prober cleanup()" := by
        rcases hlab with hlab | ⟨ht, hlab⟩
        · rw [hlab] at hl
          simp only [List.mem_cons, List.mem_singleton, List.mem_nil_iff, or_false] at hl
          rcases hl with rfl | rfl
          · rw [hs] at hthrow; cases hthrow
          · rfl
        · rw [hlab] at hl
          simp only [List.mem_cons, List.mem_singleton, List.mem_nil_iff, or_false] at hl
          rcases hl with rfl | rfl | rfl
          · rw [hs] at hthrow; cases hthrow
          · rw [ht] at hthrow; cases hthrow
          · rfl
      subst hfin
      rw [hthrow] at hst
      exact ⟨hst, hg⟩
  · intro hs
    have hrun : CgroupProber.ctor env ph fuel =
        ⟨(CgroupProber.ctor_attach env ph).1, 0,
          (CgroupProber.ctor_attach env ph).2 ++ [Event.check_cb "cgroup prober startup"],
          Status.raised "cgroup prober startup"⟩ := by
      simp [CgroupProber.ctor, hs]
    obtain ⟨_, hA2, hA3, hA4⟩ := observers_attach_phase _ (ctor_attach_calls env ph)
    obtain ⟨t1, t2⟩ := ctor_attach_tracks env ph
    refine ⟨hrun, ?_⟩
    rw [hrun]
    simp only []
    refine ⟨?_, ?_, ?_, ?_, t1, ?_⟩
    · rw [(observers_append _ _).2.2.2, hA4]; rfl
    · intro e he
      simp only [List.mem_append, List.mem_singleton] at he
      rcases he with he | rfl
      · exact (attach_phase_not_traversal e (ctor_attach_calls env ph e he)).1
      · rfl
    · rw [(observers_append _ _).2.1, hA2]; rfl
    · rw [(observers_append _ _).2.2.1, hA3]; rfl
    · intro f k hk
      simp only [List.mem_append, List.mem_singleton] at hk
      rcases hk with hk | hk
      · exact t2 f k hk
      · cases hk

/-- Witness for C9: every probe attaches and the checkpoint callback throws at the startup
checkpoint; the four attachments stay tracked and nothing else happens. -/
theorem checkpoint_throw_ends_constructor_witness :
    env_startup_throws.check_cb_throws "cgroup prober startup" = true ∧
    (CgroupProber.ctor env_startup_throws ProbeHandler.fresh 5).status =
      Status.raised "cgroup prober startup" ∧
    (CgroupProber.ctor env_startup_throws ProbeHandler.fresh 5).probe_handler.probe_names_ =
      ["ebpf_net_p_kill_css", "ebpf_net_p_css_populate_dir",
        "ebpf_net_p_cgroup_clone_children_read", "ebpf_net_p_cgroup_attach_task"] ∧
    stat_calls (CgroupProber.ctor env_startup_throws ProbeHandler.fresh 5).trace = [] ∧
    cleanup_probe_calls (CgroupProber.ctor env_startup_throws ProbeHandler.fresh 5).trace = [] ∧
    detached (CgroupProber.ctor env_startup_throws ProbeHandler.fresh 5).trace = [] :=
  ⟨by decide,
    ((checkpoint_throw_ends_constructor env_startup_throws ProbeHandler.fresh 5).2.1
      "cgroup prober startup" (by decide) (by decide)).1,
    by decide,
    ((checkpoint_throw_ends_constructor env_startup_throws ProbeHandler.fresh 5).2.2
      (by decide)).2.1,
    ((checkpoint_throw_ends_constructor env_startup_throws ProbeHandler.fresh 5).2.2
      (by decide)).2.2.2.1,
    ((checkpoint_throw_ends_constructor env_startup_throws ProbeHandler.fresh 5).2.2
      (by decide)).2.2.2.2.1⟩

/-! ## Termination under failures -/

theorem all_dirs_length (h : Hierarchy) (root : String) :
    (h.all_dirs root).length = h.size + 1 := by
  have key : ∀ (h : Hierarchy) (path : String), (h.dirs path).length = h.size := by
    intro h
    induction h with
    | nil => intro path; rfl
    | other ent rest ih => intro path; simpa [Hierarchy.dirs, Hierarchy.size] using ih path
    | subdir d_name content rest ihc ihr =>
      intro path
      simp only [Hierarchy.dirs, Hierarchy.size, List.length_cons, List.length_append,
        ihc, ihr]
  simp [Hierarchy.all_dirs, key]

theorem pending_fuel_cons (x : String × Hierarchy) (rest : List (String × Hierarchy)) :
    pending_fuel (x :: rest) = x.2.size + 1 + pending_fuel rest := by
  simp [pending_fuel]

theorem pending_fuel_append (l1 l2 : List (String × Hierarchy)) :
    pending_fuel (l1 ++ l2) = pending_fuel l1 + pending_fuel l2 := by
  simp [pending_fuel]

/-- The loop on a stack whose upper part names directories of a hierarchy that may fail to open:
after at most one pass per directory in and below that part it stands on the lower part, having
popped only directories of that part. -/
theorem while_loop_pending_failing (fs : FileSystem) (k : Nat) :
    ∀ (pend : List (String × Hierarchy)), pending_fuel pend ≤ k →
      (∀ x ∈ pend, x.2.wf = true) →
      (∀ x ∈ pend, fs.within_hierarchy x.1 x.2) →
      ∀ (below : List String) (count : Nat) (trace : List Event),
        ∃ used count2 trace2, used ≤ pending_fuel pend ∧
          (∀ m, while_loop fs (used + m) ⟨pend.map Prod.fst ++ below, count, trace⟩ =
            while_loop fs m ⟨below, count2, trace2⟩) ∧
          ∃ visited, popped trace2 = popped trace ++ visited ∧ visited.length = used ∧
            ∀ p ∈ visited, p ∈ (pending_order pend).map Prod.fst := by
  induction k with
  | zero =>
    intro pend hk _ _ below count trace
    cases pend with
    | nil => exact ⟨0, count, trace, by simp [pending_fuel], by simp, [], by simp, rfl, by simp⟩
    | cons x rest => simp [pending_fuel] at hk
  | succ k ih =>
    intro pend hk hwf hfs below count trace
    cases pend with
    | nil => exact ⟨0, count, trace, by simp [pending_fuel], by simp, [], by simp, rfl, by simp⟩
    | cons x rest =>
      obtain ⟨p, c⟩ := x
      rw [pending_fuel_cons] at hk
      have hx := hfs (p, c) (List.mem_cons_self _ _)
      have hcwf : c.wf = true := hwf (p, c) (List.mem_cons_self _ _)
      have hpop : popped (trace ++ body_events fs trace.length p) = popped trace ++ [p] := by
        rw [← popped_body_events fs trace.length p]; simp [popped]
      have hord : pending_order ((p, c) :: rest) =
          (p, c.entries) :: (pending_order (c.children p).reverse ++ pending_order rest) := by
        simp [pending_order, visit_dirs_eq_children c p]
      -- the pass either descends into `p` or skips it
      by_cases hdesc : fs.opendir trace.length p = some c.entries ∧
          fs.ifstream_fail trace.length (p ++ "/cgroup.clone_children") = false
      · have hpush : body_pushes fs trace.length p = (c.children p).map Prod.fst := by
          simp [body_pushes, hdesc.1, hdesc.2, pushed_paths_entries p c hcwf]
        have hfuel : pending_fuel ((c.children p).reverse ++ rest) ≤ k := by
          rw [pending_fuel_append, pending_fuel_reverse, size_eq_children]
          simp only [] at hk; omega
        have hwf2 : ∀ x ∈ (c.children p).reverse ++ rest, x.2.wf = true := by
          intro x hx
          rcases List.mem_append.1 hx with hx | hx
          · exact wf_children c p hcwf x (List.mem_reverse.1 hx)
          · exact hwf x (List.mem_cons_of_mem _ hx)
        have hfs2 : ∀ x ∈ (c.children p).reverse ++ rest, fs.within_hierarchy x.1 x.2 := by
          intro y hy
          rcases List.mem_append.1 hy with hy | hy
          · have hy := List.mem_reverse.1 hy
            intro t d hd
            refine hx t d ?_
            simp only [Hierarchy.all_dirs, dirs_eq_children c p]
            exact List.mem_cons_of_mem _ (List.mem_flatMap.2 ⟨y, hy, hd⟩)
          · exact hfs y (List.mem_cons_of_mem _ hy)
        obtain ⟨used, count2, trace2, hused, hrun, visited, hvis, hlen, hmem⟩ :=
          ih ((c.children p).reverse ++ rest) hfuel hwf2 hfs2 below
            (count + body_close_errors fs trace.length p)
            (trace ++ body_events fs trace.length p)
        refine ⟨used + 1, count2, trace2, ?_, ?_, p :: visited, ?_, ?_, ?_⟩
        · rw [pending_fuel_cons]
          rw [pending_fuel_append, pending_fuel_reverse, size_eq_children] at hused
          simp only []; omega
        · intro m
          have : used + 1 + m = (used + m) + 1 := by omega
          rw [this]
          simp only [List.map_cons, List.cons_append, while_loop]
          rw [loop_body_eq, hpush, ← hrun m]
          simp [List.map_reverse]
        · rw [hvis, hpop]; simp
        · simp [hlen]
        · intro q hq
          rw [hord]
          simp only [List.mem_cons] at hq
          rcases hq with rfl | hq
          · simp
          · have := hmem q hq
            simp only [pending_order, List.flatMap_append, List.map_append] at this ⊢
            simp only [List.map_cons, List.mem_cons]
            exact Or.inr (by simpa using this)
      · have hpush : body_pushes fs trace.length p = [] := by
          unfold body_pushes
          rcases hx trace.length (p, c.entries) (by simp [Hierarchy.all_dirs]) with ho | ho
          · simp only [] at ho; rw [ho]
          · simp only [] at ho
            rw [ho]
            simp only []
            have hf : fs.ifstream_fail trace.length (p ++ "/cgroup.clone_children") = true := by
              by_contra hcon
              exact hdesc ⟨ho, by simpa using hcon⟩
            rw [if_pos hf]
        have hfuel : pending_fuel rest ≤ k := by simp only [] at hk; omega
        obtain ⟨used, count2, trace2, hused, hrun, visited, hvis, hlen, hmem⟩ :=
          ih rest hfuel (fun x hx => hwf x (List.mem_cons_of_mem _ hx))
            (fun x hx => hfs x (List.mem_cons_of_mem _ hx)) below
            (count + body_close_errors fs trace.length p)
            (trace ++ body_events fs trace.length p)
        refine ⟨used + 1, count2, trace2, ?_, ?_, p :: visited, ?_, ?_, ?_⟩
        · rw [pending_fuel_cons]; omega
        · intro m
          have : used + 1 + m = (used + m) + 1 := by omega
          rw [this]
          simp only [List.map_cons, List.cons_append, while_loop]
          rw [loop_body_eq, hpush, ← hrun m]
          simp
        · rw [hvis, hpop]; simp
        · simp [hlen]
        · intro q hq
          rw [hord]
          simp only [List.mem_cons] at hq
          rcases hq with rfl | hq
          · simp
          · have := hmem q hq
            simp only [List.map_cons, List.map_append, List.mem_cons, List.mem_append]
            exact Or.inr (Or.inr this)

/-- C11: on a finite hierarchy at the mount point, whatever the pattern in which `opendir`, the
opening of trigger files and `closedir` fail while the traversal runs (directories removed
concurrently no longer open), `trigger_cgroup_clone_children_read` returns, given one unit of
fuel per directory of the hierarchy, and the paths it pops are directories of the hierarchy, at
most as many as the hierarchy has. -/
theorem trigger_terminates_under_failures (fs : FileSystem) (root : String) (h : Hierarchy)
    (this : CgroupProber) (fuel : Nat) (hwf : h.wf = true)
    (hwithin : fs.within_hierarchy root h) (hfuel : h.size + 1 ≤ fuel) :
    ∃ st, CgroupProber.trigger_cgroup_clone_children_read fs fuel this root = some st ∧
      (popped st.trace).length ≤ (h.all_dirs root).length ∧
      ∀ p ∈ popped st.trace, p ∈ h.all_paths root := by
  obtain ⟨used, count2, trace2, hused, hrun, visited, hvis, hlen, hmem⟩ :=
    while_loop_pending_failing fs (h.size + 1) [(root, h)] (by simp [pending_fuel])
      (by simpa using hwf) (by simpa using hwithin) [] this.close_dir_error_count_
      [Event.push root]
  have hu : used ≤ h.size + 1 := by simpa [pending_fuel] using hused
  obtain ⟨m, rfl⟩ : ∃ m, fuel = used + m := ⟨fuel - used, by omega⟩
  have key := hrun m
  simp only [List.map_cons, List.map_nil, List.append_nil, while_loop_empty] at key
  have hpopped : popped trace2 = visited := by simpa [popped] using hvis
  refine ⟨⟨[], count2, trace2⟩, ?_, ?_, ?_⟩
  · simp only [CgroupProber.trigger_cgroup_clone_children_read, CgroupProber.traversal_after,
      TraversalState.emplace, List.nil_append, key]
    simp
  · simp only [hpopped, hlen, all_dirs_length]
    exact hu
  · intro p hp
    rw [hpopped] at hp
    have h1 := hmem p hp
    have h2 : pending_order [(root, h)] = (root, h.entries) :: h.visit_dirs root := by
      simp [pending_order]
    rw [h2] at h1
    exact ((visit_all_perm h root).map Prod.fst).subset h1

/-- Witness for C11: the chain of three directories in which `/m/a` no longer opens, the trigger
files stop opening and every `closedir` fails; the run returns after two pops. -/
theorem trigger_terminates_under_failures_witness :
    (CgroupProber.trigger_cgroup_clone_children_read fs_chain3_failing 3 ⟨0⟩ "/m").map
      (fun st => (popped st.trace, st.close_dir_error_count_)) = some (["/m", "/m/a"], 1) ∧
    ∃ st, CgroupProber.trigger_cgroup_clone_children_read fs_chain3_failing 3 ⟨0⟩ "/m"
        = some st ∧
      (popped st.trace).length ≤ (chain3.all_dirs "/m").length ∧
      ∀ p ∈ popped st.trace, p ∈ chain3.all_paths "/m" :=
  ⟨by decide,
    trigger_terminates_under_failures fs_chain3_failing "/m" chain3 ⟨0⟩ 3 (by decide)
      (fun _ => (by decide : ∀ d ∈ chain3.all_dirs "/m",
        (if d.1 = "/m/a" then none else (chain3.all_dirs "/m").lookup d.1) = none ∨
        (if d.1 = "/m/a" then none else (chain3.all_dirs "/m").lookup d.1) = some d.2))
      (by decide)⟩

/-! ## The alternatives loop in closed form -/

theorem try_alternatives_cons (attach : Bool → String → String → Bool) (is_kretprobe : Bool)
    (suffix : String) (alt : FuncAndKfunc) (rest : List FuncAndKfunc) (h : ProbeHandler)
    (evs : List Event) :
    ProbeHandler.try_alternatives attach is_kretprobe suffix (alt :: rest) h evs =
      if h.is_filtered alt = true then
        ProbeHandler.try_alternatives attach is_kretprobe suffix rest h evs
      else if attach is_kretprobe alt.func_name alt.k_func_name = true then
        (some alt.k_func_name,
          { h with probe_names_ :=
              h.probe_names_ ++ [ProbeHandler.probe_name is_kretprobe alt.k_func_name suffix] },
          evs ++ [Event.kernel_attach is_kretprobe alt.func_name alt.k_func_name true])
      else
        ProbeHandler.try_alternatives attach is_kretprobe suffix rest h
          (evs ++ [Event.kernel_attach is_kretprobe alt.func_name alt.k_func_name false]) := by
  rw [ProbeHandler.try_alternatives]
  show (if h.is_filtered alt = true then _ else _) = _
  by_cases hf : h.is_filtered alt = true
  · rw [if_pos hf, if_pos hf]
  · rw [if_neg hf, if_neg hf]
    cases ha : attach is_kretprobe alt.func_name alt.k_func_name <;>
      simp [ProbeHandler.start_probe_common, ha]

/-- When every candidate is filtered out or fails to attach, the loop attempts each candidate
that is not filtered, in order, and leaves the handler as it was. -/
theorem try_alternatives_all_fail (attach : Bool → String → String → Bool) (is_kretprobe : Bool)
    (suffix : String) (h : ProbeHandler) (alts : List FuncAndKfunc) :
    ∀ (evs : List Event),
      (∀ x ∈ alts, h.is_filtered x = true ∨
        attach is_kretprobe x.func_name x.k_func_name = false) →
      ProbeHandler.try_alternatives attach is_kretprobe suffix alts h evs =
        (none, h, evs ++ (alts.filter (fun x => !h.is_filtered x)).map
          (attach_event attach is_kretprobe)) := by
  induction alts with
  | nil => intro evs _; simp [ProbeHandler.try_alternatives]
  | cons alt rest ih =>
    intro evs hall
    have hrest : ∀ x ∈ rest, h.is_filtered x = true ∨
        attach is_kretprobe x.func_name x.k_func_name = false :=
      fun x hx => hall x (List.mem_cons_of_mem _ hx)
    rw [try_alternatives_cons]
    by_cases hf : h.is_filtered alt = true
    · rw [if_pos hf, ih evs hrest]
      simp [hf]
    · have ha : attach is_kretprobe alt.func_name alt.k_func_name = false :=
        (hall alt (List.mem_cons_self _ _)).resolve_left hf
      rw [if_neg hf, if_neg (by simp [ha]), ih _ hrest]
      simp only [Bool.not_eq_true] at hf
      simp [hf, attach_event, ha]

/-- When the candidates before `a` are filtered out or fail to attach and `a` is not filtered
and attaches, the loop attempts the candidates before `a` that are not filtered, in order, then
`a`, and stops: it returns the name of `a` and tracks its attachment. -/
theorem try_alternatives_first_success (attach : Bool → String → String → Bool)
    (is_kretprobe : Bool) (suffix : String) (h : ProbeHandler) (a : FuncAndKfunc)
    (post : List FuncAndKfunc) (hfa : h.is_filtered a = false)
    (ha : attach is_kretprobe a.func_name a.k_func_name = true) (pre : List FuncAndKfunc) :
    ∀ (evs : List Event),
      (∀ x ∈ pre, h.is_filtered x = true ∨
        attach is_kretprobe x.func_name x.k_func_name = false) →
      ProbeHandler.try_alternatives attach is_kretprobe suffix (pre ++ a :: post) h evs =
        (some a.k_func_name,
          { h with probe_names_ :=
              h.probe_names_ ++ [ProbeHandler.probe_name is_kretprobe a.k_func_name suffix] },
          evs ++ (pre.filter (fun x => !h.is_filtered x)).map (attach_event attach is_kretprobe)
            ++ [Event.kernel_attach is_kretprobe a.func_name a.k_func_name true]) := by
  induction pre with
  | nil =>
    intro evs _
    rw [List.nil_append, try_alternatives_cons, if_neg (by simp [hfa]), if_pos ha]
    simp
  | cons alt rest ih =>
    intro evs hall
    have hrest : ∀ x ∈ rest, h.is_filtered x = true ∨
        attach is_kretprobe x.func_name x.k_func_name = false :=
      fun x hx => hall x (List.mem_cons_of_mem _ hx)
    rw [List.cons_append, try_alternatives_cons]
    by_cases hf : h.is_filtered alt = true
    · rw [if_pos hf, ih evs hrest]
      simp [hf]
    · have hal : attach is_kretprobe alt.func_name alt.k_func_name = false :=
        (hall alt (List.mem_cons_self _ _)).resolve_left hf
      rw [if_neg hf, if_neg (by simp [hal]), ih _ hrest]
      simp only [Bool.not_eq_true] at hf
      simp [hf, attach_event, hal]

/-- A list of candidates either has a first candidate that is not filtered and attaches, or
every candidate is filtered out or fails. -/
theorem first_success_or_all_fail (attach : Bool → String → String → Bool) (is_kretprobe : Bool)
    (h : ProbeHandler) (alts : List FuncAndKfunc) :
    (∀ x ∈ alts, h.is_filtered x = true ∨
      attach is_kretprobe x.func_name x.k_func_name = false) ∨
    ∃ pre a post, alts = pre ++ a :: post ∧
      (∀ x ∈ pre, h.is_filtered x = true ∨
        attach is_kretprobe x.func_name x.k_func_name = false) ∧
      h.is_filtered a = false ∧ attach is_kretprobe a.func_name a.k_func_name = true := by
  induction alts with
  | nil => left; simp
  | cons alt rest ih =>
    by_cases hbad : h.is_filtered alt = true ∨
        attach is_kretprobe alt.func_name alt.k_func_name = false
    · rcases ih with hall | ⟨pre, a, post, heq, hpre, hfa, ha⟩
      · left
        intro x hx
        simp only [List.mem_cons] at hx
        rcases hx with rfl | hx
        · exact hbad
        · exact hall x hx
      · right
        refine ⟨alt :: pre, a, post, by rw [heq]; rfl, ?_, hfa, ha⟩
        intro x hx
        simp only [List.mem_cons] at hx
        rcases hx with rfl | hx
        · exact hbad
        · exact hpre x hx
    · right
      simp only [not_or, Bool.not_eq_true, Bool.not_eq_false] at hbad
      exact ⟨[], alt, rest, rfl, by simp, hbad.1, hbad.2⟩

theorem start_alternatives_all_fail (attach : Bool → String → String → Bool)
    (h : ProbeHandler) (is_kretprobe : Bool) (alts : ProbeAlternatives) (suffix : String)
    (hall : ∀ x ∈ alts.func_names, h.is_filtered x = true ∨
      attach is_kretprobe x.func_name x.k_func_name = false) :
    ProbeHandler.start_alternatives attach h is_kretprobe alts suffix =
      ("", { h with num_failed_probes_ := h.num_failed_probes_ + 1 },
        (alts.func_names.filter (fun x => !h.is_filtered x)).map
          (attach_event attach is_kretprobe)) := by
  unfold ProbeHandler.start_alternatives
  rw [try_alternatives_all_fail attach is_kretprobe suffix h alts.func_names [] hall]
  simp

theorem start_alternatives_first_success (attach : Bool → String → String → Bool)
    (h : ProbeHandler) (is_kretprobe : Bool) (desc suffix : String)
    (pre : List FuncAndKfunc) (a : FuncAndKfunc) (post : List FuncAndKfunc)
    (hpre : ∀ x ∈ pre, h.is_filtered x = true ∨
      attach is_kretprobe x.func_name x.k_func_name = false)
    (hfa : h.is_filtered a = false)
    (ha : attach is_kretprobe a.func_name a.k_func_name = true) :
    ProbeHandler.start_alternatives attach h is_kretprobe ⟨desc, pre ++ a :: post⟩ suffix =
      (a.k_func_name,
        { h with probe_names_ :=
            h.probe_names_ ++ [ProbeHandler.probe_name is_kretprobe a.k_func_name suffix] },
        (pre.filter (fun x => !h.is_filtered x)).map (attach_event attach is_kretprobe)
          ++ [Event.kernel_attach is_kretprobe a.func_name a.k_func_name true]) := by
  unfold ProbeHandler.start_alternatives
  simp only []
  rw [try_alternatives_first_success attach is_kretprobe suffix h a post hfa ha pre [] hpre]
  simp

/-! ## Properties of the alternatives form -/

/-- C12: the alternatives form of `start_probe` / `start_kretprobe` attempts the candidates in
declared order and stops at the first success.  When the candidates before `a` are filtered out
or fail and `a` is not filtered and attaches, the attempts are those of the unfiltered
candidates before `a`, in order, followed by the attempt of `a`, nothing after `a` being
attempted, and the returned string is the kernel target name of `a`.  When no candidate
attaches, every unfiltered candidate is attempted, in order. -/
theorem alternatives_stop_at_first_success (attach : Bool → String → String → Bool)
    (h : ProbeHandler) (is_kretprobe : Bool) (desc suffix : String) :
    (∀ pre a post,
      (∀ x ∈ pre, h.is_filtered x = true ∨
        attach is_kretprobe x.func_name x.k_func_name = false) →
      h.is_filtered a = false → attach is_kretprobe a.func_name a.k_func_name = true →
      (ProbeHandler.start_alternatives attach h is_kretprobe ⟨desc, pre ++ a :: post⟩
        suffix).1 = a.k_func_name ∧
      (ProbeHandler.start_alternatives attach h is_kretprobe ⟨desc, pre ++ a :: post⟩
        suffix).2.2 =
        (pre.filter (fun x => !h.is_filtered x)).map (attach_event attach is_kretprobe)
          ++ [Event.kernel_attach is_kretprobe a.func_name a.k_func_name true]) ∧
    (∀ alts, (∀ x ∈ alts, h.is_filtered x = true ∨
        attach is_kretprobe x.func_name x.k_func_name = false) →
      (ProbeHandler.start_alternatives attach h is_kretprobe ⟨desc, alts⟩ suffix).2.2 =
        (alts.filter (fun x => !h.is_filtered x)).map (attach_event attach is_kretprobe)) ∧
    (∀ alts, h.start_probe_alternatives attach alts suffix =
        ProbeHandler.start_alternatives attach h false alts suffix ∧
      h.start_kretprobe_alternatives attach alts suffix =
        ProbeHandler.start_alternatives attach h true alts suffix) := by
  refine ⟨?_, ?_, fun _ => ⟨rfl, rfl⟩⟩
  · intro pre a post hpre hfa ha
    rw [start_alternatives_first_success attach h is_kretprobe desc suffix pre a post hpre hfa ha]
    exact ⟨rfl, rfl⟩
  · intro alts hall
    rw [start_alternatives_all_fail attach h is_kretprobe ⟨desc, alts⟩ suffix hall]

/-- Witness for C12: three candidates, the first two fail, the third attaches; the result is the
kernel target name of the third. -/
theorem alternatives_stop_at_first_success_witness :
    (ProbeHandler.fresh.start_probe_alternatives attach_only_third three_candidates "").1 =
      "target_three" ∧
    (ProbeHandler.start_alternatives attach_only_third ProbeHandler.fresh false
      three_candidates "").1 = "target_three" ∧
    (ProbeHandler.start_alternatives attach_only_third ProbeHandler.fresh false
      three_candidates "").2.2 =
      [Event.kernel_attach false "on_one" "target_one" false,
        Event.kernel_attach false "on_two" "target_two" false,
        Event.kernel_attach false "on_three" "target_three" true] :=
  ⟨by decide,
    ((alternatives_stop_at_first_success attach_only_third ProbeHandler.fresh false
      "three candidates" "").1 [⟨"on_one", "target_one"⟩, ⟨"on_two", "target_two"⟩]
      ⟨"on_three", "target_three"⟩ [] (by decide) (by decide) (by decide)).1,
    ((alternatives_stop_at_first_success attach_only_third ProbeHandler.fresh false
      "three candidates" "").1 [⟨"on_one", "target_one"⟩, ⟨"on_two", "target_two"⟩]
      ⟨"on_three", "target_three"⟩ [] (by decide) (by decide) (by decide)).2⟩

/-- C13: when every candidate fails to attach or is filtered out, the alternatives form returns
the empty string and raises `num_failed_probes_` by exactly one for the whole group, however
many candidates were attempted, and tracks nothing new.  Conversely, the candidates naming
kernel targets (no name is empty), an empty result means that no candidate attached. -/
theorem all_alternatives_fail_counts_once (attach : Bool → String → String → Bool)
    (h : ProbeHandler) (is_kretprobe : Bool) (alts : ProbeAlternatives) (suffix : String) :
    ((∀ x ∈ alts.func_names, h.is_filtered x = true ∨
        attach is_kretprobe x.func_name x.k_func_name = false) →
      (ProbeHandler.start_alternatives attach h is_kretprobe alts suffix).1 = "" ∧
      (ProbeHandler.start_alternatives attach h is_kretprobe alts suffix).2.1.num_failed_probes_
        = h.num_failed_probes_ + 1 ∧
      (ProbeHandler.start_alternatives attach h is_kretprobe alts suffix).2.1.probe_names_
        = h.probe_names_ ∧
      ∀ e ∈ (ProbeHandler.start_alternatives attach h is_kretprobe alts suffix).2.2,
        ∃ f k, e = Event.kernel_attach is_kretprobe f k false) ∧
    ((∀ x ∈ alts.func_names, x.k_func_name ≠ "") →
      (ProbeHandler.start_alternatives attach h is_kretprobe alts suffix).1 = "" →
      (∀ x ∈ alts.func_names, h.is_filtered x = true ∨
        attach is_kretprobe x.func_name x.k_func_name = false) ∧
      ∀ f k, Event.kernel_attach is_kretprobe f k true ∉
        (ProbeHandler.start_alternatives attach h is_kretprobe alts suffix).2.2) ∧
    h.start_probe_alternatives attach alts suffix =
      ProbeHandler.start_alternatives attach h false alts suffix ∧
    h.start_kretprobe_alternatives attach alts suffix =
      ProbeHandler.start_alternatives attach h true alts suffix := by
  have hfail : (∀ x ∈ alts.func_names, h.is_filtered x = true ∨
        attach is_kretprobe x.func_name x.k_func_name = false) →
      (ProbeHandler.start_alternatives attach h is_kretprobe alts suffix).1 = "" ∧
      (ProbeHandler.start_alternatives attach h is_kretprobe alts suffix).2.1.num_failed_probes_
        = h.num_failed_probes_ + 1 ∧
      (ProbeHandler.start_alternatives attach h is_kretprobe alts suffix).2.1.probe_names_
        = h.probe_names_ ∧
      ∀ e ∈ (ProbeHandler.start_alternatives attach h is_kretprobe alts suffix).2.2,
        ∃ f k, e = Event.kernel_attach is_kretprobe f k false := by
    intro hall
    rw [start_alternatives_all_fail attach h is_kretprobe alts suffix hall]
    refine ⟨rfl, rfl, rfl, ?_⟩
    intro e he
    simp only [List.mem_map, List.mem_filter] at he
    obtain ⟨x, ⟨hx, hnf⟩, rfl⟩ := he
    have hxf : attach is_kretprobe x.func_name x.k_func_name = false := by
      rcases hall x hx with hf | hf
      · rw [hf] at hnf; cases hnf
      · exact hf
    exact ⟨x.func_name, x.k_func_name, by simp [attach_event, hxf]⟩
  refine ⟨hfail, ?_, rfl, rfl⟩
  intro hnames hempty
  rcases first_success_or_all_fail attach is_kretprobe h alts.func_names with
    hall | ⟨pre, a, post, heq, hpre, hfa, ha⟩
  · refine ⟨hall, ?_⟩
    intro f k hmem
    obtain ⟨f2, k2, he⟩ := (hfail hall).2.2.2 _ hmem
    cases he
  · exfalso
    have halts : alts = ⟨alts.desc, pre ++ a :: post⟩ := by
      cases alts; simp only [] at heq; rw [heq]
    rw [halts, start_alternatives_first_success attach h is_kretprobe alts.desc suffix pre a post
      hpre hfa ha] at hempty
    exact hnames a (by rw [heq]; simp) hempty

/-- Witness for C13: three candidates, none attaches; one failure is counted, not three. -/
theorem all_alternatives_fail_counts_once_witness :
    (ProbeHandler.start_alternatives attach_nothing ProbeHandler.fresh false three_candidates
      "").1 = "" ∧
    (ProbeHandler.start_alternatives attach_nothing ProbeHandler.fresh false three_candidates
      "").2.1.num_failed_probes_ = ProbeHandler.fresh.num_failed_probes_ + 1 ∧
    (ProbeHandler.start_alternatives attach_nothing ProbeHandler.fresh false three_candidates
      "").2.1.probe_names_ = ProbeHandler.fresh.probe_names_ ∧
    (ProbeHandler.start_alternatives attach_nothing ProbeHandler.fresh false three_candidates
      "").2.2.length = 3 ∧
    ((ProbeHandler.start_alternatives attach_only_third ProbeHandler.fresh false
        three_candidates "").1 ≠ "") :=
  ⟨((all_alternatives_fail_counts_once attach_nothing ProbeHandler.fresh false three_candidates
      "").1 (by decide)).1,
    ((all_alternatives_fail_counts_once attach_nothing ProbeHandler.fresh false three_candidates
      "").1 (by decide)).2.1,
    ((all_alternatives_fail_counts_once attach_nothing ProbeHandler.fresh false three_candidates
      "").1 (by decide)).2.2.1,
    by decide,
    fun hempty => absurd
      (((all_alternatives_fail_counts_once attach_only_third ProbeHandler.fresh false
        three_candidates "").2.1 (by decide) hempty).1 ⟨"on_three", "target_three"⟩ (by decide))
      (by decide)⟩

theorem start_alternatives_attempts_unfiltered (attach : Bool → String → String → Bool)
    (h : ProbeHandler) (is_kretprobe : Bool) (alts : ProbeAlternatives) (suffix : String) :
    ∀ e ∈ (ProbeHandler.start_alternatives attach h is_kretprobe alts suffix).2.2,
      ∃ x ∈ alts.func_names, h.is_filtered x = false ∧ e = attach_event attach is_kretprobe x := by
  rcases first_success_or_all_fail attach is_kretprobe h alts.func_names with
    hall | ⟨pre, a, post, heq, hpre, hfa, ha⟩
  · rw [start_alternatives_all_fail attach h is_kretprobe alts suffix hall]
    intro e he
    simp only [List.mem_map, List.mem_filter] at he
    obtain ⟨x, ⟨hx, hnf⟩, rfl⟩ := he
    exact ⟨x, hx, by simpa using hnf, rfl⟩
  · have halts : alts = ⟨alts.desc, pre ++ a :: post⟩ := by
      cases alts; simp only [] at heq; rw [heq]
    rw [halts, start_alternatives_first_success attach h is_kretprobe alts.desc suffix pre a post
      hpre hfa ha]
    intro e he
    simp only [List.mem_append, List.mem_map, List.mem_filter, List.mem_singleton] at he
    rcases he with ⟨x, ⟨hx, hnf⟩, rfl⟩ | rfl
    · exact ⟨x, by simp [hx], by simpa using hnf, rfl⟩
    · exact ⟨a, by simp, hfa, by simp [attach_event, ha]⟩

theorem attach_attempts_map (attach : Bool → String → String → Bool) (is_kretprobe : Bool)
    (l : List FuncAndKfunc) :
    attach_attempts (l.map (attach_event attach is_kretprobe)) =
      l.map (fun x => x.k_func_name) := by
  induction l with
  | nil => rfl
  | cons x l ih =>
    simp only [attach_attempts] at ih
    simp [attach_attempts, attach_event, ih]

theorem filter_unfiltered_of_no_snapshot (h : ProbeHandler) (hnone : h.kernel_symbols_ = none)
    (l : List FuncAndKfunc) : l.filter (fun x => !h.is_filtered x) = l := by
  rw [List.filter_eq_self]
  intro x _
  simp [ProbeHandler.is_filtered, hnone]

/-- C14: with a kernel symbol snapshot loaded, the alternatives form never attempts a candidate
whose kernel target name is absent from the snapshot, and when no candidate's name appears in
the snapshot it makes no attempt at all, returns the empty string and raises
`num_failed_probes_` by exactly one.  With no snapshot loaded, as before `load_kernel_symbols`
and after `clear_kernel_symbols`, no candidate is filtered: every candidate is attempted, in
order, up to the first that attaches. -/
theorem snapshot_filters_candidates (attach : Bool → String → String → Bool)
    (h : ProbeHandler) (is_kretprobe : Bool) (alts : ProbeAlternatives) (suffix : String) :
    (∀ symbols, h.kernel_symbols_ = some symbols →
      ∀ k ∈ attach_attempts
        (ProbeHandler.start_alternatives attach h is_kretprobe alts suffix).2.2, k ∈ symbols) ∧
    (∀ symbols, h.kernel_symbols_ = some symbols →
      (∀ x ∈ alts.func_names, x.k_func_name ∉ symbols) →
      (ProbeHandler.start_alternatives attach h is_kretprobe alts suffix).2.2 = [] ∧
      (ProbeHandler.start_alternatives attach h is_kretprobe alts suffix).2.1.num_failed_probes_
        = h.num_failed_probes_ + 1 ∧
      (ProbeHandler.start_alternatives attach h is_kretprobe alts suffix).1 = "") ∧
    (h.kernel_symbols_ = none →
      (∀ x, h.is_filtered x = false) ∧
      ((∀ x ∈ alts.func_names, attach is_kretprobe x.func_name x.k_func_name = false) →
        attach_attempts (ProbeHandler.start_alternatives attach h is_kretprobe alts suffix).2.2
          = alts.func_names.map (fun x => x.k_func_name)) ∧
      (∀ pre a post, alts.func_names = pre ++ a :: post →
        (∀ x ∈ pre, attach is_kretprobe x.func_name x.k_func_name = false) →
        attach is_kretprobe a.func_name a.k_func_name = true →
        attach_attempts (ProbeHandler.start_alternatives attach h is_kretprobe alts suffix).2.2
          = (pre ++ [a]).map (fun x => x.k_func_name))) ∧
    (∀ symbols, (h.load_kernel_symbols symbols).kernel_symbols_ = some symbols) ∧
    h.clear_kernel_symbols.kernel_symbols_ = none ∧
    ProbeHandler.fresh.kernel_symbols_ = none := by
  refine ⟨?_, ?_, ?_, fun _ => rfl, rfl, rfl⟩
  · intro symbols hsym k hk
    simp only [attach_attempts, List.mem_filterMap] at hk
    obtain ⟨e, he, hek⟩ := hk
    obtain ⟨x, _, hxf, rfl⟩ :=
      start_alternatives_attempts_unfiltered attach h is_kretprobe alts suffix e he
    simp only [attach_event, Option.some.injEq] at hek
    subst hek
    simpa [ProbeHandler.is_filtered, hsym] using hxf
  · intro symbols hsym hnone
    have hall : ∀ x ∈ alts.func_names, h.is_filtered x = true ∨
        attach is_kretprobe x.func_name x.k_func_name = false := by
      intro x hx
      left
      simpa [ProbeHandler.is_filtered, hsym] using hnone x hx
    rw [start_alternatives_all_fail attach h is_kretprobe alts suffix hall]
    refine ⟨?_, rfl, rfl⟩
    simp only [List.map_eq_nil_iff, List.filter_eq_nil_iff]
    intro x hx
    have : h.is_filtered x = true := by
      simpa [ProbeHandler.is_filtered, hsym] using hnone x hx
    simp [this]
  · intro hnone
    refine ⟨fun x => by simp [ProbeHandler.is_filtered, hnone], ?_, ?_⟩
    · intro hall
      rw [start_alternatives_all_fail attach h is_kretprobe alts suffix
        (fun x hx => Or.inr (hall x hx))]
      simp only []
      rw [filter_unfiltered_of_no_snapshot h hnone, attach_attempts_map]
    · intro pre a post heq hpre ha
      have halts : alts = ⟨alts.desc, pre ++ a :: post⟩ := by
        cases alts; simp only [] at heq; rw [heq]
      rw [halts, start_alternatives_first_success attach h is_kretprobe alts.desc suffix pre a
        post (fun x hx => Or.inr (hpre x hx)) (by simp [ProbeHandler.is_filtered, hnone]) ha]
      simp only []
      rw [filter_unfiltered_of_no_snapshot h hnone]
      have h1 : pre.map (attach_event attach is_kretprobe)
          ++ [Event.kernel_attach is_kretprobe a.func_name a.k_func_name true]
          = (pre ++ [a]).map (attach_event attach is_kretprobe) := by
        simp [attach_event, ha]
      rw [h1, attach_attempts_map]

/-- Witness for C14: only `target_two` is in the snapshot, so of the three candidates only the
second is attempted; after `clear_kernel_symbols` all three are attempted. -/
theorem snapshot_filters_candidates_witness :
    attach_attempts (ProbeHandler.start_alternatives attach_nothing handler_with_snapshot false
      three_candidates "").2.2 = ["target_two"] ∧
    (∀ k ∈ attach_attempts (ProbeHandler.start_alternatives attach_nothing
      handler_with_snapshot false three_candidates "").2.2, k ∈ ["target_two"]) ∧
    attach_attempts (ProbeHandler.start_alternatives attach_nothing
      handler_with_snapshot.clear_kernel_symbols false three_candidates "").2.2 =
      three_candidates.func_names.map (fun x => x.k_func_name) :=
  ⟨by decide,
    (snapshot_filters_candidates attach_nothing handler_with_snapshot false three_candidates
      "").1 ["target_two"] rfl,
    ((snapshot_filters_candidates attach_nothing handler_with_snapshot.clear_kernel_symbols false
      three_candidates "").2.2.1 rfl).2.1 (by decide)⟩

/-- C15: when the alternatives form succeeds on a candidate after earlier candidates failed to
attach, `num_failed_probes_` is not raised at all, although every earlier unfiltered candidate
was attempted and failed; the public single-target entry points, by contrast, raise the counter
by one on a failed attach. -/
theorem later_success_leaves_failure_counter (attach : Bool → String → String → Bool)
    (h : ProbeHandler) (is_kretprobe : Bool) (desc suffix : String)
    (pre : List FuncAndKfunc) (a : FuncAndKfunc) (post : List FuncAndKfunc)
    (hpre : ∀ x ∈ pre, h.is_filtered x = true ∨
      attach is_kretprobe x.func_name x.k_func_name = false)
    (hfa : h.is_filtered a = false)
    (ha : attach is_kretprobe a.func_name a.k_func_name = true) :
    (ProbeHandler.start_alternatives attach h is_kretprobe ⟨desc, pre ++ a :: post⟩
      suffix).2.1.num_failed_probes_ = h.num_failed_probes_ ∧
    (ProbeHandler.start_alternatives attach h is_kretprobe ⟨desc, pre ++ a :: post⟩
      suffix).1 = a.k_func_name ∧
    (∀ x ∈ pre, h.is_filtered x = false →
      Event.kernel_attach is_kretprobe x.func_name x.k_func_name false ∈
        (ProbeHandler.start_alternatives attach h is_kretprobe ⟨desc, pre ++ a :: post⟩
          suffix).2.2) ∧
    (∀ x : FuncAndKfunc, attach is_kretprobe x.func_name x.k_func_name = false →
      (ProbeHandler.start_single attach h is_kretprobe x.func_name x.k_func_name
        suffix).2.1.num_failed_probes_ = h.num_failed_probes_ + 1 ∧
      (ProbeHandler.start_single attach h is_kretprobe x.func_name x.k_func_name
        suffix).1 < 0) ∧
    (∀ f k, h.start_probe attach f k suffix = ProbeHandler.start_single attach h false f k suffix
      ∧ h.start_kretprobe attach f k suffix =
        ProbeHandler.start_single attach h true f k suffix) ∧
    (∀ alts, h.start_probe_alternatives attach alts suffix =
        ProbeHandler.start_alternatives attach h false alts suffix ∧
      h.start_kretprobe_alternatives attach alts suffix =
        ProbeHandler.start_alternatives attach h true alts suffix) := by
  rw [start_alternatives_first_success attach h is_kretprobe desc suffix pre a post hpre hfa ha]
  refine ⟨rfl, rfl, ?_, ?_, fun _ _ => ⟨rfl, rfl⟩, fun _ => ⟨rfl, rfl⟩⟩
  · intro x hx hxf
    have hxa : attach is_kretprobe x.func_name x.k_func_name = false :=
      (hpre x hx).resolve_left (by simp [hxf])
    simp only [List.mem_append, List.mem_map, List.mem_filter, List.mem_singleton]
    exact Or.inl ⟨x, ⟨hx, by simp [hxf]⟩, by simp [attach_event, hxa]⟩
  · intro x hxa
    simp [ProbeHandler.start_single, ProbeHandler.start_probe_common, hxa]

/-- Witness for C15: three candidates, the first two fail, the third attaches; the failure
counter stays at its value. -/
theorem later_success_leaves_failure_counter_witness :
    (ProbeHandler.start_alternatives attach_only_third ProbeHandler.fresh false
      three_candidates "").2.1.num_failed_probes_ = 0 ∧
    (ProbeHandler.start_alternatives attach_only_third ProbeHandler.fresh false
      three_candidates "").1 = "target_three" ∧
    (ProbeHandler.fresh.start_probe attach_only_third "on_one" "target_one"
      "").2.1.num_failed_probes_ = 1 :=
  ⟨(later_success_leaves_failure_counter attach_only_third ProbeHandler.fresh false
      "three candidates" "" [⟨"on_one", "target_one"⟩, ⟨"on_two", "target_two"⟩]
      ⟨"on_three", "target_three"⟩ [] (by decide) (by decide) (by decide)).1,
    (later_success_leaves_failure_counter attach_only_third ProbeHandler.fresh false
      "three candidates" "" [⟨"on_one", "target_one"⟩, ⟨"on_two", "target_two"⟩]
      ⟨"on_three", "target_three"⟩ [] (by decide) (by decide) (by decide)).2.1,
    by decide⟩

/-! ## Detachment -/

theorem cleanup_probe_common_eq (h : ProbeHandler) (probe_name : String) :
    (h.cleanup_probe_common probe_name).1 =
      { h with probe_names_ := h.probe_names_.filter (fun n => n ≠ probe_name) } ∧
    (probe_name ∉ h.probe_names_ → h.cleanup_probe_common probe_name = (h, [])) := by
  unfold ProbeHandler.cleanup_probe_common
  split_ifs with hmem
  · exact ⟨rfl, fun hn => absurd hmem hn⟩
  · have : h.probe_names_.filter (fun n => n ≠ probe_name) = h.probe_names_ := by
      rw [List.filter_eq_self]
      intro n hn
      simp only [ne_eq, decide_eq_true_eq]
      rintro rfl
      exact hmem hn
    exact ⟨by rw [this], fun _ => rfl⟩

theorem cleanup_probe_common_twice (h : ProbeHandler) (probe_name : String) :
    (h.cleanup_probe_common probe_name).1.cleanup_probe_common probe_name =
      ((h.cleanup_probe_common probe_name).1, []) := by
  apply (cleanup_probe_common_eq _ probe_name).2
  rw [(cleanup_probe_common_eq h probe_name).1]
  simp

theorem start_alternatives_names (attach : Bool → String → String → Bool)
    (h : ProbeHandler) (is_kretprobe : Bool) (alts : ProbeAlternatives) (suffix : String) :
    ∀ n ∈ (ProbeHandler.start_alternatives attach h is_kretprobe alts suffix).2.1.probe_names_,
      n ∈ h.probe_names_ ∨
      ∃ a ∈ alts.func_names, n = ProbeHandler.probe_name is_kretprobe a.k_func_name suffix := by
  rcases first_success_or_all_fail attach is_kretprobe h alts.func_names with
    hall | ⟨pre, a, post, heq, hpre, hfa, ha⟩
  · rw [start_alternatives_all_fail attach h is_kretprobe alts suffix hall]
    intro n hn
    exact Or.inl hn
  · have halts : alts = ⟨alts.desc, pre ++ a :: post⟩ := by
      cases alts; simp only [] at heq; rw [heq]
    rw [halts, start_alternatives_first_success attach h is_kretprobe alts.desc suffix pre a post
      hpre hfa ha]
    intro n hn
    simp only [List.mem_append, List.mem_singleton] at hn
    rcases hn with hn | rfl
    · exact Or.inl hn
    · exact Or.inr ⟨a, by simp, rfl⟩

theorem start_single_names (attach : Bool → String → String → Bool) (h : ProbeHandler)
    (is_kretprobe : Bool) (func_name k_func_name suffix : String) :
    ∀ n ∈ (ProbeHandler.start_single attach h is_kretprobe func_name k_func_name
        suffix).2.1.probe_names_,
      n ∈ h.probe_names_ ∨
      (attach is_kretprobe func_name k_func_name = true ∧
        n = ProbeHandler.probe_name is_kretprobe k_func_name suffix) := by
  intro n hn
  cases ha : attach is_kretprobe func_name k_func_name with
  | false =>
    simp [ProbeHandler.start_single, ProbeHandler.start_probe_common, ha] at hn
    exact Or.inl hn
  | true =>
    simp [ProbeHandler.start_single, ProbeHandler.start_probe_common, ha] at hn
    rcases hn with hn | rfl
    · exact Or.inl hn
    · exact Or.inr ⟨rfl, rfl⟩

/-- When the kernel refuses the probe on `cgroup_clone_children_read` and that attachment was
not tracked before, it is not tracked after the attach phase of the constructor. -/
theorem ctor_attach_clone_children_untracked (env : Env) (ph : ProbeHandler)
    (hfail : env.attach false "on_cgroup_clone_children_read" "cgroup_clone_children_read"
      = false)
    (hnew : "ebpf_net_p_cgroup_clone_children_read" ∉ ph.probe_names_) :
    "ebpf_net_p_cgroup_clone_children_read" ∉
      (CgroupProber.ctor_attach env ph).1.probe_names_ := by
  intro hmem
  simp only [CgroupProber.ctor_attach, ProbeHandler.start_probe,
    ProbeHandler.start_probe_alternatives] at hmem
  rcases start_single_names _ _ _ _ _ _ _ hmem with h4 | ⟨_, h4⟩
  · rcases start_single_names _ _ _ _ _ _ _ h4 with h3 | ⟨h3, _⟩
    · rcases start_alternatives_names _ _ _ _ _ _ h3 with h2 | ⟨a, ha, h2⟩
      · rcases start_alternatives_names _ _ _ _ _ _ h2 with h1 | ⟨a, ha, h1⟩
        · exact hnew h1
        · simp only [kill_kss_probe_alternatives, List.mem_cons, List.mem_singleton,
            List.mem_nil_iff, or_false] at ha
          rcases ha with rfl | rfl | rfl <;> revert h1 <;> decide
      · simp only [css_populate_dir_probe_alternatives, List.mem_cons, List.mem_singleton,
          List.mem_nil_iff, or_false] at ha
        rcases ha with rfl | rfl <;> revert h2 <;> decide
    · rw [hfail] at h3; cases h3
  · revert h4; decide

/-- C16: `cleanup_probe` and `cleanup_kretprobe` are safe on unknown names and idempotent.  On a
name that is not tracked they change nothing and ask nothing of the kernel; called a second time
in a row they change nothing; they never touch `num_failed_probes_` or the snapshot; and every
attachment tracked under another name stays tracked, nothing else becoming tracked.  In
particular the call the `CgroupProber` constructor makes for `cgroup_clone_children_read` is such
a no-op when that attachment failed.  The operations always return: no outcome of theirs is an
error. -/
theorem cleanup_probe_idempotent (h : ProbeHandler) (k_func_name : String) :
    (ProbeHandler.probe_prefix_ ++ k_func_name ∉ h.probe_names_ →
      h.cleanup_probe k_func_name = (h, [])) ∧
    (ProbeHandler.kretprobe_prefix_ ++ k_func_name ∉ h.probe_names_ →
      h.cleanup_kretprobe k_func_name = (h, [])) ∧
    (h.cleanup_probe k_func_name).1.cleanup_probe k_func_name =
      ((h.cleanup_probe k_func_name).1, []) ∧
    (h.cleanup_kretprobe k_func_name).1.cleanup_kretprobe k_func_name =
      ((h.cleanup_kretprobe k_func_name).1, []) ∧
    (h.cleanup_probe k_func_name).1.num_failed_probes_ = h.num_failed_probes_ ∧
    (h.cleanup_kretprobe k_func_name).1.num_failed_probes_ = h.num_failed_probes_ ∧
    (h.cleanup_probe k_func_name).1.kernel_symbols_ = h.kernel_symbols_ ∧
    (h.cleanup_kretprobe k_func_name).1.kernel_symbols_ = h.kernel_symbols_ ∧
    (h.cleanup_probe k_func_name).1.probe_names_ =
      h.probe_names_.filter (fun n => n ≠ ProbeHandler.probe_prefix_ ++ k_func_name) ∧
    (h.cleanup_kretprobe k_func_name).1.probe_names_ =
      h.probe_names_.filter (fun n => n ≠ ProbeHandler.kretprobe_prefix_ ++ k_func_name) ∧
    (∀ n, n ≠ ProbeHandler.probe_prefix_ ++ k_func_name →
      (n ∈ (h.cleanup_probe k_func_name).1.probe_names_ ↔ n ∈ h.probe_names_)) ∧
    (∀ n, n ≠ ProbeHandler.kretprobe_prefix_ ++ k_func_name →
      (n ∈ (h.cleanup_kretprobe k_func_name).1.probe_names_ ↔ n ∈ h.probe_names_)) ∧
    (∀ (env : Env) (ph : ProbeHandler),
      env.attach false "on_cgroup_clone_children_read" "cgroup_clone_children_read" = false →
      "ebpf_net_p_cgroup_clone_children_read" ∉ ph.probe_names_ →
      (CgroupProber.ctor_attach env ph).1.cleanup_probe "cgroup_clone_children_read" =
        ((CgroupProber.ctor_attach env ph).1, [])) := by
  have e1 := cleanup_probe_common_eq h (ProbeHandler.probe_prefix_ ++ k_func_name)
  have e2 := cleanup_probe_common_eq h (ProbeHandler.kretprobe_prefix_ ++ k_func_name)
  refine ⟨e1.2, e2.2, cleanup_probe_common_twice h _, cleanup_probe_common_twice h _,
    ?_, ?_, ?_, ?_, ?_, ?_, ?_, ?_, ?_⟩
  · show (h.cleanup_probe_common _).1.num_failed_probes_ = _
    rw [e1.1]
  · show (h.cleanup_probe_common _).1.num_failed_probes_ = _
    rw [e2.1]
  · show (h.cleanup_probe_common _).1.kernel_symbols_ = _
    rw [e1.1]
  · show (h.cleanup_probe_common _).1.kernel_symbols_ = _
    rw [e2.1]
  · show (h.cleanup_probe_common _).1.probe_names_ = _
    rw [e1.1]
  · show (h.cleanup_probe_common _).1.probe_names_ = _
    rw [e2.1]
  · intro n hn
    show n ∈ (h.cleanup_probe_common _).1.probe_names_ ↔ _
    rw [e1.1]
    simp [hn]
  · intro n hn
    show n ∈ (h.cleanup_probe_common _).1.probe_names_ ↔ _
    rw [e2.1]
    simp [hn]
  · intro env ph hfail hnew
    exact (cleanup_probe_common_eq (CgroupProber.ctor_attach env ph).1 _).2
      (ctor_attach_clone_children_untracked env ph hfail hnew)

/-- Witness for C16: in the environment in which nothing attaches, the cleanup the constructor
asks for does nothing, and a handler that never attached the name is left as it is. -/
theorem cleanup_probe_idempotent_witness :
    ProbeHandler.fresh.cleanup_probe "cgroup_clone_children_read" = (ProbeHandler.fresh, []) ∧
    ProbeHandler.fresh.cleanup_kretprobe "cgroup_clone_children_read" =
      (ProbeHandler.fresh, []) ∧
    (CgroupProber.ctor_attach env_bare ProbeHandler.fresh).1.cleanup_probe
        "cgroup_clone_children_read" =
      ((CgroupProber.ctor_attach env_bare ProbeHandler.fresh).1, []) ∧
    detached (CgroupProber.ctor env_bare ProbeHandler.fresh 0).trace = [] ∧
    (CgroupProber.ctor env_bare ProbeHandler.fresh 0).probe_handler.num_failed_probes_ = 4 :=
  ⟨(cleanup_probe_idempotent ProbeHandler.fresh "cgroup_clone_children_read").1 (by decide),
    (cleanup_probe_idempotent ProbeHandler.fresh "cgroup_clone_children_read").2.1 (by decide),
    (cleanup_probe_idempotent ProbeHandler.fresh "cgroup_clone_children_read").2.2.2.2.2.2.2.2.2.2.2.2
      env_bare ProbeHandler.fresh rfl (by decide),
    by decide, by decide⟩

/-! ## Order of the traversal -/

theorem pushed_readdir_events (p : String) (ents : List dirent) :
    pushed (readdir_events p ents) = pushed_paths p ents := by
  induction ents with
  | nil => rfl
  | cons e rest ih =>
    simp only [pushed, pushed_paths] at ih
    simp only [readdir_events, pushed, pushed_paths]
    by_cases h1 : e.d_type = DT_DIR
    · by_cases h2 : e.d_name = "." ∨ e.d_name = ".."
      · have hp : is_pushed e = false := by
          rcases h2 with h2 | h2 <;> simp [is_pushed, h2]
        simp [h1, h2, hp, ih]
      · have hp : is_pushed e = true := by
          simp only [not_or] at h2
          simp [is_pushed, h1, h2.1, h2.2]
        simp [h1, h2, hp, ih]
    · have hp : is_pushed e = false := by simp [is_pushed, h1]
      simp [h1, hp, ih]

theorem pushed_body_events_ok (fs : FileSystem) (clock : Nat) (p : String) (ents : List dirent)
    (hopen : fs.opendir clock p = some ents)
    (htrig : fs.ifstream_fail clock (p ++ "/cgroup.clone_children") = false) :
    pushed (body_events fs clock p) = pushed_paths p ents := by
  have h := pushed_readdir_events p ents
  simp only [pushed] at h
  simp [body_events, hopen, htrig, pushed, h]

/-- C17: the traversal is depth-first with stack semantics.  A pass that scans a directory
pushes its subdirectories together, in enumeration order, so that the one enumerated last is on
top of the stack; on a hierarchy that opens everywhere the sequence of popped paths is the root
followed by `visit_order`, the walk in which a directory comes before what is below it and the
whole subtree of a later-enumerated subdirectory comes before any earlier-enumerated one; and
two traversals of the same hierarchy pop the same sequence. -/
theorem traversal_is_depth_first (fs fs2 : FileSystem) (root : String) (h : Hierarchy)
    (this this2 : CgroupProber) (fuel fuel2 : Nat) (hwf : h.wf = true)
    (hfs : fs.has_hierarchy root h) (htrig : fs.triggers_open root h)
    (hfs2 : fs2.has_hierarchy root h) (htrig2 : fs2.triggers_open root h)
    (hfuel : h.size + 1 ≤ fuel) (hfuel2 : h.size + 1 ≤ fuel2) :
    (∃ st st2, CgroupProber.trigger_cgroup_clone_children_read fs fuel this root = some st ∧
      CgroupProber.trigger_cgroup_clone_children_read fs2 fuel2 this2 root = some st2 ∧
      popped st.trace = root :: h.visit_order root ∧
      popped st2.trace = popped st.trace) ∧
    (∀ dir_name below count trace ents,
      fs.opendir trace.length dir_name = some ents →
      fs.ifstream_fail trace.length (dir_name ++ "/cgroup.clone_children") = false →
      (loop_body fs ⟨dir_name :: below, count, trace⟩).dirs_stack =
        (pushed_paths dir_name ents).reverse ++ below ∧
      pushed (loop_body fs ⟨dir_name :: below, count, trace⟩).trace =
        pushed trace ++ pushed_paths dir_name ents) ∧
    (∀ path, Hierarchy.nil.visit_order path = []) ∧
    (∀ ent rest path, (Hierarchy.other ent rest).visit_order path = rest.visit_order path) ∧
    (∀ d_name content rest path,
      (Hierarchy.subdir d_name content rest).visit_order path =
        rest.visit_order path
          ++ (path ++ "/" ++ d_name) :: content.visit_order (path ++ "/" ++ d_name)) := by
  refine ⟨?_, ?_, fun _ => rfl, fun _ _ _ => rfl, ?_⟩
  · obtain ⟨st, hrun, p1, _⟩ := trigger_on_hierarchy fs root h this fuel hwf hfs htrig hfuel
    obtain ⟨st2, hrun2, q1, _⟩ :=
      trigger_on_hierarchy fs2 root h this2 fuel2 hwf hfs2 htrig2 hfuel2
    have e1 : popped st.trace = root :: h.visit_order root := by
      rw [p1]; simp [popped, Hierarchy.visit_order]
    have e2 : popped st2.trace = root :: h.visit_order root := by
      rw [q1]; simp [popped, Hierarchy.visit_order]
    exact ⟨st, st2, hrun, hrun2, e1, by rw [e1, e2]⟩
  · intro dir_name below count trace ents hopen hok
    rw [loop_body_eq]
    have hpush : body_pushes fs trace.length dir_name = pushed_paths dir_name ents := by
      simp [body_pushes, hopen, hok]
    refine ⟨by simp only [hpush], ?_⟩
    simp only []
    rw [← pushed_body_events_ok fs trace.length dir_name ents hopen hok]
    simp [pushed]
  · intro d_name content rest path
    simp [Hierarchy.visit_order, Hierarchy.visit_dirs]

/-- Witness for C17: `/m` holds `a` (with child `c`) enumerated before `b`; `b` is popped before
`a`, and `a` before `c`. -/
theorem traversal_is_depth_first_witness :
    (Hierarchy.visit_order two_siblings "/m" = ["/m/b", "/m/a", "/m/a/c"]) ∧
    ∃ st st2,
      CgroupProber.trigger_cgroup_clone_children_read (fs_of "/m" two_siblings) 4 ⟨0⟩ "/m"
        = some st ∧
      CgroupProber.trigger_cgroup_clone_children_read (fs_of "/m" two_siblings) 9 ⟨7⟩ "/m"
        = some st2 ∧
      popped st.trace = "/m" :: Hierarchy.visit_order two_siblings "/m" ∧
      popped st2.trace = popped st.trace :=
  ⟨by decide,
    (traversal_is_depth_first (fs_of "/m" two_siblings) (fs_of "/m" two_siblings) "/m"
      two_siblings ⟨0⟩ ⟨7⟩ 4 9 (by decide)
      (fun _ => (by decide : ∀ d ∈ two_siblings.all_dirs "/m",
        (two_siblings.all_dirs "/m").lookup d.1 = some d.2))
      (fun _ _ _ => rfl)
      (fun _ => (by decide : ∀ d ∈ two_siblings.all_dirs "/m",
        (two_siblings.all_dirs "/m").lookup d.1 = some d.2))
      (fun _ _ _ => rfl) (by decide) (by decide)).1⟩

theorem dirs_opened_body_events (fs : FileSystem) (clock : Nat) (p : String) :
    dirs_opened (body_events fs clock p) = (if (fs.opendir clock p).isSome then [p] else []) ∧
    dirs_closed (body_events fs clock p) = (if (fs.opendir clock p).isSome then [p] else []) := by
  have hc := opened_closed_body_events fs clock p
  rw [hc]
  refine ⟨?_, ?_⟩ <;>
  · have h := dirs_opened_readdir_events p
    simp only [dirs_opened] at h
    unfold body_events dirs_opened
    cases fs.opendir clock p with
    | none => simp
    | some ents =>
      simp only [Option.isSome_some, if_true]
      split_ifs <;> simp [h]

/-- C18: a pass that pops a path whose `opendir` fails skips it silently: its calls are the
liveness callback, the pop and the failed `opendir`, so no trigger file is opened, nothing is
pushed and `closedir` is not called; `close_dir_error_count_` is unchanged; and the loop goes on
with the paths that were below on the stack.  In no run is a path that never opens opened or
closed. -/
theorem opendir_failure_skips_path (fs : FileSystem) (dir_name : String)
    (below : List String) (count : Nat) (trace : List Event)
    (hfail : fs.opendir trace.length dir_name = none) :
    loop_body fs ⟨dir_name :: below, count, trace⟩ =
      ⟨below, count,
        trace ++ [Event.periodic_cb, Event.pop dir_name, Event.opendir dir_name false]⟩ ∧
    (∀ fuel, while_loop fs (fuel + 1) ⟨dir_name :: below, count, trace⟩ =
      while_loop fs fuel ⟨below, count,
        trace ++ [Event.periodic_cb, Event.pop dir_name, Event.opendir dir_name false]⟩) ∧
    ((∀ clock, fs.opendir clock dir_name = none) →
      ∀ (fuel : Nat) (this : CgroupProber) (root : String),
        dir_name ∉ dirs_opened (CgroupProber.traversal_after fs fuel this root).trace ∧
        dir_name ∉ dirs_closed (CgroupProber.traversal_after fs fuel this root).trace) := by
  have hbody : loop_body fs ⟨dir_name :: below, count, trace⟩ =
      ⟨below, count,
        trace ++ [Event.periodic_cb, Event.pop dir_name, Event.opendir dir_name false]⟩ := by
    rw [loop_body_eq]
    simp [body_pushes, body_close_errors, body_events, hfail]
  refine ⟨hbody, ?_, ?_⟩
  · intro fuel
    simp only [while_loop, hbody]
  · intro hnever fuel this root
    apply while_loop_induct fs (fun s => dir_name ∉ dirs_opened s.trace ∧
      dir_name ∉ dirs_closed s.trace)
    · rintro q below2 count2 trace2 ⟨i1, i2⟩
      simp only [] at i1 i2 ⊢
      have ho : dirs_opened (trace2 ++ body_events fs trace2.length q) =
          dirs_opened trace2 ++ dirs_opened (body_events fs trace2.length q) := by
        simp [dirs_opened]
      have hc : dirs_closed (trace2 ++ body_events fs trace2.length q) =
          dirs_closed trace2 ++ dirs_closed (body_events fs trace2.length q) := by
        simp [dirs_closed]
      obtain ⟨b1, b2⟩ := dirs_opened_body_events fs trace2.length q
      rw [ho, hc, b1, b2]
      by_cases hq : q = dir_name
      · subst hq
        simp [hnever trace2.length, i1, i2]
      · have hne : dir_name ≠ q := fun h => hq h.symm
        constructor
        · simp only [List.mem_append, not_or]
          refine ⟨i1, ?_⟩
          split_ifs <;> simp [hne]
        · simp only [List.mem_append, not_or]
          refine ⟨i2, ?_⟩
          split_ifs <;> simp [hne]
    · simp [TraversalState.emplace, dirs_opened, dirs_closed]

/-- Witness for C18: `/m/b` is listed by `/m` but no longer opens; the pass that pops it makes
three calls and leaves `/m/a` on the stack, which is visited next. -/
theorem opendir_failure_skips_path_witness :
    loop_body fs_removed_dir ⟨["/m/b", "/m/a"], 0, []⟩ =
      ⟨["/m/a"], 0, [Event.periodic_cb, Event.pop "/m/b", Event.opendir "/m/b" false]⟩ ∧
    (CgroupProber.trigger_cgroup_clone_children_read fs_removed_dir 3 ⟨0⟩ "/m").map
      (fun st => (popped st.trace, dirs_closed st.trace, st.close_dir_error_count_)) =
      some (["/m", "/m/b", "/m/a"], ["/m", "/m/a"], 0) :=
  ⟨(opendir_failure_skips_path fs_removed_dir "/m/b" ["/m/a"] 0 [] rfl).1, by decide⟩

/-! ## The constructor does not depend on the attachments -/

theorem program_calls_append (t1 t2 : List Event) :
    program_calls (t1 ++ t2) = program_calls t1 ++ program_calls t2 := by
  simp [program_calls]

theorem program_calls_of_kernel (l : List Event) (hl : ∀ e ∈ l, is_kernel_call e = true) :
    program_calls l = [] := by
  unfold program_calls
  rw [List.filter_eq_nil_iff]
  intro e he
  simp [hl e he]

theorem start_alternatives_kernel_calls (attach : Bool → String → String → Bool)
    (h : ProbeHandler) (is_kretprobe : Bool) (alts : ProbeAlternatives) (suffix : String) :
    program_calls (ProbeHandler.start_alternatives attach h is_kretprobe alts suffix).2.2 = [] := by
  apply program_calls_of_kernel
  intro e he
  obtain ⟨x, _, _, rfl⟩ :=
    start_alternatives_attempts_unfiltered attach h is_kretprobe alts suffix e he
  rfl

theorem start_single_kernel_calls (attach : Bool → String → String → Bool) (h : ProbeHandler)
    (is_kretprobe : Bool) (func_name k_func_name suffix : String) :
    program_calls (ProbeHandler.start_single attach h is_kretprobe func_name k_func_name
      suffix).2.2 = [] := by
  apply program_calls_of_kernel
  intro e he
  cases ha : attach is_kretprobe func_name k_func_name <;>
    simp [ProbeHandler.start_single, ProbeHandler.start_probe_common, ha] at he <;>
    subst he <;> rfl

/-- The calls the attach phase itself makes do not depend on what attaches. -/
theorem ctor_attach_program_calls (env : Env) (ph : ProbeHandler) :
    program_calls (CgroupProber.ctor_attach env ph).2 =
      [Event.call_start_probe_alternatives kill_kss_probe_alternatives, Event.periodic_cb,
        Event.call_start_probe_alternatives css_populate_dir_probe_alternatives,
        Event.periodic_cb,
        Event.call_start_probe "on_cgroup_clone_children_read" "cgroup_clone_children_read",
        Event.call_start_probe "on_cgroup_attach_task" "cgroup_attach_task",
        Event.periodic_cb] := by
  simp only [CgroupProber.ctor_attach, ProbeHandler.start_probe,
    ProbeHandler.start_probe_alternatives, program_calls_append,
    start_alternatives_kernel_calls, start_single_kernel_calls]
  rfl

theorem ctor_cleanup_program_calls (env : Env) (ph : ProbeHandler) (count : Nat)
    (trace : List Event) :
    program_calls (CgroupProber.ctor_cleanup env ph count trace).trace =
      program_calls trace ++ [Event.call_cleanup_probe "cgroup_clone_children_read",
        Event.periodic_cb, Event.check_cb "cgroup prober cleanup()"] := by
  obtain ⟨ct, _, _, _⟩ := ctor_cleanup_trace env ph count trace
  rw [ct]
  have hC : program_calls (ph.cleanup_probe "cgroup_clone_children_read").2 = [] := by
    rcases cleanup_probe_calls_detach ph "cgroup_clone_children_read" with hC | hC <;>
      rw [hC] <;> rfl
  simp only [program_calls_append, hC, List.append_nil, List.append_assoc]
  rfl

/-- What a run of the constructor does apart from the attach phase is determined by the file
system, the checkpoint callback and the fuel alone. -/
theorem ctor_outside_attach (fs : FileSystem) (throws : String → Bool) (fuel : Nat) :
    ∃ (rest : List Event) (status : Status) (count : Nat),
      ∀ (attach : Bool → String → String → Bool) (ph : ProbeHandler),
        program_calls (CgroupProber.ctor ⟨fs, attach, throws⟩ ph fuel).trace =
          program_calls (CgroupProber.ctor_attach ⟨fs, attach, throws⟩ ph).2 ++ rest ∧
        (CgroupProber.ctor ⟨fs, attach, throws⟩ ph fuel).status = status ∧
        (CgroupProber.ctor ⟨fs, attach, throws⟩ ph fuel).close_dir_error_count_ = count := by
  cases hs : throws "cgroup prober startup" with
  | true =>
    refine ⟨[Event.check_cb "cgroup prober startup"], Status.raised "cgroup prober startup", 0,
      fun attach ph => ?_⟩
    have hrun : CgroupProber.ctor ⟨fs, attach, throws⟩ ph fuel =
        ⟨(CgroupProber.ctor_attach ⟨fs, attach, throws⟩ ph).1, 0,
          (CgroupProber.ctor_attach ⟨fs, attach, throws⟩ ph).2
            ++ [Event.check_cb "cgroup prober startup"],
          Status.raised "cgroup prober startup"⟩ := by
      simp [CgroupProber.ctor, hs]
    rw [hrun]
    exact ⟨by rw [program_calls_append]; rfl, rfl, rfl⟩
  | false =>
    by_cases hm : (CgroupProber.find_cgroup_mountpoint fs).1 = ""
    · refine ⟨program_calls ([Event.check_cb "cgroup prober startup"]
          ++ (CgroupProber.find_cgroup_mountpoint fs).2)
          ++ [Event.call_cleanup_probe "cgroup_clone_children_read",
            Event.periodic_cb, Event.check_cb "cgroup prober cleanup()"],
        (if throws "cgroup prober cleanup()" then Status.raised "cgroup prober cleanup()"
          else Status.returned), 0, fun attach ph => ?_⟩
      have hrun := ctor_without_mountpoint ⟨fs, attach, throws⟩ ph fuel hm
      simp only [hs, Bool.false_eq_true, if_false] at hrun
      obtain ⟨_, cs, _, cc⟩ := ctor_cleanup_trace ⟨fs, attach, throws⟩
        (CgroupProber.ctor_attach ⟨fs, attach, throws⟩ ph).1 0
        ((CgroupProber.ctor_attach ⟨fs, attach, throws⟩ ph).2
          ++ [Event.check_cb "cgroup prober startup"]
          ++ (CgroupProber.find_cgroup_mountpoint fs).2)
      rw [hrun, ctor_cleanup_program_calls]
      refine ⟨?_, cs, cc⟩
      simp only [program_calls_append, List.append_assoc]
    · cases hst : CgroupProber.trigger_cgroup_clone_children_read fs fuel ⟨0⟩
          (CgroupProber.find_cgroup_mountpoint fs).1 with
      | none =>
        refine ⟨program_calls ([Event.check_cb "cgroup prober startup"]
            ++ (CgroupProber.find_cgroup_mountpoint fs).2), Status.out_of_fuel, 0,
          fun attach ph => ?_⟩
        have hrun := ctor_out_of_fuel ⟨fs, attach, throws⟩ ph fuel hm hst
        simp only [hs, Bool.false_eq_true, if_false] at hrun
        rw [hrun]
        refine ⟨?_, rfl, rfl⟩
        simp only [program_calls_append, List.append_assoc]
      | some st =>
        cases ht : throws "trigger_cgroup_clone_children_read()" with
        | true =>
          refine ⟨program_calls ([Event.check_cb "cgroup prober startup"]
              ++ (CgroupProber.find_cgroup_mountpoint fs).2 ++ st.trace
              ++ [Event.check_cb "trigger_cgroup_clone_children_read()"]),
            Status.raised "trigger_cgroup_clone_children_read()", st.close_dir_error_count_,
            fun attach ph => ?_⟩
          have hrun := ctor_with_mountpoint ⟨fs, attach, throws⟩ ph fuel st hm hst
          simp only [hs, ht, Bool.false_eq_true, if_false, if_true] at hrun
          rw [hrun]
          refine ⟨?_, rfl, rfl⟩
          simp only [program_calls_append, List.append_assoc]
        | false =>
          refine ⟨program_calls ([Event.check_cb "cgroup prober startup"]
              ++ (CgroupProber.find_cgroup_mountpoint fs).2 ++ st.trace
              ++ [Event.check_cb "trigger_cgroup_clone_children_read()"])
              ++ [Event.call_cleanup_probe "cgroup_clone_children_read",
                Event.periodic_cb, Event.check_cb "cgroup prober cleanup()"],
            (if throws "cgroup prober cleanup()" then Status.raised "cgroup prober cleanup()"
              else Status.returned), st.close_dir_error_count_, fun attach ph => ?_⟩
          have hrun := ctor_with_mountpoint ⟨fs, attach, throws⟩ ph fuel st hm hst
          simp only [hs, ht, Bool.false_eq_true, if_false] at hrun
          obtain ⟨_, cs, _, cc⟩ := ctor_cleanup_trace ⟨fs, attach, throws⟩
            (CgroupProber.ctor_attach ⟨fs, attach, throws⟩ ph).1 st.close_dir_error_count_
            ((CgroupProber.ctor_attach ⟨fs, attach, throws⟩ ph).2
              ++ [Event.check_cb "cgroup prober startup"]
              ++ (CgroupProber.find_cgroup_mountpoint fs).2 ++ st.trace
              ++ [Event.check_cb "trigger_cgroup_clone_children_read()"])
          rw [hrun, ctor_cleanup_program_calls]
          refine ⟨?_, cs, cc⟩
          simp only [program_calls_append, List.append_assoc]

/-- C19: the constructor ignores the result of every `start_probe` call.  Two runs that differ
only in which attachments succeed (and in the handler they start from) make the same calls in
the same order, apart from the requests the handler makes to the kernel: the same four
`start_probe` calls, first in the run and in source order, the same liveness and checkpoint
callback invocations, the same traversal and the same `cleanup_probe` call; they end the same
way and with the same `close_dir_error_count_`.  The constructor never raises on its own
account: it ends raised only at a label at which the checkpoint callback threw. -/
theorem constructor_ignores_attach_results (env : Env) (ph ph2 : ProbeHandler) (fuel : Nat)
    (attach2 : Bool → String → String → Bool) :
    program_calls (CgroupProber.ctor (env.with_attach attach2) ph2 fuel).trace =
      program_calls (CgroupProber.ctor env ph fuel).trace ∧
    (CgroupProber.ctor (env.with_attach attach2) ph2 fuel).status =
      (CgroupProber.ctor env ph fuel).status ∧
    (CgroupProber.ctor (env.with_attach attach2) ph2 fuel).close_dir_error_count_ =
      (CgroupProber.ctor env ph fuel).close_dir_error_count_ ∧
    (∃ rest, program_calls (CgroupProber.ctor env ph fuel).trace =
      [Event.call_start_probe_alternatives kill_kss_probe_alternatives, Event.periodic_cb,
        Event.call_start_probe_alternatives css_populate_dir_probe_alternatives,
        Event.periodic_cb,
        Event.call_start_probe "on_cgroup_clone_children_read" "cgroup_clone_children_read",
        Event.call_start_probe "on_cgroup_attach_task" "cgroup_attach_task",
        Event.periodic_cb] ++ rest) ∧
    (∀ l, (CgroupProber.ctor env ph fuel).status = Status.raised l →
      env.check_cb_throws l = true) := by
  obtain ⟨rest, status, count, hall⟩ := ctor_outside_attach env.fs env.check_cb_throws fuel
  obtain ⟨a1, a2, a3⟩ := hall env.attach ph
  obtain ⟨b1, b2, b3⟩ := hall attach2 ph2
  have he : (⟨env.fs, env.attach, env.check_cb_throws⟩ : Env) = env := rfl
  have he2 : (⟨env.fs, attach2, env.check_cb_throws⟩ : Env) = env.with_attach attach2 := rfl
  rw [he] at a1 a2 a3
  rw [he2] at b1 b2 b3
  rw [ctor_attach_program_calls] at a1 b1
  refine ⟨by rw [a1, b1], by rw [a2, b2], by rw [a3, b3], ⟨rest, a1⟩, ?_⟩
  intro l hl
  rcases ctor_cases env ph fuel with ⟨hs, hst, _, _⟩ | ⟨_, hst, _⟩ | ⟨_, ht, hst, _, _⟩ |
    ⟨_, hst, _, _⟩
  · rw [hst] at hl; cases hl; exact hs
  · rw [hst] at hl; cases hl
  · rw [hst] at hl; cases hl; exact ht
  · rw [hst] at hl
    cases hc : env.check_cb_throws "cgroup prober cleanup()" with
    | true =>
      rw [hc] at hl
      simp only [if_true] at hl
      cases hl
      exact hc
    | false =>
      rw [hc] at hl
      simp only [Bool.false_eq_true, if_false] at hl
      cases hl

/-! ## The paths pushed and popped -/

theorem is_pushed_iff (e : dirent) :
    is_pushed e = true ↔ e.d_type = DT_DIR ∧ e.d_name ≠ "." ∧ e.d_name ≠ ".." := by
  simp [is_pushed]

theorem takes_continue_iff (e : dirent) :
    takes_continue e = true ↔ e.d_type = DT_DIR ∧ (e.d_name = "." ∨ e.d_name = "..") := by
  simp [takes_continue]

theorem descend_snoc (root : String) (names : List String) (d_name : String) :
    descend root (names ++ [d_name]) = descend root names ++ "/" ++ d_name := by
  simp [descend, List.foldl_append]

/-- Every path on the stack and every path popped is the starting path followed by names of
entries that were read and pushed. -/
theorem paths_descend_from_root (fs : FileSystem) (fuel : Nat) (this : CgroupProber)
    (root : String) :
    ∀ p, (p ∈ (CgroupProber.traversal_after fs fuel this root).dirs_stack ∨
        p ∈ popped (CgroupProber.traversal_after fs fuel this root).trace) →
      ∃ names, p = descend root names ∧
        ∀ n ∈ names, ∃ q e,
          (q, e) ∈ entries_read (CgroupProber.traversal_after fs fuel this root).trace ∧
          e.d_name = n ∧ is_pushed e = true := by
  apply while_loop_induct fs (fun s => ∀ p, (p ∈ s.dirs_stack ∨ p ∈ popped s.trace) →
    ∃ names, p = descend root names ∧
      ∀ n ∈ names, ∃ q e, (q, e) ∈ entries_read s.trace ∧ e.d_name = n ∧ is_pushed e = true)
  · intro q below count trace ih p hp
    simp only [] at ih hp ⊢
    have hent : entries_read (trace ++ body_events fs trace.length q) =
        entries_read trace ++ entries_read (body_events fs trace.length q) := by
      simp [entries_read]
    have hpop : popped (trace ++ body_events fs trace.length q) = popped trace ++ [q] := by
      rw [← popped_body_events fs trace.length q]; simp [popped]
    -- a path known before the pass keeps its names
    have hold : ∀ p, (p ∈ q :: below ∨ p ∈ popped trace) →
        ∃ names, p = descend root names ∧
          ∀ n ∈ names, ∃ q2 e,
            (q2, e) ∈ entries_read (trace ++ body_events fs trace.length q) ∧
            e.d_name = n ∧ is_pushed e = true := by
      intro p hp
      obtain ⟨names, hn, hall⟩ := ih p hp
      refine ⟨names, hn, fun n hmem => ?_⟩
      obtain ⟨q2, e, he, hname, hpush⟩ := hall n hmem
      exact ⟨q2, e, by rw [hent]; exact List.mem_append_left _ he, hname, hpush⟩
    rw [hpop] at hp
    simp only [List.mem_append, List.mem_reverse, List.mem_singleton] at hp
    rcases hp with (hp | hp) | (hp | hp)
    · -- pushed by this pass
      unfold body_pushes at hp
      cases hop : fs.opendir trace.length q with
      | none => rw [hop] at hp; cases hp
      | some ents =>
        rw [hop] at hp
        simp only [] at hp
        by_cases hf : fs.ifstream_fail trace.length (q ++ "/cgroup.clone_children") = true
        · rw [if_pos hf] at hp; cases hp
        · rw [if_neg hf] at hp
          simp only [pushed_paths, List.mem_map, List.mem_filter] at hp
          obtain ⟨e, ⟨he, hpe⟩, rfl⟩ := hp
          obtain ⟨names, hn, hall⟩ := hold q (Or.inl (List.mem_cons_self _ _))
          refine ⟨names ++ [e.d_name], by rw [descend_snoc, hn], fun n hmem => ?_⟩
          simp only [List.mem_append, List.mem_singleton] at hmem
          rcases hmem with hmem | rfl
          · exact hall n hmem
          · refine ⟨q, e, ?_, rfl, hpe⟩
            obtain ⟨_, _, _, _, o5, _⟩ := observe_body_events_ok fs trace.length q ents hop
              (by simpa using hf)
            rw [hent, o5]
            exact List.mem_append_right _ (List.mem_map.2 ⟨e, he, rfl⟩)
    · exact hold p (Or.inl (List.mem_cons_of_mem _ hp))
    · exact hold p (Or.inr hp)
    · subst hp
      exact hold p (Or.inl (List.mem_cons_self _ _))
  · intro p hp
    simp only [TraversalState.emplace, List.nil_append, List.mem_singleton, popped,
      List.filterMap_cons, List.filterMap_nil, List.not_mem_nil, or_false] at hp
    subst hp
    exact ⟨[], rfl, by simp⟩

/-- C20: while a directory is enumerated, the paths pushed are exactly the strings
`dir_name + "/" + d_name` for the entries whose type is `DT_DIR` and whose name is neither `.` nor
`..`, in enumeration order (so entries of any other type are never pushed); the liveness
callback is invoked once for every entry except the `DT_DIR` entries named `.` or `..`, which are
skipped without it; and every path on the stack or popped, in any run, is the starting path
followed by zero or more `/`-prefixed names of entries that were read and pushed. -/
theorem pushed_paths_are_subdirectories (dir_name : String) (ents : List dirent)
    (st : TraversalState) :
    (readdir_loop dir_name ents st).dirs_stack =
      ((ents.filter is_pushed).map (fun e => dir_name ++ "/" ++ e.d_name)).reverse
        ++ st.dirs_stack ∧
    pushed (readdir_loop dir_name ents st).trace =
      pushed st.trace ++ (ents.filter is_pushed).map (fun e => dir_name ++ "/" ++ e.d_name) ∧
    (∀ e, is_pushed e = true ↔ e.d_type = DT_DIR ∧ e.d_name ≠ "." ∧ e.d_name ≠ "..") ∧
    periodic_cb_calls (readdir_loop dir_name ents st).trace =
      periodic_cb_calls st.trace + (ents.filter (fun e => !takes_continue e)).length ∧
    (∀ e, takes_continue e = true ↔ e.d_type = DT_DIR ∧ (e.d_name = "." ∨ e.d_name = "..")) ∧
    (∀ (fs : FileSystem) (fuel : Nat) (this : CgroupProber) (root : String) (p : String),
      (p ∈ (CgroupProber.traversal_after fs fuel this root).dirs_stack ∨
        p ∈ popped (CgroupProber.traversal_after fs fuel this root).trace) →
      ∃ names, p = descend root names ∧
        ∀ n ∈ names, ∃ q e,
          (q, e) ∈ entries_read (CgroupProber.traversal_after fs fuel this root).trace ∧
          e.d_name = n ∧ is_pushed e = true) ∧
    (∀ root names d_name, descend root [] = root ∧
      descend root (names ++ [d_name]) = descend root names ++ "/" ++ d_name) := by
  rw [readdir_loop_eq]
  refine ⟨rfl, ?_, is_pushed_iff, ?_, takes_continue_iff,
    fun fs fuel this root => paths_descend_from_root fs fuel this root,
    fun root names d_name => ⟨rfl, descend_snoc root names d_name⟩⟩
  · simp only []
    have h := pushed_readdir_events dir_name ents
    simp only [pushed, pushed_paths] at h ⊢
    rw [List.filterMap_append, h]
  · simp only []
    rw [periodic_cb_calls_append, periodic_cb_calls_readdir_events]

/-! ## A liveness callback that throws -/

theorem call_periodic_cb_ok (throws : Nat → Bool) (st st2 : TraversalState)
    (h : call_periodic_cb throws st = Except.ok st2) : st2 = st.emit Event.periodic_cb := by
  unfold call_periodic_cb at h
  split_ifs at h
  cases h; rfl

theorem call_periodic_cb_error (throws : Nat → Bool) (st st2 : TraversalState)
    (h : call_periodic_cb throws st = Except.error st2) : st2 = st.emit Event.periodic_cb := by
  unfold call_periodic_cb at h
  split_ifs at h
  cases h; rfl

theorem call_periodic_cb_returns (throws : Nat → Bool) (hnever : ∀ n, throws n = false)
    (st : TraversalState) :
    call_periodic_cb throws st = Except.ok (st.emit Event.periodic_cb) := by
  simp [call_periodic_cb, hnever]

theorem may_throw_readdir_loop_ok (throws : Nat → Bool) (dir_name : String)
    (ents : List dirent) (st st2 : TraversalState)
    (h : MayThrow.readdir_loop throws dir_name ents st = Except.ok st2) :
    st2 = readdir_loop dir_name ents st := by
  induction ents generalizing st with
  | nil =>
    simp only [MayThrow.readdir_loop] at h
    cases h; rfl
  | cons ent rest ih =>
    simp only [MayThrow.readdir_loop, readdir_loop] at h ⊢
    split_ifs at h ⊢
    · exact ih _ h
    · cases hcb : call_periodic_cb throws
          ((st.emit (Event.readdir dir_name (some ent))).emplace (dir_name ++ "/" ++ ent.d_name)) with
      | error e => rw [hcb] at h; cases h
      | ok s =>
        rw [hcb] at h
        simp only [] at h
        rw [call_periodic_cb_ok _ _ _ hcb] at h
        exact ih _ h
    · cases hcb : call_periodic_cb throws (st.emit (Event.readdir dir_name (some ent))) with
      | error e => rw [hcb] at h; cases h
      | ok s =>
        rw [hcb] at h
        simp only [] at h
        rw [call_periodic_cb_ok _ _ _ hcb] at h
        exact ih _ h

theorem readdir_loop_trace_extends (dir_name : String) (ents : List dirent)
    (st : TraversalState) :
    ∃ ext, (readdir_loop dir_name ents st).trace = st.trace ++ ext := by
  rw [readdir_loop_eq]
  exact ⟨_, rfl⟩

theorem may_throw_readdir_loop_error (throws : Nat → Bool) (dir_name : String)
    (ents : List dirent) (st st2 : TraversalState)
    (h : MayThrow.readdir_loop throws dir_name ents st = Except.error st2) :
    ∃ rest, (readdir_loop dir_name ents st).trace = st2.trace ++ rest := by
  induction ents generalizing st with
  | nil =>
    simp only [MayThrow.readdir_loop] at h
    cases h
  | cons ent rest ih =>
    simp only [MayThrow.readdir_loop, readdir_loop] at h ⊢
    split_ifs at h ⊢
    · exact ih _ h
    · cases hcb : call_periodic_cb throws
          ((st.emit (Event.readdir dir_name (some ent))).emplace (dir_name ++ "/" ++ ent.d_name)) with
      | error e =>
        rw [hcb] at h
        cases h
        rw [call_periodic_cb_error _ _ _ hcb]
        exact readdir_loop_trace_extends _ _ _
      | ok s =>
        rw [hcb] at h
        simp only [] at h
        rw [call_periodic_cb_ok _ _ _ hcb] at h
        exact ih _ h
    · cases hcb : call_periodic_cb throws (st.emit (Event.readdir dir_name (some ent))) with
      | error e =>
        rw [hcb] at h
        cases h
        rw [call_periodic_cb_error _ _ _ hcb]
        exact readdir_loop_trace_extends _ _ _
      | ok s =>
        rw [hcb] at h
        simp only [] at h
        rw [call_periodic_cb_ok _ _ _ hcb] at h
        exact ih _ h

theorem may_throw_readdir_loop_returns (throws : Nat → Bool) (hnever : ∀ n, throws n = false)
    (dir_name : String) (ents : List dirent) (st : TraversalState) :
    MayThrow.readdir_loop throws dir_name ents st = Except.ok (readdir_loop dir_name ents st) := by
  induction ents generalizing st with
  | nil => rfl
  | cons ent rest ih =>
    simp only [MayThrow.readdir_loop, readdir_loop, call_periodic_cb_returns throws hnever]
    split_ifs
    · exact ih _
    · exact ih _
    · exact ih _

theorem close_and_count_trace (fs : FileSystem) (clock : Nat) (dir_name : String)
    (st : TraversalState) :
    (close_and_count fs clock dir_name st).trace =
      st.trace ++ [Event.closedir dir_name (fs.closedir clock dir_name)] := by
  unfold close_and_count
  simp only []
  split_ifs <;> rfl

theorem may_throw_loop_body_ok (fs : FileSystem) (throws : Nat → Bool)
    (st st2 : TraversalState) (h : MayThrow.loop_body fs throws st = Except.ok st2) :
    st2 = loop_body fs st := by
  obtain ⟨stack, count, trace⟩ := st
  cases stack with
  | nil =>
    simp only [MayThrow.loop_body] at h
    cases h; rfl
  | cons d below =>
    simp only [MayThrow.loop_body, loop_body] at h ⊢
    cases hcb : call_periodic_cb throws ⟨d :: below, count, trace⟩ with
    | error e => rw [hcb] at h; cases h
    | ok s =>
      rw [hcb] at h
      simp only [] at h
      rw [call_periodic_cb_ok _ _ _ hcb] at h
      cases hop : fs.opendir trace.length d with
      | none =>
        rw [hop] at h
        cases h; rfl
      | some ents =>
        rw [hop] at h
        simp only [] at h ⊢
        split_ifs at h ⊢
        · cases h; rfl
        · split at h
          · cases h
          · rename_i s2 hrd
            cases h
            rw [may_throw_readdir_loop_ok _ _ _ _ _ hrd]

theorem may_throw_loop_body_error (fs : FileSystem) (throws : Nat → Bool)
    (st st2 : TraversalState) (h : MayThrow.loop_body fs throws st = Except.error st2) :
    ∃ rest, (loop_body fs st).trace = st2.trace ++ rest := by
  obtain ⟨stack, count, trace⟩ := st
  cases stack with
  | nil =>
    simp only [MayThrow.loop_body] at h
    cases h
  | cons d below =>
    rw [loop_body_eq]
    simp only [MayThrow.loop_body] at h ⊢
    cases hcb : call_periodic_cb throws ⟨d :: below, count, trace⟩ with
    | error e =>
      rw [hcb] at h
      cases h
      rw [call_periodic_cb_error _ _ _ hcb]
      refine ⟨(body_events fs trace.length d).tail, ?_⟩
      have hb : body_events fs trace.length d =
          Event.periodic_cb :: (body_events fs trace.length d).tail := by
        unfold body_events
        cases fs.opendir trace.length d with
        | none => rfl
        | some ents => simp only []; split_ifs <;> rfl
      simp only [TraversalState.emit, List.append_assoc, List.singleton_append]
      rw [← hb]
    | ok s =>
      rw [hcb] at h
      simp only [] at h
      rw [call_periodic_cb_ok _ _ _ hcb] at h
      cases hop : fs.opendir trace.length d with
      | none =>
        rw [hop] at h
        cases h
      | some ents =>
        rw [hop] at h
        simp only [] at h
        by_cases hf : fs.ifstream_fail trace.length (d ++ "/cgroup.clone_children") = true
        · rw [if_pos hf] at h
          cases h
        · rw [if_neg hf] at h
          split at h
          · rename_i e hrd
            cases h
            obtain ⟨rest, hrest⟩ := may_throw_readdir_loop_error _ _ _ _ _ hrd
            rw [readdir_loop_eq] at hrest
            simp only [TraversalState.emit, List.append_assoc, List.singleton_append] at hrest
            refine ⟨rest ++ [Event.closedir d (fs.closedir trace.length d)], ?_⟩
            rw [← List.append_assoc, ← hrest]
            unfold body_events
            simp [hop, hf]
          · cases h

theorem may_throw_loop_body_returns (fs : FileSystem) (throws : Nat → Bool)
    (hnever : ∀ n, throws n = false) (st : TraversalState) :
    MayThrow.loop_body fs throws st = Except.ok (loop_body fs st) := by
  obtain ⟨stack, count, trace⟩ := st
  cases stack with
  | nil => rfl
  | cons d below =>
    simp only [MayThrow.loop_body, loop_body, call_periodic_cb_returns throws hnever,
      may_throw_readdir_loop_returns throws hnever]
    cases fs.opendir trace.length d with
    | none => rfl
    | some ents =>
      simp only []
      split_ifs <;> rfl

theorem may_throw_while_loop_ok (fs : FileSystem) (throws : Nat → Bool) (fuel : Nat)
    (st st2 : TraversalState) (h : MayThrow.while_loop fs throws fuel st = Except.ok st2) :
    st2 = while_loop fs fuel st := by
  induction fuel generalizing st with
  | zero =>
    simp only [MayThrow.while_loop] at h
    cases h; rfl
  | succ n ih =>
    obtain ⟨stack, count, trace⟩ := st
    cases stack with
    | nil =>
      simp only [MayThrow.while_loop] at h
      cases h; rfl
    | cons d below =>
      simp only [MayThrow.while_loop, while_loop] at h ⊢
      split at h
      · cases h
      · rename_i s hs
        rw [← may_throw_loop_body_ok _ _ _ _ hs]
        exact ih _ h

theorem may_throw_while_loop_error (fs : FileSystem) (throws : Nat → Bool) (fuel : Nat)
    (st st2 : TraversalState) (h : MayThrow.while_loop fs throws fuel st = Except.error st2) :
    ∃ rest, (while_loop fs fuel st).trace = st2.trace ++ rest := by
  induction fuel generalizing st with
  | zero =>
    simp only [MayThrow.while_loop] at h
    cases h
  | succ n ih =>
    obtain ⟨stack, count, trace⟩ := st
    cases stack with
    | nil =>
      simp only [MayThrow.while_loop] at h
      cases h
    | cons d below =>
      simp only [MayThrow.while_loop, while_loop] at h ⊢
      split at h
      · rename_i e he
        cases h
        obtain ⟨rest, hrest⟩ := may_throw_loop_body_error _ _ _ _ he
        obtain ⟨ext, hext⟩ := while_loop_trace_extends fs n (loop_body fs ⟨d :: below, count, trace⟩)
        rw [hext, hrest]
        exact ⟨_, List.append_assoc _ _ _⟩
      · rename_i s hs
        rw [← may_throw_loop_body_ok _ _ _ _ hs]
        exact ih _ h

theorem may_throw_while_loop_returns (fs : FileSystem) (throws : Nat → Bool)
    (hnever : ∀ n, throws n = false) (fuel : Nat) (st : TraversalState) :
    MayThrow.while_loop fs throws fuel st = Except.ok (while_loop fs fuel st) := by
  induction fuel generalizing st with
  | zero => rfl
  | succ n ih =>
    obtain ⟨stack, count, trace⟩ := st
    cases stack with
    | nil => rfl
    | cons d below =>
      simp only [MayThrow.while_loop, while_loop, may_throw_loop_body_returns fs throws hnever]
      exact ih _

theorem may_throw_traversal_ok (fs : FileSystem) (throws : Nat → Bool) (fuel : Nat)
    (this : CgroupProber) (root : String) (st : TraversalState)
    (h : MayThrow.traversal_after fs throws fuel this root = Except.ok st) :
    st = CgroupProber.traversal_after fs fuel this root :=
  may_throw_while_loop_ok fs throws fuel _ st h

theorem may_throw_traversal_error (fs : FileSystem) (throws : Nat → Bool) (fuel : Nat)
    (this : CgroupProber) (root : String) (st : TraversalState)
    (h : MayThrow.traversal_after fs throws fuel this root = Except.error st) :
    ∃ rest, (CgroupProber.traversal_after fs fuel this root).trace = st.trace ++ rest :=
  may_throw_while_loop_error fs throws fuel _ st h

theorem may_throw_traversal_returns (fs : FileSystem) (throws : Nat → Bool)
    (hnever : ∀ n, throws n = false) (fuel : Nat) (this : CgroupProber) (root : String) :
    MayThrow.traversal_after fs throws fuel this root =
      Except.ok (CgroupProber.traversal_after fs fuel this root) :=
  may_throw_while_loop_returns fs throws hnever fuel _

theorem handle_step_broken (l : List Event) : l.foldl handle_step none = none := by
  induction l with
  | nil => rfl
  | cons e rest ih => simpa [List.foldl, handle_step] using ih

/-- A list of calls that respects the handle discipline respects it at every earlier point. -/
theorem handle_after_prefix (t rest : List Event) (cur : Option String)
    (h : handle_after (t ++ rest) = some cur) : ∃ cur0, handle_after t = some cur0 := by
  unfold handle_after at h ⊢
  rw [List.foldl_append] at h
  cases h0 : List.foldl handle_step (some none) t with
  | none => rw [h0, handle_step_broken] at h; cases h
  | some c => exact ⟨c, rfl⟩

/-- Under the handle discipline the directories opened are the directories closed, followed by
the one whose handle is open, if any. -/
theorem handle_after_opened_closed (trace : List Event) :
    ∀ cur, handle_after trace = some cur →
      dirs_opened trace = dirs_closed trace ++ cur.toList := by
  induction trace using List.reverseRecOn with
  | nil =>
    intro cur h
    cases h
    rfl
  | append_singleton t e ih =>
    intro cur h
    obtain ⟨c0, hc0⟩ := handle_after_prefix t [e] cur h
    have ih0 := ih c0 hc0
    have hstep : handle_step (some c0) e = some cur := by
      unfold handle_after at h hc0
      rw [List.foldl_append, hc0] at h
      exact h
    have ho : dirs_opened (t ++ [e]) = dirs_opened t ++ dirs_opened [e] := by
      simp [dirs_opened]
    have hc : dirs_closed (t ++ [e]) = dirs_closed t ++ dirs_closed [e] := by
      simp [dirs_closed]
    rw [ho, hc, ih0]
    cases e with
    | opendir p ok =>
      cases ok with
      | true =>
        cases c0 with
        | none =>
          simp only [handle_step, Option.bind, if_true] at hstep
          cases hstep
          simp [dirs_opened, dirs_closed]
        | some q => simp [handle_step, Option.bind] at hstep
      | false =>
        simp only [handle_step, Option.bind] at hstep
        cases hstep
        simp [dirs_opened, dirs_closed]
    | closedir p status =>
      cases c0 with
      | none => simp [handle_step, Option.bind] at hstep
      | some q =>
        simp only [handle_step, Option.bind] at hstep
        split_ifs at hstep with hq
        cases hstep
        cases hq
        simp [dirs_opened, dirs_closed]
    | pop p =>
      cases c0 with
      | none =>
        simp only [handle_step, Option.bind, if_true] at hstep
        cases hstep
        simp [dirs_opened, dirs_closed]
      | some q => simp [handle_step, Option.bind] at hstep
    | _ =>
      simp only [handle_step, Option.bind] at hstep
      cases hstep
      simp [dirs_opened, dirs_closed]

/-- C10, counterexample: on a mount point `/m` whose stream returns `.`, `..`, the regular file
`cgroup.clone_children` and the directory `a`, with a callback that throws at its second
invocation, the exception comes out of the `periodic_cb()` that follows the regular file; it
leaves the method with the handle of `/m` open: one `opendir` succeeded and no `closedir` was
called. -/
theorem callback_throw_leaves_handle_open :
    (∀ clock, (fs_of "/m" chain3).opendir clock "/m" =
      some [⟨DT_DIR, "."⟩, ⟨DT_DIR, ".."⟩, ⟨DT_REG, "cgroup.clone_children"⟩, ⟨DT_DIR, "a"⟩]) ∧
    throws_at_second 0 = false ∧ throws_at_second 1 = true ∧
    ∃ st, MayThrow.traversal_after (fs_of "/m" chain3) throws_at_second 3 ⟨0⟩ "/m" =
        Except.error st ∧
      st.trace = [Event.push "/m", Event.periodic_cb, Event.pop "/m", Event.opendir "/m" true,
        Event.ifstream "/m/cgroup.clone_children" true, Event.getline "/m/cgroup.clone_children",
        Event.readdir "/m" (some ⟨DT_DIR, "."⟩), Event.readdir "/m" (some ⟨DT_DIR, ".."⟩),
        Event.readdir "/m" (some ⟨DT_REG, "cgroup.clone_children"⟩), Event.periodic_cb] ∧
      dirs_opened st.trace = ["/m"] ∧ dirs_closed st.trace = [] ∧
      (dirs_closed st.trace).length ≠ (dirs_opened st.trace).length ∧
      handle_after st.trace = some (some "/m") :=
  ⟨fun _ => (by decide : (chain3.all_dirs "/m").lookup "/m" =
      some [⟨DT_DIR, "."⟩, ⟨DT_DIR, ".."⟩, ⟨DT_REG, "cgroup.clone_children"⟩, ⟨DT_DIR, "a"⟩]),
    by decide, by decide,
    ⟨[], 0, [Event.push "/m", Event.periodic_cb, Event.pop "/m", Event.opendir "/m" true,
      Event.ifstream "/m/cgroup.clone_children" true, Event.getline "/m/cgroup.clone_children",
      Event.readdir "/m" (some ⟨DT_DIR, "."⟩), Event.readdir "/m" (some ⟨DT_DIR, ".."⟩),
      Event.readdir "/m" (some ⟨DT_REG, "cgroup.clone_children"⟩), Event.periodic_cb]⟩,
    by rfl, by rfl, by decide, by decide, by decide, by decide⟩

/-- C10, amended: as long as every invocation of the liveness callback has returned, no directory
handle is open at a pass boundary and the calls made respect the handle discipline: `opendir`
succeeded only while no handle was open, every `closedir` closed the handle then open, and every
pop happened while no handle was open; so each handle obtained is closed exactly once in the pass
that obtained it, on every path through the pass on which the callback returns, the directories
closed are the directories opened, in order, and the two call counts agree.  In a run that an
exception of the callback ends, the discipline holds up to the exception (every pop happened with
no handle open), and the directories opened are the directories closed followed by at most one,
whose handle is open.  A callback that never throws gives the run of the model in which the
callback is a call that returns. -/
theorem handles_closed_when_callback_returns (fs : FileSystem) (periodic_cb_throws : Nat → Bool)
    (fuel : Nat) (this : CgroupProber) (root : String) :
    (∀ st, MayThrow.traversal_after fs periodic_cb_throws fuel this root = Except.ok st →
      handle_after st.trace = some none ∧
      dirs_closed st.trace = dirs_opened st.trace ∧
      (dirs_closed st.trace).length = (dirs_opened st.trace).length) ∧
    (∀ st, MayThrow.traversal_after fs periodic_cb_throws fuel this root = Except.error st →
      ∃ cur, handle_after st.trace = some cur ∧
        dirs_opened st.trace = dirs_closed st.trace ++ cur.toList) ∧
    ((∀ n, periodic_cb_throws n = false) →
      MayThrow.traversal_after fs periodic_cb_throws fuel this root =
        Except.ok (CgroupProber.traversal_after fs fuel this root)) := by
  refine ⟨fun st h => ?_, fun st h => ?_, fun hnever =>
    may_throw_traversal_returns fs periodic_cb_throws hnever fuel this root⟩
  · rw [may_throw_traversal_ok fs periodic_cb_throws fuel this root st h]
    exact handles_closed_within_pass fs fuel this root
  · obtain ⟨rest, hrest⟩ := may_throw_traversal_error fs periodic_cb_throws fuel this root st h
    have hall := (handles_closed_within_pass fs fuel this root).1
    rw [hrest] at hall
    obtain ⟨cur, hcur⟩ := handle_after_prefix st.trace rest none hall
    exact ⟨cur, hcur, handle_after_opened_closed st.trace cur hcur⟩

/-- Witness for C10, amended: with a callback that never throws the traversal of a chain of three
directories returns with every handle closed; with a callback that throws at its second
invocation the discipline holds up to the exception. -/
theorem handles_closed_when_callback_returns_witness :
    (∃ st, MayThrow.traversal_after (fs_of "/m" chain3) never_throws 3 ⟨0⟩ "/m" = Except.ok st ∧
      st.dirs_stack = [] ∧
      dirs_opened st.trace = ["/m", "/m/a", "/m/a/b"] ∧
      handle_after st.trace = some none ∧
      dirs_closed st.trace = dirs_opened st.trace ∧
      (dirs_closed st.trace).length = (dirs_opened st.trace).length) ∧
    (∃ st, MayThrow.traversal_after (fs_of "/m" chain3) throws_at_second 3 ⟨0⟩ "/m" =
        Except.error st ∧
      ∃ cur, handle_after st.trace = some cur ∧
        dirs_opened st.trace = dirs_closed st.trace ++ cur.toList) :=
  ⟨⟨CgroupProber.traversal_after (fs_of "/m" chain3) 3 ⟨0⟩ "/m",
      (handles_closed_when_callback_returns (fs_of "/m" chain3) never_throws 3 ⟨0⟩ "/m").2.2
        (fun _ => rfl),
      by decide, by decide,
      (handles_closed_when_callback_returns (fs_of "/m" chain3) never_throws 3 ⟨0⟩ "/m").1 _
        ((handles_closed_when_callback_returns (fs_of "/m" chain3) never_throws 3 ⟨0⟩ "/m").2.2
          (fun _ => rfl))⟩,
    ⟨⟨[], 0, [Event.push "/m", Event.periodic_cb, Event.pop "/m", Event.opendir "/m" true,
      Event.ifstream "/m/cgroup.clone_children" true, Event.getline "/m/cgroup.clone_children",
      Event.readdir "/m" (some ⟨DT_DIR, "."⟩), Event.readdir "/m" (some ⟨DT_DIR, ".."⟩),
      Event.readdir "/m" (some ⟨DT_REG, "cgroup.clone_children"⟩), Event.periodic_cb]⟩,
      by rfl,
      (handles_closed_when_callback_returns (fs_of "/m" chain3) throws_at_second 3 ⟨0⟩ "/m").2.1 _
        (by rfl)⟩⟩
